import Mathlib

/-!
# Safe-route navigation: waypoint generation, graph construction, penalties

A shallow embedding of `server.js` (snapshot `server_20250415073935.js`).

Numbers.  A JavaScript number is modelled by `JSNum`: a finite value is an exact
rational, and the three special values `NaN`, `+Infinity`, `-Infinity` follow the
IEEE-754 rules for special operands.  Arithmetic on finite values is exact: rounding,
overflow and the sign of zero are not modelled, and a decimal literal of the source
(`0.03`, `111.32`, `2.5`, `0.4`) denotes its exact decimal value.  A statement whose
truth depends on rounding, or on a square root that is not rational, is outside the
model.

External code.  `haversine-distance`, the method `nearest` of a tree of
`kd-tree-javascript`, `Math.sqrt` and `Math.cos` are not part of the repository; they
are taken as parameters, bundled in `Env`.  The constructor of the tree is not a
parameter: the source binds the name `KDTree`, which the package does not export, so
the constructor call of `createKDTree` fails (`newKDTree`).  `Math.random` is the
sequence of the values its successive calls return.
-/

namespace SafeRoute

/-! ## JavaScript numbers -/

/-- A JavaScript number: a finite value (exact rational) or an IEEE special value. -/
inductive JSNum where
  | fin (q : ℚ)
  | nan
  | posInf
  | negInf
  deriving DecidableEq

namespace JSNum

/-- The global `isNaN` on a number. -/
def isNaN : JSNum → Bool
  | nan => true
  | _ => false

/-- The global `isFinite` on a number. -/
def isFinite : JSNum → Bool
  | fin _ => true
  | _ => false

/-- The number of a non-negative integer loop counter. -/
def ofNat (n : Nat) : JSNum := fin (n : ℚ)

/-- Unary minus. -/
def neg : JSNum → JSNum
  | fin a => fin (-a)
  | nan => nan
  | posInf => negInf
  | negInf => posInf

/-- Binary `+`. -/
def add : JSNum → JSNum → JSNum
  | nan, _ => nan
  | _, nan => nan
  | fin a, fin b => fin (a + b)
  | fin _, posInf => posInf
  | fin _, negInf => negInf
  | posInf, fin _ => posInf
  | negInf, fin _ => negInf
  | posInf, posInf => posInf
  | negInf, negInf => negInf
  | posInf, negInf => nan
  | negInf, posInf => nan

/-- Binary `-`. -/
def sub (x y : JSNum) : JSNum := add x (neg y)

/-- The infinity with the sign of `a * s`, for a finite `a` and `s = ±Infinity`
(`true` for `+Infinity`); `0 * Infinity` is `NaN`. -/
def infTimes (a : ℚ) (positive : Bool) : JSNum :=
  if a = 0 then nan
  else if (0 < a) = (positive = true) then posInf else negInf

/-- Binary `*`. -/
def mul : JSNum → JSNum → JSNum
  | nan, _ => nan
  | _, nan => nan
  | fin a, fin b => fin (a * b)
  | fin a, posInf => infTimes a true
  | fin a, negInf => infTimes a false
  | posInf, fin b => infTimes b true
  | negInf, fin b => infTimes b false
  | posInf, posInf => posInf
  | negInf, negInf => posInf
  | posInf, negInf => negInf
  | negInf, posInf => negInf

/-- Binary `/`.  A finite non-zero value over zero is an infinity, `0 / 0` is `NaN`
(the divisor zero is taken as `+0`). -/
def div : JSNum → JSNum → JSNum
  | nan, _ => nan
  | _, nan => nan
  | fin a, fin b =>
      if b = 0 then (if a = 0 then nan else if 0 < a then posInf else negInf)
      else fin (a / b)
  | fin _, posInf => fin 0
  | fin _, negInf => fin 0
  | posInf, fin b => if 0 ≤ b then posInf else negInf
  | negInf, fin b => if 0 ≤ b then negInf else posInf
  | posInf, posInf => nan
  | posInf, negInf => nan
  | negInf, posInf => nan
  | negInf, negInf => nan

/-- The comparison `<`; every comparison with `NaN` is false. -/
def lt : JSNum → JSNum → Bool
  | fin a, fin b => decide (a < b)
  | fin _, posInf => true
  | negInf, fin _ => true
  | negInf, posInf => true
  | _, _ => false

/-- The comparison `>`. -/
def gt (x y : JSNum) : Bool := lt y x

/-- `Math.min` of two numbers: `NaN` if either is `NaN`. -/
def min : JSNum → JSNum → JSNum
  | nan, _ => nan
  | _, nan => nan
  | x, y => if lt y x then y else x

/-- `Math.max` of two numbers: `NaN` if either is `NaN`. -/
def max : JSNum → JSNum → JSNum
  | nan, _ => nan
  | _, nan => nan
  | x, y => if lt x y then y else x

instance : Add JSNum := ⟨add⟩
instance : Sub JSNum := ⟨sub⟩
instance : Mul JSNum := ⟨mul⟩
instance : Div JSNum := ⟨div⟩
instance : Neg JSNum := ⟨neg⟩
instance : Inhabited JSNum := ⟨nan⟩

/-- `Math.PI`, the double nearest to π, as the rational it is. -/
def PI : JSNum := fin (884279719003555 / 281474976710656)

end JSNum

open JSNum

/-! ## External libraries -/

/-- A failure raised by a JavaScript operation (`throw`). -/
inductive JSError where
  | typeError
  | noPath
  deriving DecidableEq

/-- An identifier of an incident row: the CSV field `id` (a string) or, when that is
missing, the running length of the list (a number). -/
inductive CrimeId where
  | str (s : String)
  | num (n : Nat)
  deriving DecidableEq

/-- A point handed to the KD-tree by `createKDTree`: `{x, y, id}`. -/
structure KDPoint where
  x : JSNum
  y : JSNum
  id : CrimeId
  deriving DecidableEq

/-- The tree object of `kd-tree-javascript`, known by the points it was built from. -/
structure KDTree where
  points : List KDPoint
  deriving DecidableEq

/-- The functions the source calls and the repository does not define. -/
structure Env where
  /-- The function `haversine({latitude, longitude}, {latitude, longitude})`, in metres. -/
  haversine : JSNum → JSNum → JSNum → JSNum → JSNum
  /-- The function `Math.sqrt`. -/
  sqrt : JSNum → JSNum
  /-- The function `Math.cos`. -/
  cos : JSNum → JSNum
  /-- The method `tree.nearest(point, maxNodes, maxDistance)`: pairs `[point, distance]`. -/
  nearest : KDTree → JSNum → JSNum → Nat → JSNum → List (KDPoint × JSNum)

/-! ## generateWaypoints -/

/-- A waypoint `{lat, lon}`. -/
structure Waypoint where
  lat : JSNum
  lon : JSNum
  deriving DecidableEq

/-- The function `parseFloat` on a value that is already a number: the number is
printed and read back, which returns it. -/
def parseFloat (x : JSNum) : JSNum := x

/-- The constant `variationFactor = 0.03`. -/
def variationFactor : JSNum := fin (3 / 100)

/-- The constant `111.32`, kilometres per degree of latitude. -/
def kmPerDegree : JSNum := fin (11132 / 100)

/-- The base point of iteration `i`: `t`, `baseLat`, `baseLon`. -/
def basePoint (sourceLat sourceLon destLat destLon : JSNum) (numPoints i : Nat) :
    JSNum × JSNum × JSNum :=
  let latDiff := destLat - sourceLat
  let lonDiff := destLon - sourceLon
  let t := ofNat i / (ofNat numPoints + fin 1)
  (t, sourceLat + latDiff * t, sourceLon + lonDiff * t)

/-- The value `randomOffset` of iteration `i`, for the draw `r` of `Math.random()`. -/
def randomOffset (env : Env) (sourceLat sourceLon destLat destLon : JSNum)
    (numPoints i : Nat) (r : JSNum) : JSNum :=
  let t := ofNat i / (ofNat numPoints + fin 1)
  let variationScale := fin 4 * t * (fin 1 - t)
  let distance := env.haversine sourceLat sourceLon destLat destLon / fin 1000
  let variation := variationFactor * variationScale * distance
  (r * fin 2 - fin 1) * variation

/-- The normalised perpendicular `(perpLat, perpLon)`: divided by `norm` only if
`norm > 0`. -/
def perpendicular (env : Env) (sourceLat sourceLon destLat destLon : JSNum) :
    JSNum × JSNum :=
  let latDiff := destLat - sourceLat
  let lonDiff := destLon - sourceLon
  let perpLat := -lonDiff
  let perpLon := latDiff
  let norm := env.sqrt (perpLat * perpLat + perpLon * perpLon)
  if gt norm (fin 0) then (perpLat / norm, perpLon / norm) else (perpLat, perpLon)

/-- The body of the loop `for (let i = 1; i <= numPoints; i++)`: the waypoint pushed
in iteration `i`, for the draw `r` of `Math.random()`. -/
def intermediate (env : Env) (sourceLat sourceLon destLat destLon : JSNum)
    (numPoints i : Nat) (r : JSNum) : Waypoint :=
  let base := basePoint sourceLat sourceLon destLat destLon numPoints i
  let baseLat := base.2.1
  let baseLon := base.2.2
  let off := randomOffset env sourceLat sourceLon destLat destLon numPoints i r
  let perp := perpendicular env sourceLat sourceLon destLat destLon
  let waypointLat := baseLat + perp.1 * off / kmPerDegree
  let waypointLon :=
    baseLon + perp.2 * off / (kmPerDegree * env.cos (baseLat * PI / fin 180))
  ⟨waypointLat, waypointLon⟩

/-- The function `generateWaypoints(srcLat, srcLon, dstLat, dstLon, numPoints)`.
`rand k` is the value of the `k`-th call of `Math.random()` (from 0); iteration `i`
makes call `i - 1`.  No operation of the `try` block throws, so its `catch` block is
never entered and the function returns on every input. -/
def generateWaypoints (env : Env) (rand : Nat → JSNum)
    (srcLat srcLon dstLat dstLon : JSNum) (numPoints : Nat) :
    Except JSError (List Waypoint) :=
  let sourceLat := parseFloat srcLat
  let sourceLon := parseFloat srcLon
  let destLat := parseFloat dstLat
  let destLon := parseFloat dstLon
  if isNaN sourceLat || isNaN sourceLon || isNaN destLat || isNaN destLon then
    .ok [⟨fin 0, fin 0⟩, ⟨fin 0, fin 0⟩]
  else
    .ok ([⟨sourceLat, sourceLon⟩]
      ++ (List.range numPoints).map (fun k =>
            intermediate env sourceLat sourceLon destLat destLon numPoints (k + 1) (rand k))
      ++ [⟨destLat, destLon⟩])

/-! ## The graph class -/

/-- The kind of an edge: the field `type` of its data. -/
inductive EdgeKind where
  | primary
  | secondary
  | direct
  deriving DecidableEq

/-- The data of a node: `{y: lat, x: lon}`. -/
structure NodeData where
  y : JSNum
  x : JSNum
  deriving DecidableEq

/-- The data of an edge: `{length, type}`. -/
structure EdgeData where
  length : JSNum
  type : EdgeKind
  deriving DecidableEq

/-- An entry `[u, v, data]` of `G.edges()`. -/
structure Edge where
  u : Nat
  v : Nat
  data : EdgeData
  deriving DecidableEq

/-- The pair `(u, v)` an edge is stored under. -/
def Edge.key (e : Edge) : Nat × Nat := (e.u, e.v)

/-- Modelled from the spec: the class `Graph` of the module `./graph`, which is not
among the sources.  The spec gives it as a node set `integer index → coordinate` and
an edge set `directed pair (u, v) → {weight, kind}`; both maps are kept here as lists
in insertion order, one entry per key. -/
structure Graph where
  nodes : List (Nat × NodeData)
  edges : List Edge
  deriving DecidableEq

namespace Graph

/-- Modelled from the spec: `new Graph()`, of the missing module `./graph`: no node,
no edge. -/
def empty : Graph := ⟨[], []⟩

/-- Modelled from the spec: `G.addNode(id, data)` of the missing module `./graph`:
the node set maps `id` to `data`; an existing entry for `id` is overwritten. -/
def addNode (G : Graph) (id : Nat) (data : NodeData) : Graph :=
  if G.nodes.any (fun n => n.1 = id) then
    { G with nodes := G.nodes.map (fun n => if n.1 = id then (id, data) else n) }
  else
    { G with nodes := G.nodes ++ [(id, data)] }

/-- Modelled from the spec: `G.addEdge(u, v, data)` of the missing module `./graph`:
the edge set maps the directed pair `(u, v)` to `data`; an existing entry for
`(u, v)` is overwritten. -/
def addEdge (G : Graph) (u v : Nat) (data : EdgeData) : Graph :=
  if G.edges.any (fun e => e.key = (u, v)) then
    { G with edges := G.edges.map (fun e => if e.key = (u, v) then ⟨u, v, data⟩ else e) }
  else
    { G with edges := G.edges ++ [⟨u, v, data⟩] }

/-- Modelled from the spec: `G.getNode(id)` of the missing module `./graph`: the data
of node `id`, `undefined` (here `none`) when there is no such node. -/
def getNode (G : Graph) (id : Nat) : Option NodeData :=
  (G.nodes.find? (fun n => n.1 = id)).map (fun n => n.2)

/-- Modelled from the spec: `G.updateEdge(u, v, {length})` of the missing module
`./graph`: the entry of `(u, v)` gets the new `length` and keeps its kind. -/
def updateEdge (G : Graph) (u v : Nat) (length : JSNum) : Graph :=
  { G with edges := G.edges.map (fun e =>
      if e.key = (u, v) then { e with data := { e.data with length := length } } else e) }

/-- Modelled from the spec: `G.nodeCount()` of the missing module `./graph`. -/
def nodeCount (G : Graph) : Nat := G.nodes.length

end Graph

/-! ## createWaypointGraph -/

/-- An incident row `{id, lat, long}` of `crimeData`. -/
structure Crime where
  id : CrimeId
  lat : JSNum
  long : JSNum
  deriving DecidableEq

/-- The element `waypoints[i]`; every index the loops use is below the length. -/
def wp (waypoints : List Waypoint) (i : Nat) : Waypoint :=
  waypoints.getD i ⟨nan, nan⟩

/-- The call `haversine({latitude: a.lat, longitude: a.lon}, {latitude: b.lat,
longitude: b.lon})`. -/
def hav (env : Env) (a b : Waypoint) : JSNum :=
  env.haversine a.lat a.lon b.lat b.lon

/-- The loop `for (let i = 0; i < waypoints.length; i++) G.addNode(i, {y, x})`. -/
def addNodes (waypoints : List Waypoint) (G : Graph) : Graph :=
  (List.range waypoints.length).foldl
    (fun G i => G.addNode i ⟨(wp waypoints i).lat, (wp waypoints i).lon⟩) G

/-- The loop that creates the primary path: `for (let i = 0; i < waypoints.length - 1;
i++) G.addEdge(i, i+1, {length: dist, type: 'primary'})`. -/
def addPrimary (env : Env) (waypoints : List Waypoint) (G : Graph) : Graph :=
  (List.range (waypoints.length - 1)).foldl
    (fun G i =>
      let dist := hav env (wp waypoints i) (wp waypoints (i + 1))
      G.addEdge i (i + 1) ⟨dist, .primary⟩) G

/-- The value `maxForwardSkip = Math.min(numConnections, waypoints.length - 1)`. -/
def maxForwardSkip (waypoints : List Waypoint) (numConnections : Int) : Int :=
  min numConnections ((waypoints.length : Int) - 1)

/-- The values of `j` in `for (let j = i+2; j < Math.min(i+maxForwardSkip+2,
waypoints.length); j++)`, in order. -/
def forwardTargets (waypoints : List Waypoint) (numConnections : Int) (i : Nat) : List Nat :=
  List.range' (i + 2)
    ((min ((i : Int) + maxForwardSkip waypoints numConnections + 2) (waypoints.length : Int)
        - ((i : Int) + 2)).toNat)

/-- The body of the inner loop: the shortcut `(i, j)` is added if its length is below
`2.5` times the length of the step `(i, i+1)`. -/
def addForward (env : Env) (waypoints : List Waypoint) (i : Nat) (G : Graph) (j : Nat) :
    Graph :=
  let dist := hav env (wp waypoints i) (wp waypoints j)
  let directDist := hav env (wp waypoints i) (wp waypoints (i + 1))
  if lt dist (directDist * fin (5 / 2)) then G.addEdge i j ⟨dist, .secondary⟩ else G

/-- The loops that add the additional connections between waypoints. -/
def addSecondary (env : Env) (waypoints : List Waypoint) (numConnections : Int)
    (G : Graph) : Graph :=
  (List.range (waypoints.length - 1)).foldl
    (fun G i =>
      (forwardTargets waypoints numConnections i).foldl (addForward env waypoints i) G) G

/-- The graph before penalties: nodes, primary path, additional connections. -/
def buildGraph (env : Env) (waypoints : List Waypoint) (numConnections : Int) : Graph :=
  addSecondary env waypoints numConnections
    (addPrimary env waypoints (addNodes waypoints Graph.empty))

/-- The function `findCrimesNear(lat, lon, radiusKm, crimeData, crimeTree)`.  A `null`
tree or missing data is `none`. -/
def findCrimesNear (env : Env) (lat lon radiusKm : JSNum)
    (crimeData : Option (List Crime)) (crimeTree : Option KDTree) : List Crime :=
  match crimeTree, crimeData with
  | some tree, some data =>
      if data.length = 0 then []
      else
        let nearestPoints := env.nearest tree lat lon 50 radiusKm
        nearestPoints.filterMap (fun entry => data.find? (fun crime => crime.id = entry.1.id))
  | _, _ => []

/-- The constant `radiusKm = 0.4`. -/
def radiusKm : JSNum := fin (2 / 5)

/-- The three points checked along an edge, at `t` in `[0.25, 0.5, 0.75]`. -/
def checkPoints (uNode vNode : NodeData) : List Waypoint :=
  [(1 / 4 : ℚ), 1 / 2, 3 / 4].map (fun t =>
    ⟨uNode.y + (vNode.y - uNode.y) * fin t, uNode.x + (vNode.x - uNode.x) * fin t⟩)

/-- The distance in km from `point` to the nearest of `nearbyPoints`: `minDist`, from
`Infinity` by `Math.min`. -/
def minDistTo (env : Env) (point : Waypoint) (nearbyPoints : List Crime) : JSNum :=
  nearbyPoints.foldl
    (fun minDist crime =>
      JSNum.min minDist
        (env.haversine point.lat point.lon crime.lat crime.long / fin 1000)) posInf

/-- The formula `2.0 + (radiusKm - minDist) / radiusKm * 3.0`. -/
def pointPenaltyOf (minDist : JSNum) : JSNum :=
  fin 2 + (radiusKm - minDist) / radiusKm * fin 3

/-- The body of `for (const point of checkPoints)`: the new value of `maxPenalty`. -/
def pointStep (env : Env) (crimeData : Option (List Crime)) (crimeTree : Option KDTree)
    (maxPenalty : JSNum) (point : Waypoint) : JSNum :=
  let nearbyPoints := findCrimesNear env point.lat point.lon radiusKm crimeData crimeTree
  if nearbyPoints.length > 0 then
    let minDist := minDistTo env point nearbyPoints
    if lt minDist radiusKm then JSNum.max maxPenalty (pointPenaltyOf minDist)
    else maxPenalty
  else maxPenalty

/-- The value of `maxPenalty` after the three check points of the edge `(u, v)`; a
missing node makes `uNode.y` throw. -/
def edgeMaxPenalty (env : Env) (crimeData : Option (List Crime))
    (crimeTree : Option KDTree) (G : Graph) (u v : Nat) : Except JSError JSNum :=
  match G.getNode u, G.getNode v with
  | some uNode, some vNode =>
      .ok ((checkPoints uNode vNode).foldl (pointStep env crimeData crimeTree) (fin 1))
  | _, _ => .error .typeError

/-- The body of `for (const [u, v, data] of G.edges())`, with its `try`/`catch`: a
failure leaves the graph as it is and the loop goes on. -/
def penaltyStep (env : Env) (crimeData : Option (List Crime)) (crimeTree : Option KDTree)
    (G : Graph) (e : Edge) : Graph :=
  match edgeMaxPenalty env crimeData crimeTree G e.u e.v with
  | .ok maxPenalty =>
      if gt maxPenalty (fin 1) then G.updateEdge e.u e.v (e.data.length * maxPenalty) else G
  | .error _ => G

/-- The block `if (crimeTree && crimeData && crimeData.length > 0) { ... }`. -/
def applyPenalties (env : Env) (crimeData : Option (List Crime))
    (crimeTree : Option KDTree) (G : Graph) : Graph :=
  match crimeTree, crimeData with
  | some _, some data =>
      if data.length > 0 then G.edges.foldl (penaltyStep env crimeData crimeTree) G else G
  | _, _ => G

/-- The `try` block of `createWaypointGraph`; none of its operations throws outside
the inner `try`. -/
def createWaypointGraphTry (env : Env) (waypoints : List Waypoint)
    (crimeData : Option (List Crime)) (crimeTree : Option KDTree) (numConnections : Int) :
    Except JSError Graph :=
  .ok (applyPenalties env crimeData crimeTree (buildGraph env waypoints numConnections))

/-- The `catch` block of `createWaypointGraph`: the direct two-node graph; on an empty
list `waypoints[0].lat` throws. -/
def createWaypointGraphFallback (env : Env) (waypoints : List Waypoint) :
    Except JSError Graph :=
  match waypoints.head?, waypoints.getLast? with
  | some first, some last =>
      .ok (((Graph.empty.addNode 0 ⟨first.lat, first.lon⟩).addNode 1 ⟨last.lat, last.lon⟩).addEdge
        0 1 ⟨hav env first last, .direct⟩)
  | _, _ => .error .typeError

/-- The function `createWaypointGraph(waypoints, crimeData, crimeTree, numConnections)`,
for an integer `numConnections`. -/
def createWaypointGraph (env : Env) (waypoints : List Waypoint)
    (crimeData : Option (List Crime)) (crimeTree : Option KDTree) (numConnections : Int) :
    Except JSError Graph :=
  match createWaypointGraphTry env waypoints crimeData crimeTree numConnections with
  | .ok G => .ok G
  | .error _ => createWaypointGraphFallback env waypoints

/-! ## The edge list of the graph, written out -/

/-- The call `G.addEdge(e.u, e.v, e.data)`. -/
def insertEdge (G : Graph) (e : Edge) : Graph := G.addEdge e.u e.v e.data

/-- The call `G.addNode(n.1, n.2)`. -/
def insertNode (G : Graph) (n : Nat × NodeData) : Graph := G.addNode n.1 n.2

/-- The node entry of waypoint `i`. -/
def nodeOf (waypoints : List Waypoint) (i : Nat) : Nat × NodeData :=
  (i, ⟨(wp waypoints i).lat, (wp waypoints i).lon⟩)

/-- The primary edge `(i, i+1)`. -/
def primaryEdge (env : Env) (waypoints : List Waypoint) (i : Nat) : Edge :=
  ⟨i, i + 1, ⟨hav env (wp waypoints i) (wp waypoints (i + 1)), .primary⟩⟩

/-- The primary edges, in the order the first loop adds them. -/
def primaryEdges (env : Env) (waypoints : List Waypoint) : List Edge :=
  (List.range (waypoints.length - 1)).map (primaryEdge env waypoints)

/-- The test `dist < directDist * 2.5` of the shortcut `(i, j)`. -/
def shortcutOk (env : Env) (waypoints : List Waypoint) (i j : Nat) : Bool :=
  lt (hav env (wp waypoints i) (wp waypoints j))
    (hav env (wp waypoints i) (wp waypoints (i + 1)) * fin (5 / 2))

/-- The secondary edge `(i, j)`. -/
def shortcut (env : Env) (waypoints : List Waypoint) (i j : Nat) : Edge :=
  ⟨i, j, ⟨hav env (wp waypoints i) (wp waypoints j), .secondary⟩⟩

/-- The secondary edges out of node `i`, in the order the inner loop adds them. -/
def secondaryRow (env : Env) (waypoints : List Waypoint) (numConnections : Int) (i : Nat) :
    List Edge :=
  ((forwardTargets waypoints numConnections i).filter (shortcutOk env waypoints i)).map
    (shortcut env waypoints i)

/-- The secondary edges, in the order the second pair of loops adds them. -/
def secondaryEdges (env : Env) (waypoints : List Waypoint) (numConnections : Int) :
    List Edge :=
  (List.range (waypoints.length - 1)).flatMap (secondaryRow env waypoints numConnections)

/-- The entry of the edge `e` after its turn in the penalty loop, the nodes being those
of `G`: its length times `maxPenalty` if that is above 1, else unchanged; unchanged
too if the turn failed. -/
def penalize (env : Env) (crimeData : Option (List Crime)) (crimeTree : Option KDTree)
    (G : Graph) (e : Edge) : Edge :=
  match edgeMaxPenalty env crimeData crimeTree G e.u e.v with
  | .ok maxPenalty =>
      if gt maxPenalty (fin 1) then
        { e with data := { e.data with length := e.data.length * maxPenalty } }
      else e
  | .error _ => e

/-- A walk of one or more edges from `u` to `v`. -/
inductive Graph.Walk (G : Graph) : Nat → Nat → Prop where
  | single {u v : Nat} (e : Edge) (he : e ∈ G.edges) (hu : e.u = u) (hv : e.v = v) :
      Graph.Walk G u v
  | cons {u v w : Nat} (e : Edge) (he : e ∈ G.edges) (hu : e.u = u) (hv : e.v = v)
      (rest : Graph.Walk G v w) : Graph.Walk G u w

/-! ## The penalty of an edge, as the specification words it -/

/-- The sample point at parameter `t` on the segment from `U` to `V`, by linear
interpolation of the coordinates. -/
def samplePoint (U V : Waypoint) (t : ℚ) : Waypoint :=
  ⟨U.lat + (V.lat - U.lat) * fin t, U.lon + (V.lon - U.lon) * fin t⟩

/-- The point penalty of the specification: `2.0 + (radiusKm - d) / radiusKm * 3.0`
when the query at the point returns incidents and their minimum distance `d` is below
`radiusKm`, and `1.0` otherwise. -/
def specPointPenalty (env : Env) (crimeData : Option (List Crime))
    (crimeTree : Option KDTree) (point : Waypoint) : JSNum :=
  let found := findCrimesNear env point.lat point.lon radiusKm crimeData crimeTree
  let d := minDistTo env point found
  if found ≠ [] ∧ lt d radiusKm = true then
    fin 2 + (radiusKm - d) / radiusKm * fin 3
  else fin 1

/-- The edge penalty of the specification: the maximum of the point penalties at
`t = 0.25`, `0.5` and `0.75`. -/
def specEdgePenalty (env : Env) (crimeData : Option (List Crime))
    (crimeTree : Option KDTree) (U V : Waypoint) : JSNum :=
  JSNum.max
    (JSNum.max (specPointPenalty env crimeData crimeTree (samplePoint U V (1 / 4)))
      (specPointPenalty env crimeData crimeTree (samplePoint U V (1 / 2))))
    (specPointPenalty env crimeData crimeTree (samplePoint U V (3 / 4)))

/-- A number that is at least 1: `+Infinity` or a finite value from 1 up. -/
def AtLeastOne (y : JSNum) : Prop := y = posInf ∨ ∃ x, y = fin x ∧ 1 ≤ x

/-! ## createKDTree and the row handler of loadCrimeData -/

/-- The comparison `<=`; every comparison with `NaN` is false. -/
def JSNum.le : JSNum → JSNum → Bool
  | fin a, fin b => decide (a ≤ b)
  | fin _, posInf => true
  | negInf, fin _ => true
  | negInf, posInf => true
  | posInf, posInf => true
  | negInf, negInf => true
  | _, _ => false

/-- The comparison `>=`. -/
def JSNum.ge (x y : JSNum) : Bool := JSNum.le y x

/-- The call `new KDTree(points, distance, ['x', 'y'])` of `createKDTree`.  The name
`KDTree` is bound by `const { KDTree } = require('kd-tree-javascript')`, and that module
exports `kdTree` and `BinaryHeap`: the name is `undefined`, and calling it as a
constructor throws a `TypeError`, whatever the points. -/
def newKDTree (_points : List KDPoint) : Except JSError KDTree := .error .typeError

/-- The function `createKDTree(data)`: `null` for missing or empty data; else the points
`{x: lat, y: long, id}` are handed to `new KDTree(...)`, and the `catch` block turns the
failure of that call into `null`. -/
def createKDTree (data : Option (List Crime)) : Option KDTree :=
  match data with
  | none => none
  | some d =>
      if d.length = 0 then none
      else
        match newKDTree (d.map (fun point => ⟨point.lat, point.long, point.id⟩)) with
        | .ok tree => some tree
        | .error _ => none

/-- A CSV row as the `data` handler of `loadCrimeData` sees it: the field `id` (`none`
when the column is missing) and the results of `parseFloat` on the latitude column
(`lat`, else `latitude`) and on the longitude column (`long`, else `longitude`, else
`lon`); a missing or unreadable column parses to `NaN`. -/
structure Row where
  id : Option String
  lat : JSNum
  long : JSNum
  deriving DecidableEq

/-- The value `row.id || crimeData.length`: the empty string is falsy. -/
def rowId (row : Row) (crimeData : List Crime) : CrimeId :=
  match row.id with
  | some s => if s = "" then .num crimeData.length else .str s
  | none => .num crimeData.length

/-- The `data` handler of `loadCrimeData`: a row with a `NaN` coordinate is skipped, a
row inside the box `12.7 ≤ lat ≤ 13.2`, `80.0 ≤ long ≤ 80.3` is pushed, any other row
is skipped. -/
def pushRow (crimeData : List Crime) (row : Row) : List Crime :=
  if isNaN row.lat || isNaN row.long then crimeData
  else if JSNum.ge row.lat (fin (127 / 10)) && JSNum.le row.lat (fin (132 / 10))
      && JSNum.ge row.long (fin 80) && JSNum.le row.long (fin (803 / 10)) then
    crimeData ++ [⟨rowId row crimeData, row.lat, row.long⟩]
  else crimeData

/-- The list `crimeData` after the rows of the file have gone through the handler. -/
def loadRows (rows : List Row) : List Crime := rows.foldl pushRow []

/-- A coordinate that is a finite number of absolute value at most `bound`. -/
def InRange (x : JSNum) (bound : ℚ) : Prop := ∃ a, x = fin a ∧ |a| ≤ bound

/-! ## Penalty factors -/

/-- The edge `e` with its length multiplied by `p`. -/
def scaleEdge (e : Edge) (p : JSNum) : Edge :=
  { e with data := { e.data with length := e.data.length * p } }

/-- A penalty factor that is exactly 1 or lies in the interval `(2, 5]`. -/
def PenaltyBand (y : JSNum) : Prop := y = fin 1 ∨ ∃ p, y = fin p ∧ 2 < p ∧ p ≤ 5

/-- The distance in km from `point` to the incident `crime`, as the penalty loop
computes it. -/
def distKm (env : Env) (point : Waypoint) (crime : Crime) : JSNum :=
  env.haversine point.lat point.lon crime.lat crime.long / fin 1000

/-- Whether the turn of edge `e` in the penalty loop ends without a failure. -/
def edgeSucceeds (env : Env) (crimeData : Option (List Crime)) (crimeTree : Option KDTree)
    (G : Graph) (e : Edge) : Bool :=
  match edgeMaxPenalty env crimeData crimeTree G e.u e.v with
  | .ok _ => true
  | .error _ => false

/-- A number that is not negative: not `-Infinity`, and at least 0 if finite. -/
def NotNegative (y : JSNum) : Prop := y ≠ negInf ∧ ∀ q, y = fin q → 0 ≤ q

/-- A graph with an edge to a node that does not exist, used to run the penalty loop
through its `catch` block: nodes 0 and 1, edges `(0, 1)` and `(1, 7)`. -/
def danglingGraph : Graph :=
  ⟨[(0, ⟨fin 0, fin 0⟩), (1, ⟨fin 1, fin 0⟩)],
    [⟨0, 1, ⟨fin 5, .primary⟩⟩, ⟨1, 7, ⟨fin 3, .primary⟩⟩]⟩

/-! ## The shortest-path search -/

/-- The books of the shortest-path search: the best known distance from the source to
each node, the predecessor through which it is reached, and the nodes already settled. -/
structure SearchState where
  dist : Nat → JSNum
  prev : Nat → Option Nat
  visited : List Nat

/-- The node indices of a graph, in insertion order. -/
def Graph.nodeIds (G : Graph) : List Nat := G.nodes.map Prod.fst

/-- Modelled from the spec: `G.getEdge(u, v)` of the missing module `./graph`: the data
stored under the directed pair `(u, v)`, `undefined` (here `none`) when there is none. -/
def Graph.getEdge (G : Graph) (u v : Nat) : Option EdgeData :=
  (G.edges.find? (fun e => e.key = (u, v))).map (fun e => e.data)

/-- Modelled from the spec: the start of the search of `G.shortestPath` (missing module
`./graph`): distance 0 at the source, `Infinity` elsewhere, nothing settled. -/
def initialState (source : Nat) : SearchState :=
  ⟨fun v => if v = source then fin 0 else posInf, fun _ => none, []⟩

/-- Modelled from the spec: the relaxation of one edge in the search of
`G.shortestPath` (missing module `./graph`), while node `u` is being settled: an edge
out of `u` that gives its target a lower cost becomes the way to the target; at equal
cost the predecessor of lower node index is preferred. -/
def relaxEdge (u : Nat) (s : SearchState) (e : Edge) : SearchState :=
  if e.u = u then
    let alt := s.dist u + e.data.length
    if lt alt (s.dist e.v) then
      { s with dist := Function.update s.dist e.v alt,
               prev := Function.update s.prev e.v (some u) }
    else if alt = s.dist e.v then
      match s.prev e.v with
      | some p => if u < p then { s with prev := Function.update s.prev e.v (some u) } else s
      | none => s
    else s
  else s

/-- Modelled from the spec: one comparison in the choice of the next node of the search
of `G.shortestPath` (missing module `./graph`): a settled candidate is passed over, a
candidate strictly closer than the best so far replaces it. -/
def closer (s : SearchState) (best : Option Nat) (c : Nat) : Option Nat :=
  if c ∈ s.visited then best
  else
    match best with
    | none => some c
    | some b => if lt (s.dist c) (s.dist b) then some c else some b

/-- Modelled from the spec: the next node of the search of `G.shortestPath` (missing
module `./graph`): the unsettled node of least distance, the first in node order among
equals; none when every unsettled node is at distance `Infinity`. -/
def pickNext (G : Graph) (s : SearchState) : Option Nat :=
  match G.nodeIds.foldl (closer s) none with
  | some u => if lt (s.dist u) posInf then some u else none
  | none => none

/-- Modelled from the spec: one round of the search of `G.shortestPath` (missing module
`./graph`), Dijkstra's algorithm: settle the next node and relax the edges of the graph
that leave it. -/
def searchStep (G : Graph) (s : SearchState) : Option SearchState :=
  match pickNext G s with
  | none => none
  | some u => some { (G.edges.foldl (relaxEdge u) s) with visited := u :: s.visited }

/-- Modelled from the spec: the rounds of the search of `G.shortestPath` (missing
module `./graph`), at most `fuel` of them. -/
def searchLoop (G : Graph) : Nat → SearchState → SearchState
  | 0, s => s
  | fuel + 1, s =>
      match searchStep G s with
      | none => s
      | some s' => searchLoop G fuel s'

/-- Modelled from the spec: the route of `G.shortestPath` (missing module `./graph`)
read back from the destination along the predecessors, in at most `fuel` steps. -/
def walkBack (prev : Nat → Option Nat) (source : Nat) : Nat → Nat → List Nat →
    Option (List Nat)
  | 0, v, acc => if v = source then some (v :: acc) else none
  | fuel + 1, v, acc =>
      if v = source then some (v :: acc)
      else
        match prev v with
        | none => none
        | some p => walkBack prev source fuel p (v :: acc)

/-- Modelled from the spec: `G.shortestPath(source, dest)` of the missing module
`./graph`: Dijkstra's single-source shortest path over the edge lengths, one round per
node at most; the ordered node indices of the route, or the failure `NoRouteFound`
when no path leads from `source` to `dest`. -/
def Graph.shortestPath (G : Graph) (source dest : Nat) : Except JSError (List Nat) :=
  if source ∈ G.nodeIds ∧ dest ∈ G.nodeIds then
    let s := searchLoop G G.nodeCount (initialState source)
    if lt (s.dist dest) posInf then
      match walkBack s.prev source G.nodeCount dest [] with
      | some route => .ok route
      | none => .error .noPath
    else .error .noPath
  else .error .noPath

/-- The function `findOptimalRoute(G)`: the route of `G.shortestPath(0, nodeCount - 1)`,
and the direct route `[0, nodeCount - 1]` when that fails.  In a graph without nodes
the end node `-1` is no node and the search fails. -/
def findOptimalRoute (G : Graph) : List Int :=
  let startNode : Nat := 0
  let endNode : Int := (G.nodeCount : Int) - 1
  match (if 0 ≤ endNode then G.shortestPath startNode endNode.toNat
         else .error .noPath) with
  | .ok route => route.map Int.ofNat
  | .error _ => [(startNode : Int), endNode]

/-- The length stored under `(u, v)`; a missing edge has no number. -/
def edgeLength (G : Graph) (u v : Nat) : JSNum :=
  match G.getEdge u v with
  | some d => d.length
  | none => nan

/-- The running total of the edge lengths along a route, from `total`, pair by pair
from the first node on. -/
def pathWeightFrom (G : Graph) (total : JSNum) : List Nat → JSNum
  | u :: v :: rest => pathWeightFrom G (total + edgeLength G u v) (v :: rest)
  | _ => total

/-- The total weight of a route: the sum of the lengths of its consecutive edges. -/
def pathWeight (G : Graph) (route : List Nat) : JSNum := pathWeightFrom G (fin 0) route

/-- The value of a distance in the rationals with a top element; a value that is no
distance counts as top. -/
def val : JSNum → WithTop ℚ
  | fin q => (q : WithTop ℚ)
  | _ => ⊤

/-- A distance: `Infinity` or a finite non-negative number. -/
def IsDist (x : JSNum) : Prop := x = posInf ∨ ∃ q, 0 ≤ q ∧ x = fin q

/-- What holds between the rounds of the search from `source` in `G`. -/
structure SearchInv (G : Graph) (source : Nat) (s : SearchState) : Prop where
  good : ∀ v, IsDist (s.dist v)
  src : s.dist source = fin 0
  ord : ∀ x ∈ s.visited, ∀ y, y ∉ s.visited → y ∈ G.nodeIds →
    val (s.dist x) ≤ val (s.dist y)
  rel : ∀ e ∈ G.edges, e.u ∈ s.visited →
    val (s.dist e.v) ≤ val (s.dist e.u) + val e.data.length
  pred : ∀ v p, s.prev v = some p →
    p ∈ s.visited ∧ ∃ e ∈ G.edges, e.u = p ∧ e.v = v ∧ s.dist v = s.dist p + e.data.length
  hasPred : ∀ v, v ≠ source → lt (s.dist v) posInf = true → ∃ p, s.prev v = some p

/-- What holds inside a round, while node `u` of the state `s` is being settled and the
edges of `done` have been relaxed. -/
structure RoundInv (G : Graph) (source : Nat) (s : SearchState) (u : Nat)
    (done : List Edge) (t : SearchState) : Prop where
  good : ∀ v, IsDist (t.dist v)
  src : t.dist source = fin 0
  vis : t.visited = s.visited
  du : t.dist u = s.dist u
  frozen : ∀ x ∈ s.visited, t.dist x = s.dist x
  low : ∀ y, y ∉ s.visited → y ∈ G.nodeIds → val (s.dist u) ≤ val (t.dist y)
  rel : ∀ e ∈ G.edges, e.u ∈ s.visited →
    val (t.dist e.v) ≤ val (t.dist e.u) + val e.data.length
  relDone : ∀ e ∈ done, e.u = u → val (t.dist e.v) ≤ val (t.dist u) + val e.data.length
  pred : ∀ v p, t.prev v = some p →
    (p ∈ s.visited ∨ p = u)
      ∧ ∃ e ∈ G.edges, e.u = p ∧ e.v = v ∧ t.dist v = t.dist p + e.data.length
  hasPred : ∀ v, v ≠ source → lt (t.dist v) posInf = true → ∃ p, t.prev v = some p

/-- A graph with the primary edges only, used to run the search: nodes 0, 1, 2 and the
edges `(0, 1)` of length 1 and `(1, 2)` of length 2. -/
def chainGraph : Graph :=
  ⟨[(0, ⟨fin 0, fin 0⟩), (1, ⟨fin 1, fin 0⟩), (2, ⟨fin 2, fin 0⟩)],
    [⟨0, 1, ⟨fin 1, .primary⟩⟩, ⟨1, 2, ⟨fin 2, .primary⟩⟩]⟩

/-! ## The distance and the URL of a route -/

/-- The loop of `calculateRouteDistance`: `totalDist += G.getEdge(u, v).length` over the
consecutive pairs of the route; a pair without an edge makes `edgeData.length` throw. -/
def routeTotal (G : Graph) (totalDist : JSNum) : List Nat → Except JSError JSNum
  | u :: v :: rest =>
      match G.getEdge u v with
      | some edgeData => routeTotal G (totalDist + edgeData.length) (v :: rest)
      | none => .error .typeError
  | _ => .ok totalDist

/-- The function `calculateRouteDistance(G, route)`: the total of the stored edge
lengths divided by 1000, and 0 when the `catch` block is entered. -/
def calculateRouteDistance (G : Graph) (route : List Nat) : JSNum :=
  match routeTotal G (fin 0) route with
  | .ok totalDist => totalDist / fin 1000
  | .error _ => fin 0

/-- The sum of the haversine distances, in metres, between the waypoints of the
consecutive nodes of a route. -/
def haversineTotal (env : Env) (ws : List Waypoint) (total : JSNum) : List Nat → JSNum
  | u :: v :: rest => haversineTotal env ws (total + hav env (wp ws u) (wp ws v)) (v :: rest)
  | _ => total

/-- The constant `baseUrl` of `createGoogleMapsUrl`, also the start of the URL the
handler builds. -/
def baseUrl : String := "https://www.google.com/maps/dir/"

/-- The loop `for (const nodeId of route)` of `createGoogleMapsUrl`: the strings
`y,x` of the nodes; a node id without a node makes `node.y` throw.  `toStr` is the
conversion of a number to a string in a template literal. -/
def pathCoords (toStr : JSNum → String) (G : Graph) : List Nat → Except JSError (List String)
  | [] => .ok []
  | nodeId :: rest =>
      match G.getNode nodeId with
      | some node =>
          match pathCoords toStr G rest with
          | .ok coords => .ok ((toStr node.y ++ "," ++ toStr node.x) :: coords)
          | .error err => .error err
      | none => .error .typeError

/-- The function `createGoogleMapsUrl(G, route)`: `baseUrl + pathCoords.join('/') + '/'`,
and `"#"` when the `catch` block is entered. -/
def createGoogleMapsUrl (toStr : JSNum → String) (G : Graph) (route : List Nat) : String :=
  match pathCoords toStr G route with
  | .ok coords => baseUrl ++ "/".intercalate coords ++ "/"
  | .error _ => "#"

/-- The list `routeWaypoints` of the handler: `{lat: node.y, lon: node.x}` for every
node id of the route; a node id without a node makes `node.y` throw. -/
def routeWaypoints (G : Graph) : List Nat → Except JSError (List Waypoint)
  | [] => .ok []
  | nodeId :: rest =>
      match G.getNode nodeId with
      | some node =>
          match routeWaypoints G rest with
          | .ok wps => .ok (⟨node.y, node.x⟩ :: wps)
          | .error err => .error err
      | none => .error .typeError

/-- The URL the `/api/route` handler builds inline: from the base URL, the string
`lat,lon/` appended for every waypoint of the route. -/
def inlineUrl (toStr : JSNum → String) (G : Graph) (routePath : List Nat) :
    Except JSError String :=
  match routeWaypoints G routePath with
  | .ok wps =>
      .ok (wps.foldl
        (fun googleMapsUrl w => googleMapsUrl ++ (toStr w.lat ++ "," ++ toStr w.lon ++ "/"))
        baseUrl)
  | .error err => .error err

/-! ## Sampling in loadCrimeData -/

/-- The loop `for (const item of crimeData)` of the `end` handler of `loadCrimeData`:
an item is pushed when the draw is below `sampleRate`, and the loop breaks once
`maxPoints` items are sampled.  `rand k` is the draw made for the `k`-th item. -/
def sampleItems (rand : Nat → JSNum) (sampleRate : JSNum) (maxPoints : Nat) :
    Nat → List Crime → List Crime → List Crime
  | _, [], sampledData => sampledData
  | k, item :: rest, sampledData =>
      let pushed := if lt (rand k) sampleRate then sampledData ++ [item] else sampledData
      if pushed.length ≥ maxPoints then pushed
      else sampleItems rand sampleRate maxPoints (k + 1) rest pushed

/-- The list `sampledData` of the `end` handler of `loadCrimeData`: the loaded rows, or
a random sample of them when there are more than `maxPoints`. -/
def sampleData (rand : Nat → JSNum) (crimeData : List Crime) (maxPoints : Nat) : List Crime :=
  if crimeData.length > maxPoints then
    let sampleRate := ofNat maxPoints / ofNat crimeData.length
    sampleItems rand sampleRate maxPoints 0 crimeData []
  else crimeData

/-! ## The handler of /api/route -/

/-- A value of a field of the request body. -/
inductive JSVal where
  | undefined
  | null
  | bool (b : Bool)
  | num (x : JSNum)
  | str (s : String)
  deriving DecidableEq

/-- Whether a value is truthy, so that `!v` is false: `undefined`, `null`, `false`,
`NaN`, `0` and the empty string are falsy. -/
def JSVal.truthy : JSVal → Bool
  | .undefined => false
  | .null => false
  | .bool b => b
  | .num x => !(isNaN x) && !(decide (x = fin 0))
  | .str s => !(decide (s = ""))

/-- The function `parseFloat` on a value of the request body: a number is returned as
it is, a string is read by `parseString`, any other value gives `NaN`. -/
def parseFloatOf (parseString : String → JSNum) : JSVal → JSNum
  | .num x => parseFloat x
  | .str s => parseString s
  | _ => nan

/-- The fields `{sourceLat, sourceLon, destLat, destLon}` of `req.body`; a field that is
absent is `undefined`. -/
structure RouteBody where
  sourceLat : JSVal
  sourceLon : JSVal
  destLat : JSVal
  destLon : JSVal
  deriving DecidableEq

/-- What the handler does with a request: it answers 400 with an error message, or it
goes on to `generateWaypoints` with the four coordinates, as `parseFloat` reads them. -/
inductive Reply where
  | status400 (error : String)
  | compute (srcLat srcLon dstLat dstLon : JSNum)
  deriving DecidableEq

/-- The head of the `/api/route` handler of `server.js` (also of `uploads/api/route.js`):
the test `!sourceLat || !sourceLon || !destLat || !destLon`, then the call of
`generateWaypoints`, which reads the four values with `parseFloat`. -/
def routeHandler (parseString : String → JSNum) (body : RouteBody) : Reply :=
  if !body.sourceLat.truthy || !body.sourceLon.truthy || !body.destLat.truthy
      || !body.destLon.truthy then
    .status400 "Missing required coordinates"
  else
    .compute (parseFloatOf parseString body.sourceLat) (parseFloatOf parseString body.sourceLon)
      (parseFloatOf parseString body.destLat) (parseFloatOf parseString body.destLon)

/-- The head of the `/api/route` handler of the snapshot `server_20250415010340.js`:
the same test, then `parseFloat` of the four values and the test of the ranges. -/
def routeHandlerRanged (parseString : String → JSNum) (body : RouteBody) : Reply :=
  if !body.sourceLat.truthy || !body.sourceLon.truthy || !body.destLat.truthy
      || !body.destLon.truthy then
    .status400 "Missing required coordinates"
  else
    let srcLat := parseFloatOf parseString body.sourceLat
    let srcLon := parseFloatOf parseString body.sourceLon
    let dstLat := parseFloatOf parseString body.destLat
    let dstLon := parseFloatOf parseString body.destLon
    if lt srcLat (fin (-90)) || gt srcLat (fin 90) || lt srcLon (fin (-180))
        || gt srcLon (fin 180) || lt dstLat (fin (-90)) || gt dstLat (fin 90)
        || lt dstLon (fin (-180)) || gt dstLon (fin 180) then
      .status400 "Invalid coordinates"
    else .compute srcLat srcLon dstLat dstLon

/-- The three calls of the `/api/route` handler that compute the route:
`generateWaypoints(sourceLat, sourceLon, destLat, destLon, 8)`,
`createWaypointGraph(waypoints, globalCrimeData, crimeBallTree, 3)` and
`findOptimalRoute(G)`; the waypoints, the graph and the route. -/
def handlerRoute (env : Env) (rand : Nat → JSNum) (globalCrimeData : Option (List Crime))
    (crimeBallTree : Option KDTree) (sourceLat sourceLon destLat destLon : JSNum) :
    Except JSError (List Waypoint × Graph × List Int) :=
  match generateWaypoints env rand sourceLat sourceLon destLat destLon 8 with
  | .error err => .error err
  | .ok waypoints =>
      match createWaypointGraph env waypoints globalCrimeData crimeBallTree 3 with
      | .error err => .error err
      | .ok G => .ok (waypoints, G, findOptimalRoute G)

/-- The cost of the primary path `0, 1, ..., N-1` before penalties: the sum of the
haversine distances between consecutive waypoints. -/
def primaryCost (env : Env) (ws : List Waypoint) : JSNum :=
  (List.range (ws.length - 1)).foldl
    (fun total i => total + hav env (wp ws i) (wp ws (i + 1))) (fin 0)

/-- Draws of `Math.random()` used to run the handler: 0.75 for the first waypoint, 0.5
(no offset) for the others. -/
def jitterDraws : Nat → JSNum := fun k => if k = 0 then fin (3 / 4) else fin (1 / 2)

/-- Ten incidents one degree of latitude (about 111 km) north of the line from
`(0, 0)` to `(0, 9)`. -/
def farIncidents : List Crime :=
  (List.range 10).map (fun k => ⟨.num k, fin 1, fin (k : ℚ)⟩)

/-! ## generateWaypoints of uploads/api/route.js -/

namespace RouteJs

/-- The function `calculateDistance(point1, point2)` of `uploads/api/route.js`:
`haversine(point1, point2)`. -/
def calculateDistance (env : Env) (lat1 lon1 lat2 lon2 : JSNum) : JSNum :=
  env.haversine lat1 lon1 lat2 lon2

/-- The value `x || 0` for a number `x`: 0 when `x` is `NaN` or 0, else `x`. -/
def orZero (x : JSNum) : JSNum := if isNaN x || decide (x = fin 0) then fin 0 else x

/-- The body of the loop `for (let i = 1; i <= numPoints; i++)` of `generateWaypoints`
in `uploads/api/route.js`: the waypoint pushed in iteration `i`, for the draw `r`. -/
def loopBody (env : Env) (sourceLat sourceLon destLat destLon : JSNum)
    (numPoints i : Nat) (r : JSNum) : Waypoint :=
  let latDiff := destLat - sourceLat
  let lonDiff := destLon - sourceLon
  let t := ofNat i / (ofNat numPoints + fin 1)
  let baseLat := sourceLat + latDiff * t
  let baseLon := sourceLon + lonDiff * t
  let variationFactor := fin (3 / 100)
  let variationScale := fin 4 * t * (fin 1 - t)
  let distance := calculateDistance env sourceLat sourceLon destLat destLon / fin 1000
  let variation := variationFactor * variationScale * distance
  let randomOffset := (r * fin 2 - fin 1) * variation
  let perpLat := -lonDiff
  let perpLon := latDiff
  let norm := env.sqrt (perpLat * perpLat + perpLon * perpLon)
  let perp := if gt norm (fin 0) then (perpLat / norm, perpLon / norm) else (perpLat, perpLon)
  let waypointLat := baseLat + perp.1 * randomOffset / fin (11132 / 100)
  let waypointLon :=
    baseLon + perp.2 * randomOffset / (fin (11132 / 100) * env.cos (baseLat * PI / fin 180))
  ⟨waypointLat, waypointLon⟩

/-- The function `generateWaypoints(srcLat, srcLon, dstLat, dstLon, numPoints)` of
`uploads/api/route.js`; `rand k` is the `k`-th draw of `Math.random()`. -/
def generateWaypoints (env : Env) (rand : Nat → JSNum)
    (srcLat srcLon dstLat dstLon : JSNum) (numPoints : Nat) : List Waypoint :=
  let sourceLat := parseFloat srcLat
  let sourceLon := parseFloat srcLon
  let destLat := parseFloat dstLat
  let destLon := parseFloat dstLon
  if isNaN sourceLat || isNaN sourceLon || isNaN destLat || isNaN destLon then
    [⟨orZero sourceLat, orZero sourceLon⟩, ⟨orZero destLat, orZero destLon⟩]
  else
    [⟨sourceLat, sourceLon⟩]
      ++ (List.range numPoints).map (fun k =>
            loopBody env sourceLat sourceLon destLat destLon numPoints (k + 1) (rand k))
      ++ [⟨destLat, destLon⟩]

end RouteJs

/-- The waypoints `generateWaypoints` returns from `(0, 0)` to `(0, 9)` with the draws
`jitterDraws`: the first intermediate waypoint is moved south of the line, the others
stay on it. -/
def jitterWaypoints : List Waypoint :=
  [⟨fin 0, fin 0⟩, ⟨fin (-(4 / 75)), fin 1⟩, ⟨fin 0, fin 2⟩, ⟨fin 0, fin 3⟩, ⟨fin 0, fin 4⟩,
    ⟨fin 0, fin 5⟩, ⟨fin 0, fin 6⟩, ⟨fin 0, fin 7⟩, ⟨fin 0, fin 8⟩, ⟨fin 0, fin 9⟩]

/-- The waypoints `generateWaypoints` returns from `(Infinity, 0)` to `(0, 9)`: the
intermediate waypoints have no coordinates. -/
def infWaypoints : List Waypoint :=
  [⟨posInf, fin 0⟩, ⟨nan, nan⟩, ⟨nan, nan⟩, ⟨nan, nan⟩, ⟨nan, nan⟩, ⟨nan, nan⟩, ⟨nan, nan⟩,
    ⟨nan, nan⟩, ⟨nan, nan⟩, ⟨fin 0, fin 9⟩]

/-! ## A concrete environment -/

/-- A flat-earth stand-in for the external functions, used to run the definitions on
concrete inputs: taxicab distance at 111320 metres per degree, `Rat.sqrt`, a constant
cosine, and a linear scan for `nearest`. -/
def sampleEnv : Env where
  haversine := fun lat1 lon1 lat2 lon2 =>
    match lat1, lon1, lat2, lon2 with
    | fin a, fin b, fin c, fin d => fin (111320 * (|c - a| + |d - b|))
    | _, _, _, _ => nan
  sqrt := fun x =>
    match x with
    | fin q => if 0 ≤ q then fin (Rat.sqrt q) else nan
    | posInf => posInf
    | _ => nan
  cos := fun x =>
    match x with
    | fin _ => fin 1
    | _ => nan
  nearest := fun tree x y maxNodes maxDistance =>
    ((tree.points.filterMap (fun p =>
        match x, y, p.x, p.y with
        | fin a, fin b, fin c, fin d =>
            let dist := fin ((11132 / 100) * (|c - a| + |d - b|))
            if lt dist maxDistance then some (p, dist) else none
        | _, _, _, _ => none)).take maxNodes)

/-! ## Arithmetic of `JSNum` -/

namespace JSNum

@[simp] theorem fin_add_fin (a b : ℚ) : fin a + fin b = fin (a + b) := rfl
@[simp] theorem fin_sub_fin (a b : ℚ) : fin a - fin b = fin (a - b) := by
  show add (fin a) (neg (fin b)) = _
  simp [add, neg, sub_eq_add_neg]
@[simp] theorem fin_mul_fin (a b : ℚ) : fin a * fin b = fin (a * b) := rfl
@[simp] theorem neg_fin (a : ℚ) : -(fin a) = fin (-a) := rfl
theorem fin_div_fin (a b : ℚ) (hb : b ≠ 0) : fin a / fin b = fin (a / b) := by
  show div (fin a) (fin b) = _
  simp [div, hb]
@[simp] theorem ofNat_eq (n : Nat) : ofNat n = fin (n : ℚ) := rfl

@[simp] theorem isNaN_fin (a : ℚ) : isNaN (fin a) = false := rfl
@[simp] theorem isNaN_nan : isNaN nan = true := rfl

theorem isNaN_of_isFinite {x : JSNum} (h : x.isFinite = true) : x.isNaN = false := by
  cases x <;> simp_all [isFinite, isNaN]

theorem eq_fin_of_isFinite {x : JSNum} (h : x.isFinite = true) : ∃ q, x = fin q := by
  cases x <;> simp_all [isFinite]

/-- `x * 1.0` is `x`, for every number. -/
theorem mul_one_eq (x : JSNum) : x * fin 1 = x := by
  cases x <;> first | rfl | (show mul _ _ = _; simp [mul, infTimes])

/-- Zero over a number that is neither zero nor `NaN` is zero. -/
theorem zero_div_eq {x : JSNum} (h0 : x ≠ fin 0) (hn : x ≠ nan) : fin 0 / x = fin 0 := by
  cases x with
  | fin q =>
      have hq : q ≠ 0 := fun h => h0 (by rw [h])
      rw [fin_div_fin _ _ hq]; simp
  | nan => exact absurd rfl hn
  | posInf => rfl
  | negInf => rfl

/-- A number above zero is neither zero nor `NaN`. -/
theorem ne_of_gt_zero {x : JSNum} (h : gt x (fin 0) = true) : x ≠ fin 0 ∧ x ≠ nan := by
  cases x with
  | fin q =>
      refine ⟨fun hq => ?_, fun hq => (by cases hq)⟩
      cases hq
      simp [gt, lt] at h
  | nan => simp [gt, lt] at h
  | posInf => exact ⟨fun hq => (by cases hq), fun hq => (by cases hq)⟩
  | negInf => simp [gt, lt] at h

/-- A finite non-zero factor keeps a number away from zero and from `NaN`. -/
theorem fin_mul_ne {q : ℚ} (hq : q ≠ 0) {x : JSNum} (h0 : x ≠ fin 0) (hn : x ≠ nan) :
    fin q * x ≠ fin 0 ∧ fin q * x ≠ nan := by
  cases x with
  | fin c =>
      have hc : c ≠ 0 := fun h => h0 (by rw [h])
      constructor
      · intro h
        rw [fin_mul_fin] at h
        injection h with h
        exact (mul_ne_zero hq hc) h
      · intro h
        rw [fin_mul_fin] at h
        cases h
  | nan => exact absurd rfl hn
  | posInf =>
      show mul (fin q) posInf ≠ fin 0 ∧ mul (fin q) posInf ≠ nan
      simp only [mul, infTimes, if_neg hq]
      constructor <;> split <;> simp
  | negInf =>
      show mul (fin q) negInf ≠ fin 0 ∧ mul (fin q) negInf ≠ nan
      simp only [mul, infTimes, if_neg hq]
      constructor <;> split <;> simp

/-- The product does not depend on the order of its factors. -/
theorem mul_comm_eq (x y : JSNum) : x * y = y * x := by
  cases x <;> cases y <;> first | rfl | (show mul _ _ = mul _ _; simp [mul, Rat.mul_comm])

end JSNum

/-! ## generateWaypoints: results -/

/-- The list `generateWaypoints` returns when no coordinate is `NaN`. -/
theorem generateWaypoints_of_not_nan (env : Env) (rand : Nat → JSNum)
    (srcLat srcLon dstLat dstLon : JSNum) (numPoints : Nat)
    (h : (isNaN srcLat || isNaN srcLon || isNaN dstLat || isNaN dstLon) = false) :
    generateWaypoints env rand srcLat srcLon dstLat dstLon numPoints
      = .ok ([⟨srcLat, srcLon⟩]
          ++ (List.range numPoints).map (fun k =>
                intermediate env srcLat srcLon dstLat dstLon numPoints (k + 1) (rand k))
          ++ [⟨dstLat, dstLon⟩]) := by
  simp only [generateWaypoints, parseFloat, h]
  rfl

/-- C1: for finite source and destination coordinates (distinct or not), every
`numPoints` and every sequence of random draws, `generateWaypoints` returns a list of
exactly `numPoints + 2` waypoints whose first element is the source and whose last
element is the destination. -/
theorem generateWaypoints_length_endpoints (env : Env) (rand : Nat → JSNum)
    (srcLat srcLon dstLat dstLon : JSNum) (numPoints : Nat)
    (h1 : srcLat.isFinite = true) (h2 : srcLon.isFinite = true)
    (h3 : dstLat.isFinite = true) (h4 : dstLon.isFinite = true) :
    ∃ ws, generateWaypoints env rand srcLat srcLon dstLat dstLon numPoints = .ok ws
      ∧ ws.length = numPoints + 2
      ∧ ws.head? = some ⟨srcLat, srcLon⟩
      ∧ ws.getLast? = some ⟨dstLat, dstLon⟩ := by
  have h : (isNaN srcLat || isNaN srcLon || isNaN dstLat || isNaN dstLon) = false := by
    simp [isNaN_of_isFinite h1, isNaN_of_isFinite h2, isNaN_of_isFinite h3,
      isNaN_of_isFinite h4]
  refine ⟨_, generateWaypoints_of_not_nan env rand _ _ _ _ numPoints h, ?_, ?_, ?_⟩
  · simp
  · simp
  · exact List.getLast?_concat _

/-- Witness of C1: Tambaram to Chennai Central with 8 intermediate points. -/
theorem generateWaypoints_length_endpoints_witness :
    ∃ ws, generateWaypoints sampleEnv (fun _ => fin (1 / 2))
        (fin (128259 / 10000)) (fin (800395 / 10000)) (fin (130843 / 10000))
        (fin (802705 / 10000)) 8 = .ok ws
      ∧ ws.length = 8 + 2
      ∧ ws.head? = some ⟨fin (128259 / 10000), fin (800395 / 10000)⟩
      ∧ ws.getLast? = some ⟨fin (130843 / 10000), fin (802705 / 10000)⟩ :=
  generateWaypoints_length_endpoints sampleEnv (fun _ => fin (1 / 2)) _ _ _ _ 8 rfl rfl rfl rfl

/-- The quotient `t = i / (numPoints + 1)` is the finite rational of that quotient. -/
theorem t_eq (numPoints i : Nat) :
    ofNat i / (ofNat numPoints + fin 1) = fin ((i : ℚ) / ((numPoints : ℚ) + 1)) := by
  have h : ((numPoints : ℚ) + 1) ≠ 0 := by positivity
  simp only [ofNat_eq, fin_add_fin]
  exact fin_div_fin _ _ h

/-- With source equal to destination and a zero direct distance, the waypoint of every
iteration is the source itself. -/
theorem intermediate_same_point (env : Env) (a b : ℚ) (numPoints i : Nat) (r : JSNum)
    (hhav : env.haversine (fin a) (fin b) (fin a) (fin b) = fin 0)
    (hr : r.isFinite = true)
    (hcos : ∀ q, env.cos (fin q) ≠ fin 0 ∧ env.cos (fin q) ≠ nan) :
    intermediate env (fin a) (fin b) (fin a) (fin b) numPoints i r = ⟨fin a, fin b⟩ := by
  obtain ⟨q, rfl⟩ := eq_fin_of_isFinite hr
  have hoff : randomOffset env (fin a) (fin b) (fin a) (fin b) numPoints i (fin q) = fin 0 := by
    simp only [randomOffset, t_eq, hhav, variationFactor]
    rw [fin_div_fin _ _ (by norm_num)]
    simp
  have hperp : perpendicular env (fin a) (fin b) (fin a) (fin b) = (fin 0, fin 0) := by
    simp only [perpendicular, fin_sub_fin, sub_self, neg_fin, neg_zero]
    split
    · next h =>
        obtain ⟨h0, hn⟩ := ne_of_gt_zero h
        rw [zero_div_eq h0 hn]
    · rfl
  have hbase : basePoint (fin a) (fin b) (fin a) (fin b) numPoints i
      = (fin ((i : ℚ) / ((numPoints : ℚ) + 1)), fin a, fin b) := by
    simp only [basePoint, t_eq, fin_sub_fin, fin_mul_fin, fin_add_fin]
    simp
  have h180 : fin a * PI / fin 180
      = fin (a * (884279719003555 / 281474976710656) / 180) := by
    simp only [PI, fin_mul_fin]
    exact fin_div_fin _ _ (by norm_num)
  have hden := fin_mul_ne (q := 11132 / 100) (by norm_num)
    (hcos (a * (884279719003555 / 281474976710656) / 180)).1
    (hcos (a * (884279719003555 / 281474976710656) / 180)).2
  simp only [intermediate, hoff, hperp, hbase, h180, kmPerDegree, fin_mul_fin, mul_zero]
  rw [zero_div_eq hden.1 hden.2, fin_div_fin _ _ (by norm_num)]
  simp

/-- C2: for a finite point `p`, every `numPoints` and every sequence of finite random
draws, `generateWaypoints(p, p, numPoints)` returns `numPoints + 2` waypoints all equal
to `p`, given that the distance library returns 0 from `p` to itself and that
`Math.cos` of a finite number is neither zero nor `NaN`. -/
theorem generateWaypoints_same_point (env : Env) (rand : Nat → JSNum) (a b : ℚ)
    (numPoints : Nat)
    (hhav : env.haversine (fin a) (fin b) (fin a) (fin b) = fin 0)
    (hrand : ∀ k, (rand k).isFinite = true)
    (hcos : ∀ q, env.cos (fin q) ≠ fin 0 ∧ env.cos (fin q) ≠ nan) :
    generateWaypoints env rand (fin a) (fin b) (fin a) (fin b) numPoints
      = .ok (List.replicate (numPoints + 2) ⟨fin a, fin b⟩) := by
  rw [generateWaypoints_of_not_nan env rand _ _ _ _ numPoints (by simp)]
  congr 1
  have hmap : (List.range numPoints).map (fun k =>
      intermediate env (fin a) (fin b) (fin a) (fin b) numPoints (k + 1) (rand k))
      = List.replicate numPoints ⟨fin a, fin b⟩ := by
    rw [List.eq_replicate_iff]
    refine ⟨by simp, ?_⟩
    intro w hw
    obtain ⟨k, _, rfl⟩ := List.mem_map.1 hw
    exact intermediate_same_point env a b numPoints (k + 1) (rand k) hhav (hrand k) hcos
  rw [hmap, List.replicate_succ']
  congr 1

/-- Witness of C2: the point (13, 80) with 8 intermediate points. -/
theorem generateWaypoints_same_point_witness :
    generateWaypoints sampleEnv (fun _ => fin (1 / 2)) (fin 13) (fin 80) (fin 13) (fin 80) 8
      = .ok (List.replicate (8 + 2) ⟨fin 13, fin 80⟩) :=
  generateWaypoints_same_point sampleEnv (fun _ => fin (1 / 2)) 13 80 8
    (by simp [sampleEnv]) (fun _ => rfl)
    (fun q => ⟨by simp [sampleEnv], by simp [sampleEnv]⟩)

/-- C4, as stated, fails: with a `NaN` source latitude `generateWaypoints` raises no
error and returns a list, the two waypoints `(0, 0)`. -/
theorem nan_input_returns_zero_list :
    generateWaypoints sampleEnv (fun _ => fin (1 / 2)) nan (fin 80) (fin 13) (fin 80) 8
        = .ok [⟨fin 0, fin 0⟩, ⟨fin 0, fin 0⟩]
      ∧ ∀ e, generateWaypoints sampleEnv (fun _ => fin (1 / 2)) nan (fin 80) (fin 13)
          (fin 80) 8 ≠ .error e := by
  have h : generateWaypoints sampleEnv (fun _ => fin (1 / 2)) nan (fin 80) (fin 13) (fin 80) 8
      = .ok [⟨fin 0, fin 0⟩, ⟨fin 0, fin 0⟩] := rfl
  refine ⟨h, fun e he => ?_⟩
  rw [h] at he
  cases he

/-- C4, amended: when some source or destination coordinate is `NaN`,
`generateWaypoints` raises no error and returns the two-waypoint list
`[(0, 0), (0, 0)]`. -/
theorem generateWaypoints_nan (env : Env) (rand : Nat → JSNum)
    (srcLat srcLon dstLat dstLon : JSNum) (numPoints : Nat)
    (h : srcLat.isNaN = true ∨ srcLon.isNaN = true ∨ dstLat.isNaN = true
      ∨ dstLon.isNaN = true) :
    generateWaypoints env rand srcLat srcLon dstLat dstLon numPoints
      = .ok [⟨fin 0, fin 0⟩, ⟨fin 0, fin 0⟩] := by
  have hc : (isNaN srcLat || isNaN srcLon || isNaN dstLat || isNaN dstLon) = true := by
    rcases h with h | h | h | h <;> simp [h]
  simp only [generateWaypoints, parseFloat, hc]
  rfl

/-- Witness of the amended C4: a `NaN` destination longitude. -/
theorem generateWaypoints_nan_witness :
    generateWaypoints sampleEnv (fun _ => fin (1 / 2)) (fin 13) (fin 80) (fin 13) nan 8
      = .ok [⟨fin 0, fin 0⟩, ⟨fin 0, fin 0⟩] :=
  generateWaypoints_nan sampleEnv (fun _ => fin (1 / 2)) (fin 13) (fin 80) (fin 13) nan 8
    (Or.inr (Or.inr (Or.inr rfl)))

/-- The waypoint at index `i`, for `1 ≤ i ≤ numPoints`, is the one pushed in iteration
`i`, which used the draw of call `i - 1`. -/
theorem generateWaypoints_getElem (env : Env) (rand : Nat → JSNum)
    (srcLat srcLon dstLat dstLon : JSNum) (numPoints i : Nat)
    (h : (isNaN srcLat || isNaN srcLon || isNaN dstLat || isNaN dstLon) = false)
    (hi1 : 1 ≤ i) (hin : i ≤ numPoints) :
    ∃ ws, generateWaypoints env rand srcLat srcLon dstLat dstLon numPoints = .ok ws
      ∧ ws[i]? = some (intermediate env srcLat srcLon dstLat dstLon numPoints i
          (rand (i - 1))) := by
  refine ⟨_, generateWaypoints_of_not_nan env rand _ _ _ _ numPoints h, ?_⟩
  obtain ⟨k, rfl⟩ : ∃ k, i = k + 1 := ⟨i - 1, by omega⟩
  have hk : k < numPoints := by omega
  simp [List.getElem?_append_left, hk]

/-- The parabolic envelope `4 t (1 - t)` lies between 0 and 1 for `t` between 0 and 1. -/
theorem envelope_bounds (t : ℚ) (h0 : 0 ≤ t) (h1 : t ≤ 1) :
    0 ≤ 4 * t * (1 - t) ∧ 4 * t * (1 - t) ≤ 1 := by
  constructor
  · have : 0 ≤ t * (1 - t) := mul_nonneg h0 (by linarith)
    linarith
  · nlinarith [sq_nonneg (2 * t - 1)]

/-- The waypoint of iteration `i` in closed form, for finite inputs, a finite distance
`D`, a positive finite norm `s` and a finite non-zero cosine `cb`. -/
theorem intermediate_closed_form (env : Env) (a b c d : ℚ) (numPoints i : Nat)
    (r D s cb : ℚ)
    (hD : env.haversine (fin a) (fin b) (fin c) (fin d) = fin D)
    (hs : env.sqrt (fin ((d - b) ^ 2 + (c - a) ^ 2)) = fin s) (hs0 : 0 < s)
    (hcb : env.cos (fin ((a + (c - a) * ((i : ℚ) / ((numPoints : ℚ) + 1)))
        * (884279719003555 / 281474976710656) / 180)) = fin cb)
    (hcb0 : cb ≠ 0) :
    intermediate env (fin a) (fin b) (fin c) (fin d) numPoints i (fin r)
      = ⟨fin (a + (c - a) * ((i : ℚ) / ((numPoints : ℚ) + 1))
            + -(d - b) / s
              * ((r * 2 - 1) * (3 / 100 * (4 * ((i : ℚ) / ((numPoints : ℚ) + 1))
                  * (1 - (i : ℚ) / ((numPoints : ℚ) + 1))) * (D / 1000)))
              / (11132 / 100)),
         fin (b + (d - b) * ((i : ℚ) / ((numPoints : ℚ) + 1))
            + (c - a) / s
              * ((r * 2 - 1) * (3 / 100 * (4 * ((i : ℚ) / ((numPoints : ℚ) + 1))
                  * (1 - (i : ℚ) / ((numPoints : ℚ) + 1))) * (D / 1000)))
              / (11132 / 100 * cb))⟩ := by
  have hoff : randomOffset env (fin a) (fin b) (fin c) (fin d) numPoints i (fin r)
      = fin ((r * 2 - 1) * (3 / 100 * (4 * ((i : ℚ) / ((numPoints : ℚ) + 1))
                  * (1 - (i : ℚ) / ((numPoints : ℚ) + 1))) * (D / 1000))) := by
    simp only [randomOffset, t_eq, hD, variationFactor]
    rw [fin_div_fin _ _ (by norm_num)]
    simp only [fin_mul_fin, fin_sub_fin]
  have harg : (-(d - b)) * (-(d - b)) + (c - a) * (c - a) = (d - b) ^ 2 + (c - a) ^ 2 := by
    ring
  have hperp : perpendicular env (fin a) (fin b) (fin c) (fin d)
      = (fin (-(d - b) / s), fin ((c - a) / s)) := by
    simp only [perpendicular, fin_sub_fin, neg_fin, fin_mul_fin, fin_add_fin, harg, hs]
    have hgt : gt (fin s) (fin 0) = true := by simp [gt, lt, hs0]
    rw [if_pos hgt, fin_div_fin _ _ (ne_of_gt hs0), fin_div_fin _ _ (ne_of_gt hs0)]
  have hbase : basePoint (fin a) (fin b) (fin c) (fin d) numPoints i
      = (fin ((i : ℚ) / ((numPoints : ℚ) + 1)),
         fin (a + (c - a) * ((i : ℚ) / ((numPoints : ℚ) + 1))),
         fin (b + (d - b) * ((i : ℚ) / ((numPoints : ℚ) + 1)))) := by
    simp only [basePoint, t_eq, fin_sub_fin, fin_mul_fin, fin_add_fin]
  simp only [intermediate, hoff, hperp, hbase, kmPerDegree, PI, fin_mul_fin]
  rw [fin_div_fin _ _ (by norm_num : (180 : ℚ) ≠ 0), hcb, fin_mul_fin,
    fin_div_fin _ _ (by norm_num : (11132 / 100 : ℚ) ≠ 0),
    fin_div_fin _ _ (mul_ne_zero (by norm_num) hcb0)]
  simp only [fin_add_fin]

/-! ## The graph before penalties -/

theorem addEdge_nodes (G : Graph) (u v : Nat) (d : EdgeData) :
    (G.addEdge u v d).nodes = G.nodes := by
  unfold Graph.addEdge
  split <;> rfl

theorem addNode_edges (G : Graph) (id : Nat) (d : NodeData) :
    (G.addNode id d).edges = G.edges := by
  unfold Graph.addNode
  split <;> rfl

/-- Adding an edge under a pair that is not yet a key appends it. -/
theorem addEdge_fresh (G : Graph) (u v : Nat) (d : EdgeData)
    (h : ∀ e ∈ G.edges, e.key ≠ (u, v)) :
    G.addEdge u v d = { G with edges := G.edges ++ [⟨u, v, d⟩] } := by
  have hany : G.edges.any (fun e => decide (e.key = (u, v))) = false := by
    rw [List.any_eq_false]
    intro e he
    simpa using h e he
  simp [Graph.addEdge, hany]

/-- Adding a node under an index that is not yet a key appends it. -/
theorem addNode_fresh (G : Graph) (id : Nat) (d : NodeData)
    (h : ∀ n ∈ G.nodes, n.1 ≠ id) :
    G.addNode id d = { G with nodes := G.nodes ++ [(id, d)] } := by
  have hany : G.nodes.any (fun n => decide (n.1 = id)) = false := by
    rw [List.any_eq_false]
    intro n hn
    simpa using h n hn
  simp [Graph.addNode, hany]

/-- Adding edges with pairwise distinct keys, none of them present, appends them. -/
theorem foldl_insertEdge_fresh (cmds : List Edge) (G : Graph)
    (h : ((G.edges ++ cmds).map Edge.key).Nodup) :
    cmds.foldl insertEdge G = { G with edges := G.edges ++ cmds } := by
  induction cmds generalizing G with
  | nil => simp
  | cons e cmds ih =>
      have hfresh : ∀ e' ∈ G.edges, e'.key ≠ (e.u, e.v) := by
        intro e' he' heq
        rw [List.map_append, List.nodup_append] at h
        exact h.2.2 (List.mem_map_of_mem Edge.key he')
          (by rw [heq]; exact List.mem_map_of_mem Edge.key (List.mem_cons_self e cmds))
      have hstep : insertEdge G e = { G with edges := G.edges ++ [e] } := by
        unfold insertEdge
        rw [addEdge_fresh G e.u e.v e.data hfresh]
      rw [List.foldl_cons, hstep, ih]
      · simp
      · simpa using h

/-- Adding nodes with pairwise distinct indices, none of them present, appends them. -/
theorem foldl_insertNode_fresh (cmds : List (Nat × NodeData)) (G : Graph)
    (h : ((G.nodes ++ cmds).map Prod.fst).Nodup) :
    cmds.foldl insertNode G = { G with nodes := G.nodes ++ cmds } := by
  induction cmds generalizing G with
  | nil => simp
  | cons n cmds ih =>
      have hfresh : ∀ n' ∈ G.nodes, n'.1 ≠ n.1 := by
        intro n' hn' heq
        rw [List.map_append, List.nodup_append] at h
        exact h.2.2 (List.mem_map_of_mem Prod.fst hn')
          (by rw [heq]; exact List.mem_map_of_mem Prod.fst (List.mem_cons_self n cmds))
      have hstep : insertNode G n = { G with nodes := G.nodes ++ [n] } := by
        unfold insertNode
        rw [addNode_fresh G n.1 n.2 hfresh]
      rw [List.foldl_cons, hstep, ih]
      · simp
      · simpa using h

/-- The inner loop adds the edges of `secondaryRow`. -/
theorem foldl_addForward (env : Env) (ws : List Waypoint) (i : Nat) (js : List Nat)
    (G : Graph) :
    js.foldl (addForward env ws i) G
      = ((js.filter (shortcutOk env ws i)).map (shortcut env ws i)).foldl insertEdge G := by
  induction js generalizing G with
  | nil => rfl
  | cons j js ih =>
      rw [List.foldl_cons, ih, List.filter_cons]
      by_cases hj : shortcutOk env ws i j = true
      · rw [if_pos hj, List.map_cons, List.foldl_cons]
        have : addForward env ws i G j = insertEdge G (shortcut env ws i j) := by
          unfold shortcutOk at hj
          simp only [addForward, hj, if_true, insertEdge, shortcut]
        rw [this]
      · rw [if_neg hj]
        have : addForward env ws i G j = G := by
          unfold shortcutOk at hj
          simp only [addForward, hj]
          rfl
        rw [this]

/-- A loop of loops is one loop over the concatenation. -/
theorem foldl_flatMap_eq {α β γ : Type} (f : γ → β → γ) (g : α → List β) (l : List α)
    (init : γ) :
    l.foldl (fun acc a => (g a).foldl f acc) init = (l.flatMap g).foldl f init := by
  induction l generalizing init with
  | nil => rfl
  | cons a l ih => rw [List.foldl_cons, ih, List.flatMap_cons, List.foldl_append]

/-- The graph before penalties is the empty graph with the nodes, then the primary
and the secondary edges added one by one. -/
theorem buildGraph_eq_foldl (env : Env) (ws : List Waypoint) (nc : Int) :
    buildGraph env ws nc
      = (primaryEdges env ws ++ secondaryEdges env ws nc).foldl insertEdge
          (((List.range ws.length).map (nodeOf ws)).foldl insertNode Graph.empty) := by
  have hsec : ∀ G, addSecondary env ws nc G
      = (secondaryEdges env ws nc).foldl insertEdge G := by
    intro G
    unfold addSecondary secondaryEdges
    rw [← foldl_flatMap_eq]
    congr 1
    funext G i
    exact foldl_addForward env ws i _ G
  have hprim : ∀ G, addPrimary env ws G = (primaryEdges env ws).foldl insertEdge G := by
    intro G
    unfold addPrimary primaryEdges
    rw [List.foldl_map]
    rfl
  have hnodes : addNodes ws Graph.empty
      = ((List.range ws.length).map (nodeOf ws)).foldl insertNode Graph.empty := by
    unfold addNodes
    rw [List.foldl_map]
    rfl
  unfold buildGraph
  rw [hsec, hprim, hnodes, List.foldl_append]

/-- The values of `j` the inner loop runs through. -/
theorem mem_forwardTargets (ws : List Waypoint) (nc : Int) (i j : Nat) :
    j ∈ forwardTargets ws nc i
      ↔ i + 2 ≤ j ∧ (j : Int) < min ((i : Int) + maxForwardSkip ws nc + 2) (ws.length : Int) := by
  unfold forwardTargets
  rw [List.mem_range'_1]
  omega

theorem mem_primaryEdges (env : Env) (ws : List Waypoint) (e : Edge) :
    e ∈ primaryEdges env ws ↔ ∃ i, i + 1 < ws.length ∧ e = primaryEdge env ws i := by
  unfold primaryEdges
  rw [List.mem_map]
  constructor
  · rintro ⟨i, hi, rfl⟩
    exact ⟨i, by rw [List.mem_range] at hi; omega, rfl⟩
  · rintro ⟨i, hi, rfl⟩
    exact ⟨i, by rw [List.mem_range]; omega, rfl⟩

theorem mem_secondaryRow (env : Env) (ws : List Waypoint) (nc : Int) (i : Nat) (e : Edge) :
    e ∈ secondaryRow env ws nc i
      ↔ ∃ j, j ∈ forwardTargets ws nc i ∧ shortcutOk env ws i j = true
          ∧ e = shortcut env ws i j := by
  unfold secondaryRow
  rw [List.mem_map]
  constructor
  · rintro ⟨j, hj, rfl⟩
    rw [List.mem_filter] at hj
    exact ⟨j, hj.1, hj.2, rfl⟩
  · rintro ⟨j, hj, hok, rfl⟩
    exact ⟨j, List.mem_filter.2 ⟨hj, hok⟩, rfl⟩

theorem mem_secondaryEdges (env : Env) (ws : List Waypoint) (nc : Int) (e : Edge) :
    e ∈ secondaryEdges env ws nc
      ↔ ∃ i j, i + 1 < ws.length ∧ j ∈ forwardTargets ws nc i
          ∧ shortcutOk env ws i j = true ∧ e = shortcut env ws i j := by
  unfold secondaryEdges
  rw [List.mem_flatMap]
  constructor
  · rintro ⟨i, hi, he⟩
    obtain ⟨j, hj, hok, rfl⟩ := (mem_secondaryRow env ws nc i e).1 he
    exact ⟨i, j, by rw [List.mem_range] at hi; omega, hj, hok, rfl⟩
  · rintro ⟨i, j, hi, hj, hok, rfl⟩
    exact ⟨i, by rw [List.mem_range]; omega, (mem_secondaryRow env ws nc i _).2 ⟨j, hj, hok, rfl⟩⟩

/-- No two of the edges the loops add share a pair `(u, v)`. -/
theorem nodup_edge_keys (env : Env) (ws : List Waypoint) (nc : Int) :
    ((primaryEdges env ws ++ secondaryEdges env ws nc).map Edge.key).Nodup := by
  rw [List.map_append, List.nodup_append]
  refine ⟨?_, ?_, ?_⟩
  · unfold primaryEdges
    rw [List.map_map]
    refine (List.nodup_range _).map ?_
    intro i i' h
    simp only [Function.comp, Edge.key, primaryEdge, Prod.mk.injEq] at h
    exact h.1
  · unfold secondaryEdges
    rw [List.map_flatMap, List.nodup_flatMap]
    constructor
    · intro i _
      unfold secondaryRow
      rw [List.map_map]
      refine ((List.nodup_range' _ _).filter _).map ?_
      intro j j' h
      simp only [Function.comp, Edge.key, shortcut, Prod.mk.injEq] at h
      exact h.2
    · refine (List.nodup_range _).imp ?_
      intro i i' hne k hk hk'
      obtain ⟨e, he, rfl⟩ := List.mem_map.1 hk
      obtain ⟨e', he', hkey⟩ := List.mem_map.1 hk'
      obtain ⟨j, _, _, rfl⟩ := (mem_secondaryRow env ws nc i e).1 he
      obtain ⟨j', _, _, rfl⟩ := (mem_secondaryRow env ws nc i' e').1 he'
      simp only [Edge.key, shortcut, Prod.mk.injEq] at hkey
      exact hne hkey.1.symm
  · intro k hk hk'
    obtain ⟨e, he, rfl⟩ := List.mem_map.1 hk
    obtain ⟨e', he', hkey⟩ := List.mem_map.1 hk'
    obtain ⟨i, _, rfl⟩ := (mem_primaryEdges env ws e).1 he
    obtain ⟨i', j, _, hj, _, rfl⟩ := (mem_secondaryEdges env ws nc e').1 he'
    rw [mem_forwardTargets] at hj
    simp only [Edge.key, shortcut, primaryEdge, Prod.mk.injEq] at hkey
    omega

/-- The graph before penalties, written out: one node per waypoint, then the primary
edges followed by the secondary edges. -/
theorem buildGraph_eq (env : Env) (ws : List Waypoint) (nc : Int) :
    buildGraph env ws nc
      = ⟨(List.range ws.length).map (nodeOf ws),
          primaryEdges env ws ++ secondaryEdges env ws nc⟩ := by
  have hnodes : ((List.range ws.length).map (nodeOf ws)).foldl insertNode Graph.empty
      = ⟨(List.range ws.length).map (nodeOf ws), []⟩ := by
    rw [foldl_insertNode_fresh]
    · simp [Graph.empty]
    · simp only [Graph.empty, List.nil_append, List.map_map]
      have : (Prod.fst ∘ nodeOf ws) = id := by
        funext i
        rfl
      rw [this, List.map_id]
      exact List.nodup_range _
  rw [buildGraph_eq_foldl, hnodes, foldl_insertEdge_fresh]
  · simp
  · simpa using nodup_edge_keys env ws nc

/-- The element `waypoints[i]` for an index below the length. -/
theorem wp_eq (ws : List Waypoint) (i : Nat) (h : i < ws.length) : wp ws i = ws[i] := by
  unfold wp
  exact List.getD_eq_getElem ws _ h

/-- An edge of the graph before penalties is a primary edge or a shortcut that passed
the test. -/
theorem mem_buildGraph_edges (env : Env) (ws : List Waypoint) (nc : Int) (e : Edge) :
    e ∈ (buildGraph env ws nc).edges
      ↔ (∃ i, i + 1 < ws.length ∧ e = primaryEdge env ws i)
        ∨ (∃ i j, i + 1 < ws.length ∧ j ∈ forwardTargets ws nc i
            ∧ shortcutOk env ws i j = true ∧ e = shortcut env ws i j) := by
  rw [buildGraph_eq, List.mem_append, mem_primaryEdges, mem_secondaryEdges]

/-- C5: in the graph built from `N` waypoints, before penalties, for every `i` with
`i + 1 < N` (so `N ≥ 2` and `i` is one of `0 .. N-2`) the edge `(i, i+1)` is present with kind primary and weight the haversine
distance between waypoint `i` and waypoint `i+1`, and it is the only edge stored under
`(i, i+1)`: no shortcut replaces or removes it. -/
theorem primary_path_present (env : Env) (ws : List Waypoint) (nc : Int) (i : Nat)
    (hi : i + 1 < ws.length) :
    (⟨i, i + 1, ⟨hav env ws[i] ws[i + 1], .primary⟩⟩ : Edge) ∈ (buildGraph env ws nc).edges
      ∧ ∀ e ∈ (buildGraph env ws nc).edges, e.u = i → e.v = i + 1 →
          e = ⟨i, i + 1, ⟨hav env ws[i] ws[i + 1], .primary⟩⟩ := by
  have hprim : primaryEdge env ws i = ⟨i, i + 1, ⟨hav env ws[i] ws[i + 1], .primary⟩⟩ := by
    simp only [primaryEdge, wp_eq ws i (by omega), wp_eq ws (i + 1) hi]
  constructor
  · rw [mem_buildGraph_edges, ← hprim]
    exact Or.inl ⟨i, hi, rfl⟩
  · intro e he hu hv
    rw [mem_buildGraph_edges] at he
    rcases he with ⟨i', _, rfl⟩ | ⟨i', j, _, hj, _, rfl⟩
    · simp only [primaryEdge] at hu
      subst hu
      exact hprim
    · rw [mem_forwardTargets] at hj
      simp only [shortcut] at hu hv
      omega

/-- Witness of C5: three waypoints on a line, the step from node 1 to node 2. -/
theorem primary_path_present_witness :
    (⟨1, 1 + 1, ⟨hav sampleEnv [(⟨fin 0, fin 0⟩ : Waypoint), ⟨fin 1, fin 0⟩, ⟨fin 2, fin 0⟩][1]
          [(⟨fin 0, fin 0⟩ : Waypoint), ⟨fin 1, fin 0⟩, ⟨fin 2, fin 0⟩][1 + 1], .primary⟩⟩ : Edge)
        ∈ (buildGraph sampleEnv [⟨fin 0, fin 0⟩, ⟨fin 1, fin 0⟩, ⟨fin 2, fin 0⟩] 2).edges
      ∧ ∀ e ∈ (buildGraph sampleEnv [⟨fin 0, fin 0⟩, ⟨fin 1, fin 0⟩, ⟨fin 2, fin 0⟩] 2).edges,
          e.u = 1 → e.v = 1 + 1 →
          e = ⟨1, 1 + 1, ⟨hav sampleEnv
                [(⟨fin 0, fin 0⟩ : Waypoint), ⟨fin 1, fin 0⟩, ⟨fin 2, fin 0⟩][1]
                [(⟨fin 0, fin 0⟩ : Waypoint), ⟨fin 1, fin 0⟩, ⟨fin 2, fin 0⟩][1 + 1],
              .primary⟩⟩ :=
  primary_path_present sampleEnv [⟨fin 0, fin 0⟩, ⟨fin 1, fin 0⟩, ⟨fin 2, fin 0⟩] 2 1
    (by decide)

/-- C6: for every waypoint list of length `N`, every integer `numConnections` (the
non-negative ones among them) and every pair
`i < j`, the graph before penalties holds the secondary edge `(i, j)` with weight
`haversine(w_i, w_j)` if and only if `i + 2 ≤ j ≤ min(i + numConnections + 1, N - 1)`
and `haversine(w_i, w_j) < 2.5 * haversine(w_i, w_{i+1})`; and every secondary edge
stored under `(i, j)` is that edge. -/
theorem secondary_edge_iff (env : Env) (ws : List Waypoint) (nc : Int) (i j : Nat) (hij : i < j) :
    ((shortcut env ws i j ∈ (buildGraph env ws nc).edges)
        ↔ (i + 2 ≤ j ∧ (j : Int) ≤ Min.min ((i : Int) + nc + 1) ((ws.length : Int) - 1)
            ∧ lt (hav env (wp ws i) (wp ws j))
                (fin (5 / 2) * hav env (wp ws i) (wp ws (i + 1))) = true))
      ∧ ∀ e ∈ (buildGraph env ws nc).edges, e.u = i → e.v = j →
          e.data.type = .secondary → e = shortcut env ws i j := by
  constructor
  · rw [mem_buildGraph_edges, mul_comm_eq]
    constructor
    · rintro (⟨i', _, h⟩ | ⟨i', j', hi', hj', hok, h⟩)
      · simp [shortcut, primaryEdge] at h
      · simp only [shortcut, Edge.mk.injEq] at h
        obtain ⟨rfl, rfl, -⟩ := h
        rw [mem_forwardTargets] at hj'
        unfold maxForwardSkip at hj'
        exact ⟨hj'.1, by omega, hok⟩
    · rintro ⟨h2, hmin, hok⟩
      refine Or.inr ⟨i, j, by omega, ?_, hok, rfl⟩
      rw [mem_forwardTargets]
      unfold maxForwardSkip
      omega
  · intro e he hu hv hty
    rw [mem_buildGraph_edges] at he
    rcases he with ⟨i', _, rfl⟩ | ⟨i', j', _, _, _, rfl⟩
    · simp [primaryEdge] at hty
    · simp only [shortcut] at hu hv
      subst hu hv
      rfl

/-- Witness of C6: four waypoints, the pair `(0, 2)`. -/
theorem secondary_edge_iff_witness :
    ((shortcut sampleEnv [⟨fin 0, fin 0⟩, ⟨fin 1, fin 0⟩, ⟨fin 2, fin 0⟩, ⟨fin 3, fin 0⟩] 0 2
          ∈ (buildGraph sampleEnv
              [⟨fin 0, fin 0⟩, ⟨fin 1, fin 0⟩, ⟨fin 2, fin 0⟩, ⟨fin 3, fin 0⟩] 2).edges)
        ↔ (0 + 2 ≤ 2 ∧ ((2 : Nat) : Int) ≤ Min.min (((0 : Nat) : Int) + 2 + 1)
              ((([⟨fin 0, fin 0⟩, ⟨fin 1, fin 0⟩, ⟨fin 2, fin 0⟩, ⟨fin 3, fin 0⟩] :
                List Waypoint).length : Int) - 1)
            ∧ lt (hav sampleEnv
                  (wp [⟨fin 0, fin 0⟩, ⟨fin 1, fin 0⟩, ⟨fin 2, fin 0⟩, ⟨fin 3, fin 0⟩] 0)
                  (wp [⟨fin 0, fin 0⟩, ⟨fin 1, fin 0⟩, ⟨fin 2, fin 0⟩, ⟨fin 3, fin 0⟩] 2))
                (fin (5 / 2) * hav sampleEnv
                  (wp [⟨fin 0, fin 0⟩, ⟨fin 1, fin 0⟩, ⟨fin 2, fin 0⟩, ⟨fin 3, fin 0⟩] 0)
                  (wp [⟨fin 0, fin 0⟩, ⟨fin 1, fin 0⟩, ⟨fin 2, fin 0⟩, ⟨fin 3, fin 0⟩]
                    (0 + 1))) = true))
      ∧ ∀ e ∈ (buildGraph sampleEnv
              [⟨fin 0, fin 0⟩, ⟨fin 1, fin 0⟩, ⟨fin 2, fin 0⟩, ⟨fin 3, fin 0⟩] 2).edges,
          e.u = 0 → e.v = 2 → e.data.type = .secondary →
          e = shortcut sampleEnv
              [⟨fin 0, fin 0⟩, ⟨fin 1, fin 0⟩, ⟨fin 2, fin 0⟩, ⟨fin 3, fin 0⟩] 0 2 :=
  secondary_edge_iff sampleEnv [⟨fin 0, fin 0⟩, ⟨fin 1, fin 0⟩, ⟨fin 2, fin 0⟩, ⟨fin 3, fin 0⟩]
    2 0 2 (by decide)

/-! ## Penalty application -/

/-- The penalty of an edge depends on the graph through its nodes only. -/
theorem edgeMaxPenalty_congr (env : Env) (cd : Option (List Crime)) (tree : Option KDTree)
    (G G' : Graph) (h : G.nodes = G'.nodes) (u v : Nat) :
    edgeMaxPenalty env cd tree G u v = edgeMaxPenalty env cd tree G' u v := by
  simp only [edgeMaxPenalty, Graph.getNode, h]

theorem penalize_key (env : Env) (cd : Option (List Crime)) (tree : Option KDTree)
    (G : Graph) (e : Edge) : (penalize env cd tree G e).key = e.key := by
  unfold penalize
  split
  · split <;> rfl
  · rfl

theorem penalize_congr (env : Env) (cd : Option (List Crime)) (tree : Option KDTree)
    (G G' : Graph) (h : G.nodes = G'.nodes) (e : Edge) :
    penalize env cd tree G e = penalize env cd tree G' e := by
  simp only [penalize, edgeMaxPenalty_congr env cd tree G G' h]

/-- An update under a key leaves a list without that key as it is. -/
theorem map_update_of_ne (l : List Edge) (k : Nat × Nat) (f : Edge → Edge)
    (h : ∀ x ∈ l, x.key ≠ k) :
    l.map (fun x => if x.key = k then f x else x) = l := by
  induction l with
  | nil => rfl
  | cons x l ih =>
      rw [List.map_cons, if_neg (h x (List.mem_cons_self x l)),
        ih (fun y hy => h y (List.mem_cons_of_mem x hy))]

/-- One turn of the penalty loop rewrites the entry of its edge and no other. -/
theorem penaltyStep_eq (env : Env) (cd : Option (List Crime)) (tree : Option KDTree)
    (nodes : List (Nat × NodeData)) (pre post : List Edge) (e : Edge)
    (hpre : ∀ x ∈ pre, x.key ≠ e.key) (hpost : ∀ x ∈ post, x.key ≠ e.key) :
    penaltyStep env cd tree ⟨nodes, pre ++ e :: post⟩ e
      = ⟨nodes, pre ++ penalize env cd tree ⟨nodes, []⟩ e :: post⟩ := by
  have hc := edgeMaxPenalty_congr env cd tree ⟨nodes, pre ++ e :: post⟩ ⟨nodes, []⟩ rfl e.u e.v
  unfold penaltyStep penalize
  rw [hc]
  cases edgeMaxPenalty env cd tree ⟨nodes, []⟩ e.u e.v with
  | error err => rfl
  | ok p =>
      by_cases hp : gt p (fin 1) = true
      · simp only [hp, if_true, Graph.updateEdge, List.map_append, List.map_cons]
        have hk : (e.u, e.v) = e.key := rfl
        rw [hk, map_update_of_ne pre e.key _ hpre, map_update_of_ne post e.key _ hpost]
        simp
      · simp only [hp]
        rfl

/-- The penalty loop over edges with pairwise distinct keys rewrites every entry by
`penalize`. -/
theorem foldl_penaltyStep (env : Env) (cd : Option (List Crime)) (tree : Option KDTree)
    (nodes : List (Nat × NodeData)) (post pre : List Edge)
    (h : ((pre ++ post).map Edge.key).Nodup) :
    post.foldl (penaltyStep env cd tree) ⟨nodes, pre ++ post⟩
      = ⟨nodes, pre ++ post.map (penalize env cd tree ⟨nodes, []⟩)⟩ := by
  induction post generalizing pre with
  | nil => simp
  | cons e post ih =>
      rw [List.map_append, List.nodup_append] at h
      obtain ⟨_, hpost, hdisj⟩ := h
      rw [List.map_cons, List.nodup_cons] at hpost
      have hpre : ∀ x ∈ pre, x.key ≠ e.key := by
        intro x hx heq
        exact hdisj (List.mem_map_of_mem Edge.key hx)
          (by rw [heq]; exact List.mem_cons_self _ _)
      have hpost' : ∀ x ∈ post, x.key ≠ e.key := by
        intro x hx heq
        exact hpost.1 (by rw [← heq]; exact List.mem_map_of_mem Edge.key hx)
      rw [List.foldl_cons, penaltyStep_eq env cd tree nodes pre post e hpre hpost']
      have hre : pre ++ penalize env cd tree ⟨nodes, []⟩ e :: post
          = (pre ++ [penalize env cd tree ⟨nodes, []⟩ e]) ++ post := by simp
      rw [hre, ih]
      · simp
      · have hkeys : ((pre ++ [penalize env cd tree ⟨nodes, []⟩ e]) ++ post).map Edge.key
            = (pre ++ e :: post).map Edge.key := by
          simp [penalize_key]
        rw [hkeys, List.map_append, List.nodup_append]
        exact ⟨by assumption, by rw [List.map_cons, List.nodup_cons]; exact hpost, hdisj⟩

/-- Penalty application on a graph whose edges have pairwise distinct keys: the nodes
stay, and every edge entry is rewritten by `penalize` when there is a tree and a
non-empty incident list, and stays otherwise. -/
theorem applyPenalties_eq (env : Env) (cd : Option (List Crime)) (tree : Option KDTree)
    (G : Graph) (h : (G.edges.map Edge.key).Nodup) :
    applyPenalties env cd tree G
      = if tree.isSome ∧ (∃ data, cd = some data ∧ data.length > 0) then
          ⟨G.nodes, G.edges.map (penalize env cd tree G)⟩
        else G := by
  unfold applyPenalties
  cases tree with
  | none => simp
  | some t =>
      cases cd with
      | none => simp
      | some data =>
          by_cases hd : data.length > 0
          · have := foldl_penaltyStep env (some data) (some t) G.nodes G.edges [] (by simpa using h)
            simp only [List.nil_append] at this
            simp only [hd, if_true, Option.isSome_some, Option.some.injEq, exists_eq_left',
              true_and]
            rw [this]
            congr 1
          · simp [hd]

/-- The keys of the edges of the graph before penalties are pairwise distinct. -/
theorem buildGraph_nodup_keys (env : Env) (ws : List Waypoint) (nc : Int) :
    ((buildGraph env ws nc).edges.map Edge.key).Nodup := by
  rw [buildGraph_eq]
  exact nodup_edge_keys env ws nc

/-- Penalty application on the built graph keeps the nodes and rewrites each edge entry
in place, keeping its endpoints and its kind. -/
theorem applyPenalties_buildGraph (env : Env) (cd : Option (List Crime))
    (tree : Option KDTree) (ws : List Waypoint) (nc : Int) :
    ∃ f : Edge → Edge,
      (∀ e, (f e).u = e.u ∧ (f e).v = e.v ∧ (f e).data.type = e.data.type)
      ∧ applyPenalties env cd tree (buildGraph env ws nc)
          = ⟨(buildGraph env ws nc).nodes, (buildGraph env ws nc).edges.map f⟩ := by
  rw [applyPenalties_eq env cd tree _ (buildGraph_nodup_keys env ws nc)]
  split
  · refine ⟨penalize env cd tree (buildGraph env ws nc), ?_, rfl⟩
    intro e
    unfold penalize
    split
    · split
      · exact ⟨rfl, rfl, rfl⟩
      · exact ⟨rfl, rfl, rfl⟩
    · exact ⟨rfl, rfl, rfl⟩
  · exact ⟨id, fun e => ⟨rfl, rfl, rfl⟩, by simp⟩

/-- The function returns through its `try` block, with the built graph after penalty
application. -/
theorem createWaypointGraph_eq (env : Env) (ws : List Waypoint) (cd : Option (List Crime))
    (tree : Option KDTree) (nc : Int) :
    createWaypointGraph env ws cd tree nc
      = .ok (applyPenalties env cd tree (buildGraph env ws nc)) := rfl

/-- Along a walk in a graph whose edges all go up, the node index goes up. -/
theorem walk_increasing (G : Graph) (h : ∀ e ∈ G.edges, e.u < e.v) (u v : Nat)
    (w : G.Walk u v) : u < v := by
  induction w with
  | single e he hu hv =>
      have := h e he
      omega
  | cons e he hu hv _ ih =>
      have := h e he
      omega

/-- C7: the graph `createWaypointGraph` returns through its `try` block (it always
does) has only edges `(u, v)` with `0 ≤ u < v ≤ N - 1`, and no walk of one or more
edges leads from a node back to itself. -/
theorem createWaypointGraph_edges_increasing (env : Env) (ws : List Waypoint)
    (cd : Option (List Crime)) (tree : Option KDTree) (nc : Int) :
    ∃ G, createWaypointGraphTry env ws cd tree nc = .ok G
      ∧ createWaypointGraph env ws cd tree nc = .ok G
      ∧ (∀ e ∈ G.edges,
          (0 : Int) ≤ (e.u : Int) ∧ e.u < e.v ∧ (e.v : Int) ≤ (ws.length : Int) - 1)
      ∧ ∀ u, ¬ G.Walk u u := by
  obtain ⟨f, hf, hG⟩ := applyPenalties_buildGraph env cd tree ws nc
  have hedges : ∀ e ∈ (applyPenalties env cd tree (buildGraph env ws nc)).edges,
      e.u < e.v ∧ e.v < ws.length := by
    intro e he
    rw [hG] at he
    obtain ⟨e0, he0, rfl⟩ := List.mem_map.1 he
    rw [(hf e0).1, (hf e0).2.1]
    rw [mem_buildGraph_edges] at he0
    rcases he0 with ⟨i, hi, rfl⟩ | ⟨i, j, hi, hj, _, rfl⟩
    · simp only [primaryEdge]
      omega
    · rw [mem_forwardTargets] at hj
      simp only [shortcut]
      omega
  refine ⟨_, rfl, rfl, ?_, ?_⟩
  · intro e he
    have := hedges e he
    omega
  · intro u hw
    have := walk_increasing _ (fun e he => (hedges e he).1) u u hw
    omega

/-- C8, as stated, fails: on the empty list and on a one-element list
`createWaypointGraph` raises no failure and returns a graph. -/
theorem short_list_returns_graph :
    createWaypointGraph sampleEnv [] none none 2 = .ok ⟨[], []⟩
      ∧ createWaypointGraph sampleEnv [⟨fin 13, fin 80⟩] none none 2
          = .ok ⟨[(0, ⟨fin 13, fin 80⟩)], []⟩ := by
  constructor
  · rw [createWaypointGraph_eq, buildGraph_eq]
    rfl
  · rw [createWaypointGraph_eq, buildGraph_eq]
    rfl

/-- C8, amended: for every waypoint list with fewer than 2 entries
`createWaypointGraph` raises no failure and returns the graph that has one node per
waypoint and no edge. -/
theorem createWaypointGraph_short (env : Env) (ws : List Waypoint)
    (cd : Option (List Crime)) (tree : Option KDTree) (nc : Int) (h : ws.length < 2) :
    createWaypointGraph env ws cd tree nc
      = .ok ⟨(List.range ws.length).map (nodeOf ws), []⟩ := by
  have h0 : ws.length - 1 = 0 := by omega
  have hb : buildGraph env ws nc = ⟨(List.range ws.length).map (nodeOf ws), []⟩ := by
    rw [buildGraph_eq]
    simp [primaryEdges, secondaryEdges, h0]
  rw [createWaypointGraph_eq, hb]
  congr 1
  unfold applyPenalties
  split
  · split <;> rfl
  · rfl

/-- Witness of the amended C8: a single waypoint, with incident data present. -/
theorem createWaypointGraph_short_witness :
    createWaypointGraph sampleEnv [⟨fin 13, fin 80⟩]
        (some [⟨.num 0, fin 13, fin 80⟩]) (some ⟨[⟨fin 13, fin 80, .num 0⟩]⟩) 2
      = .ok ⟨(List.range ([⟨fin 13, fin 80⟩] : List Waypoint).length).map
          (nodeOf [⟨fin 13, fin 80⟩]), []⟩ :=
  createWaypointGraph_short sampleEnv [⟨fin 13, fin 80⟩]
    (some [⟨.num 0, fin 13, fin 80⟩]) (some ⟨[⟨fin 13, fin 80, .num 0⟩]⟩) 2 (by decide)

/-- Every edge of the graph before penalties weighs the haversine distance between the
waypoints of its endpoints. -/
theorem buildGraph_edge_length (env : Env) (ws : List Waypoint) (nc : Int) (e : Edge)
    (he : e ∈ (buildGraph env ws nc).edges) :
    e.data.length = hav env (wp ws e.u) (wp ws e.v) := by
  rw [mem_buildGraph_edges] at he
  rcases he with ⟨i, _, rfl⟩ | ⟨i, j, _, _, _, rfl⟩ <;> rfl

/-- C9: when the crime tree is `null`, or the crime data is absent or empty,
`createWaypointGraph` returns the graph as built before penalties, and the weight of
every edge of it is the haversine distance between the waypoints of its endpoints. -/
theorem createWaypointGraph_no_incidents (env : Env) (ws : List Waypoint)
    (cd : Option (List Crime)) (tree : Option KDTree) (nc : Int)
    (h : tree = none ∨ cd = none ∨ cd = some []) :
    createWaypointGraph env ws cd tree nc = .ok (buildGraph env ws nc)
      ∧ ∀ G, createWaypointGraph env ws cd tree nc = .ok G →
          ∀ e ∈ G.edges, e.data.length = hav env (wp ws e.u) (wp ws e.v) := by
  have hret : createWaypointGraph env ws cd tree nc = .ok (buildGraph env ws nc) := by
    rw [createWaypointGraph_eq]
    congr 1
    unfold applyPenalties
    rcases h with rfl | rfl | rfl
    · rfl
    · cases tree <;> rfl
    · cases tree <;> rfl
  refine ⟨hret, ?_⟩
  intro G hG e he
  rw [hret] at hG
  injection hG with hG
  subst hG
  exact buildGraph_edge_length env ws nc e he

/-- Witness of C9: three waypoints, a tree but an empty incident list. -/
theorem createWaypointGraph_no_incidents_witness :
    createWaypointGraph sampleEnv [⟨fin 0, fin 0⟩, ⟨fin 1, fin 0⟩, ⟨fin 2, fin 0⟩]
        (some []) (some ⟨[]⟩) 2
        = .ok (buildGraph sampleEnv [⟨fin 0, fin 0⟩, ⟨fin 1, fin 0⟩, ⟨fin 2, fin 0⟩] 2)
      ∧ ∀ G, createWaypointGraph sampleEnv [⟨fin 0, fin 0⟩, ⟨fin 1, fin 0⟩, ⟨fin 2, fin 0⟩]
          (some []) (some ⟨[]⟩) 2 = .ok G →
          ∀ e ∈ G.edges, e.data.length
            = hav sampleEnv (wp [⟨fin 0, fin 0⟩, ⟨fin 1, fin 0⟩, ⟨fin 2, fin 0⟩] e.u)
                (wp [⟨fin 0, fin 0⟩, ⟨fin 1, fin 0⟩, ⟨fin 2, fin 0⟩] e.v) :=
  createWaypointGraph_no_incidents sampleEnv [⟨fin 0, fin 0⟩, ⟨fin 1, fin 0⟩, ⟨fin 2, fin 0⟩]
    (some []) (some ⟨[]⟩) 2 (Or.inr (Or.inr rfl))

/-! ## The penalty formula -/

theorem atLeastOne_one : AtLeastOne (fin 1) := Or.inr ⟨1, rfl, le_refl 1⟩

theorem max_one_left {y : JSNum} (h : AtLeastOne y) : JSNum.max (fin 1) y = y := by
  rcases h with rfl | ⟨x, rfl, hx⟩
  · rfl
  · rcases eq_or_lt_of_le hx with h1 | h1
    · subst h1
      simp [JSNum.max, lt]
    · simp [JSNum.max, lt, h1]

theorem max_one_right {y : JSNum} (h : AtLeastOne y) : JSNum.max y (fin 1) = y := by
  rcases h with rfl | ⟨x, rfl, hx⟩
  · rfl
  · have : ¬ x < 1 := not_lt.2 hx
    simp [JSNum.max, lt, this]

theorem atLeastOne_max {x y : JSNum} (hx : AtLeastOne x) (hy : AtLeastOne y) :
    AtLeastOne (JSNum.max x y) := by
  rcases hx with rfl | ⟨a, rfl, ha⟩ <;> rcases hy with rfl | ⟨b, rfl, hb⟩
  · exact Or.inl rfl
  · exact Or.inl rfl
  · exact Or.inl rfl
  · by_cases hab : a < b
    · exact Or.inr ⟨b, by simp [JSNum.max, lt, hab], hb⟩
    · exact Or.inr ⟨a, by simp [JSNum.max, lt, hab], ha⟩

/-- A number from 1 up that is not above 1 is 1. -/
theorem eq_one_of_not_gt {y : JSNum} (h : AtLeastOne y) (hgt : gt y (fin 1) = false) :
    y = fin 1 := by
  rcases h with rfl | ⟨x, rfl, hx⟩
  · simp [gt, lt] at hgt
  · simp only [gt, lt, decide_eq_false_iff_not, not_lt] at hgt
    rw [le_antisymm hgt hx]

/-- The formula of the point penalty, for a distance below the radius, is above 2. -/
theorem pointPenaltyOf_gt_two {d : JSNum} (h : lt d radiusKm = true) :
    pointPenaltyOf d = posInf ∨ ∃ x, pointPenaltyOf d = fin x ∧ 2 < x := by
  cases d with
  | fin q =>
      simp only [radiusKm, lt, decide_eq_true_eq] at h
      refine Or.inr ⟨2 + (2 / 5 - q) / (2 / 5) * 3, ?_, ?_⟩
      · simp only [pointPenaltyOf, radiusKm, fin_sub_fin]
        rw [fin_div_fin _ _ (by norm_num)]
        simp only [fin_mul_fin, fin_add_fin]
      · have : 0 < (2 / 5 - q) / (2 / 5) * 3 := by
          have : 0 < 2 / 5 - q := by linarith
          positivity
        linarith
  | nan => simp [radiusKm, lt] at h
  | posInf => simp [radiusKm, lt] at h
  | negInf =>
      left
      show add (fin 2) (mul (div (add (fin (2 / 5)) (neg negInf)) (fin (2 / 5))) (fin 3)) = posInf
      norm_num [add, neg, div, mul, infTimes]

theorem atLeastOne_pointPenaltyOf {d : JSNum} (h : lt d radiusKm = true) :
    AtLeastOne (pointPenaltyOf d) := by
  rcases pointPenaltyOf_gt_two h with h | ⟨x, hx, h2⟩
  · exact Or.inl h
  · exact Or.inr ⟨x, hx, by linarith⟩

theorem atLeastOne_specPointPenalty (env : Env) (cd : Option (List Crime))
    (tree : Option KDTree) (p : Waypoint) :
    AtLeastOne (specPointPenalty env cd tree p) := by
  unfold specPointPenalty
  simp only
  split
  · next h => exact atLeastOne_pointPenaltyOf h.2
  · exact atLeastOne_one

/-- One check point takes `maxPenalty` to its maximum with the point penalty of the
specification. -/
theorem pointStep_eq (env : Env) (cd : Option (List Crime)) (tree : Option KDTree)
    (m : JSNum) (p : Waypoint) (hm : AtLeastOne m) :
    pointStep env cd tree m p = JSNum.max m (specPointPenalty env cd tree p) := by
  unfold pointStep specPointPenalty
  simp only
  by_cases hne : findCrimesNear env p.lat p.lon radiusKm cd tree = []
  · simp [hne, max_one_right hm]
  · have hlen : (findCrimesNear env p.lat p.lon radiusKm cd tree).length > 0 :=
      List.length_pos.2 hne
    by_cases hlt : lt (minDistTo env p (findCrimesNear env p.lat p.lon radiusKm cd tree))
        radiusKm = true
    · simp only [hlen, hlt, if_true, hne, ne_eq, not_false_eq_true, and_self]
      rfl
    · simp [hlen, hlt, max_one_right hm]

/-- Looking up index `u` among the node entries of the first `n` waypoints. -/
theorem find_nodeOf (ws : List Waypoint) (n u : Nat) (h : u < n) :
    ((List.range n).map (nodeOf ws)).find? (fun x => decide (x.1 = u))
      = some (nodeOf ws u) := by
  induction n with
  | zero => omega
  | succ n ih =>
      rw [List.range_succ, List.map_append, List.find?_append]
      rcases Nat.lt_succ_iff_lt_or_eq.1 h with hlt | heq
      · rw [ih hlt]
        rfl
      · subst heq
        have hnone : ((List.range u).map (nodeOf ws)).find? (fun x => decide (x.1 = u))
            = none := by
          rw [List.find?_eq_none]
          intro x hx
          obtain ⟨i, hi, rfl⟩ := List.mem_map.1 hx
          rw [List.mem_range] at hi
          simp only [nodeOf, decide_eq_true_eq]
          omega
        rw [hnone]
        simp [nodeOf]

/-- The node of index `u` in the built graph carries the coordinates of waypoint `u`. -/
theorem buildGraph_getNode (env : Env) (ws : List Waypoint) (nc : Int) (u : Nat)
    (h : u < ws.length) :
    (buildGraph env ws nc).getNode u = some ⟨(wp ws u).lat, (wp ws u).lon⟩ := by
  rw [buildGraph_eq]
  unfold Graph.getNode
  simp only
  rw [find_nodeOf ws ws.length u h]
  rfl

/-- Both endpoints of an edge of the built graph are node indices. -/
theorem buildGraph_edge_bounds (env : Env) (ws : List Waypoint) (nc : Int) (e : Edge)
    (he : e ∈ (buildGraph env ws nc).edges) : e.u < ws.length ∧ e.v < ws.length := by
  rw [mem_buildGraph_edges] at he
  rcases he with ⟨i, hi, rfl⟩ | ⟨i, j, hi, hj, _, rfl⟩
  · simp only [primaryEdge]
    omega
  · rw [mem_forwardTargets] at hj
    simp only [shortcut]
    omega

/-- On an edge of the built graph the loop over the check points ends with the edge
penalty of the specification. -/
theorem edgeMaxPenalty_buildGraph (env : Env) (cd : Option (List Crime))
    (tree : Option KDTree) (ws : List Waypoint) (nc : Int) (e : Edge)
    (he : e ∈ (buildGraph env ws nc).edges) :
    edgeMaxPenalty env cd tree (buildGraph env ws nc) e.u e.v
      = .ok (specEdgePenalty env cd tree (wp ws e.u) (wp ws e.v)) := by
  obtain ⟨hu, hv⟩ := buildGraph_edge_bounds env ws nc e he
  unfold edgeMaxPenalty
  rw [buildGraph_getNode env ws nc e.u hu, buildGraph_getNode env ws nc e.v hv]
  simp only [checkPoints, List.map, List.foldl]
  have h1 := atLeastOne_specPointPenalty env cd tree (samplePoint (wp ws e.u) (wp ws e.v) (1 / 4))
  have h2 := atLeastOne_specPointPenalty env cd tree (samplePoint (wp ws e.u) (wp ws e.v) (1 / 2))
  rw [pointStep_eq env cd tree (fin 1) _ atLeastOne_one]
  change Except.ok (pointStep env cd tree (pointStep env cd tree
      (JSNum.max (fin 1) (specPointPenalty env cd tree
        (samplePoint (wp ws e.u) (wp ws e.v) (1 / 4))))
      (samplePoint (wp ws e.u) (wp ws e.v) (1 / 2)))
      (samplePoint (wp ws e.u) (wp ws e.v) (3 / 4))) = _
  rw [max_one_left h1, pointStep_eq env cd tree _ _ h1,
    pointStep_eq env cd tree _ _ (atLeastOne_max h1 h2)]
  rfl

/-- Without a tree or without incidents every query is empty and the edge penalty of the
specification is 1. -/
theorem specEdgePenalty_inactive (env : Env) (cd : Option (List Crime))
    (tree : Option KDTree) (U V : Waypoint)
    (h : ¬ (tree.isSome ∧ ∃ data, cd = some data ∧ data.length > 0)) :
    specEdgePenalty env cd tree U V = fin 1 := by
  have hq : ∀ lat lon, findCrimesNear env lat lon radiusKm cd tree = [] := by
    intro lat lon
    unfold findCrimesNear
    cases tree with
    | none => rfl
    | some t =>
        cases cd with
        | none => rfl
        | some data =>
            have hd : data.length = 0 := by
              by_contra hd
              exact h ⟨rfl, data, rfl, Nat.pos_of_ne_zero hd⟩
            simp [hd]
  have hp : ∀ p, specPointPenalty env cd tree p = fin 1 := by
    intro p
    simp [specPointPenalty, hq]
  simp only [specEdgePenalty, hp]
  simp [JSNum.max, lt]

/-- C10: `createWaypointGraph` returns the built graph with every edge `(u, v)` of
original weight `w` now weighing `w * P`, where `P` is the maximum over the sample
points at `t = 0.25, 0.5, 0.75` between the coordinates of waypoints `u` and `v` of the
point penalty: `2.0 + (radiusKm - d) / radiusKm * 3.0` when the query at the sample
returns incidents whose minimum distance `d` is below `radiusKm = 0.4`, and `1.0`
otherwise. -/
theorem createWaypointGraph_penalty_formula (env : Env) (ws : List Waypoint)
    (cd : Option (List Crime)) (tree : Option KDTree) (nc : Int) :
    createWaypointGraph env ws cd tree nc
      = .ok ⟨(buildGraph env ws nc).nodes,
          (buildGraph env ws nc).edges.map (fun e =>
            { e with data := { e.data with
                length := e.data.length
                  * specEdgePenalty env cd tree (wp ws e.u) (wp ws e.v) } })⟩ := by
  rw [createWaypointGraph_eq,
    applyPenalties_eq env cd tree _ (buildGraph_nodup_keys env ws nc)]
  congr 1
  split
  · congr 1
    apply List.map_congr_left
    intro e he
    unfold penalize
    rw [edgeMaxPenalty_buildGraph env cd tree ws nc e he]
    simp only
    split
    · rfl
    · next hgt =>
        have hP : AtLeastOne (specEdgePenalty env cd tree (wp ws e.u) (wp ws e.v)) :=
          atLeastOne_max
            (atLeastOne_max (atLeastOne_specPointPenalty env cd tree _)
              (atLeastOne_specPointPenalty env cd tree _))
            (atLeastOne_specPointPenalty env cd tree _)
        rw [eq_one_of_not_gt hP (by simpa using hgt), mul_one_eq]
  · next h =>
      have hmap : (buildGraph env ws nc).edges.map (fun e =>
            ({ e with data := { e.data with
                length := e.data.length
                  * specEdgePenalty env cd tree (wp ws e.u) (wp ws e.v) } } : Edge))
          = (buildGraph env ws nc).edges := by
        conv_rhs => rw [← List.map_id (buildGraph env ws nc).edges]
        apply List.map_congr_left
        intro e _
        rw [specEdgePenalty_inactive env cd tree _ _ h, mul_one_eq]
        rfl
      rw [hmap]

/-! ## Frame of penalty application -/

/-- C14: penalty application in `createWaypointGraph` changes only the weight of
edges: the returned graph has the nodes (indices and coordinates) of the graph before
penalties, and its edge list has, position by position, the same endpoints `(u, v)`
and the same kind. -/
theorem penalties_change_weights_only (env : Env) (ws : List Waypoint)
    (cd : Option (List Crime)) (tree : Option KDTree) (nc : Int) :
    ∃ G, createWaypointGraph env ws cd tree nc = .ok G
      ∧ G.nodes = (buildGraph env ws nc).nodes
      ∧ G.edges.map (fun e => (e.u, e.v)) = (buildGraph env ws nc).edges.map (fun e => (e.u, e.v))
      ∧ G.edges.map (fun e => e.data.type)
          = (buildGraph env ws nc).edges.map (fun e => e.data.type) := by
  obtain ⟨f, hf, hG⟩ := applyPenalties_buildGraph env cd tree ws nc
  refine ⟨_, createWaypointGraph_eq env ws cd tree nc, ?_, ?_, ?_⟩
  · rw [hG]
  · rw [hG]
    simp only [List.map_map]
    apply List.map_congr_left
    intro e _
    simp only [Function.comp, (hf e).1, (hf e).2.1]
  · rw [hG]
    simp only [List.map_map]
    apply List.map_congr_left
    intro e _
    simp only [Function.comp, (hf e).2.2]

/-! ## The spatial index -/

/-- C16: `createKDTree` on an empty point list gives the `null` sentinel, and on it
`findCrimesNear` returns the empty list for every centre, every radius and every
`crimeData`; the function has no failing path. -/
theorem findCrimesNear_empty_index (env : Env) (lat lon radius : JSNum)
    (cd : Option (List Crime)) :
    createKDTree (some []) = none
      ∧ findCrimesNear env lat lon radius cd (createKDTree (some [])) = [] := by
  refine ⟨rfl, ?_⟩
  show findCrimesNear env lat lon radius cd none = []
  unfold findCrimesNear
  rfl

/-- The function `createKDTree` returns `null` on every input: on a non-empty list the
constructor call fails and the `catch` block returns `null`. -/
theorem createKDTree_none (data : Option (List Crime)) : createKDTree data = none := by
  unfold createKDTree
  cases data with
  | none => rfl
  | some d =>
      simp only
      split <;> rfl

/-- A number that passes `x >= lo` and `x <= hi` is finite and between the bounds. -/
theorem fin_of_box_tests {x : JSNum} {lo hi : ℚ} (h1 : JSNum.ge x (fin lo) = true)
    (h2 : JSNum.le x (fin hi) = true) : ∃ a, x = fin a ∧ lo ≤ a ∧ a ≤ hi := by
  cases x with
  | fin q =>
      simp only [JSNum.ge, JSNum.le, decide_eq_true_eq] at h1 h2
      exact ⟨q, rfl, h1, h2⟩
  | nan => simp [JSNum.le] at h2
  | posInf => simp [JSNum.le] at h2
  | negInf => simp [JSNum.ge, JSNum.le] at h1

/-- The handler leaves the list as it is or appends the row, and appends only a row
with both coordinates inside the box. -/
theorem pushRow_cases (crimeData : List Crime) (row : Row) :
    pushRow crimeData row = crimeData
      ∨ (pushRow crimeData row = crimeData ++ [⟨rowId row crimeData, row.lat, row.long⟩]
          ∧ ∃ a b, row.lat = fin a ∧ row.long = fin b ∧ 127 / 10 ≤ a ∧ a ≤ 132 / 10
              ∧ 80 ≤ b ∧ b ≤ 803 / 10) := by
  unfold pushRow
  split
  · exact Or.inl rfl
  · split
    · next hbox =>
        right
        simp only [Bool.and_eq_true] at hbox
        obtain ⟨⟨⟨h1, h2⟩, h3⟩, h4⟩ := hbox
        obtain ⟨a, ha, ha1, ha2⟩ := fin_of_box_tests h1 h2
        obtain ⟨b, hb, hb1, hb2⟩ := fin_of_box_tests h3 h4
        exact ⟨rfl, a, b, ha, hb, ha1, ha2, hb1, hb2⟩
    · exact Or.inl rfl

/-- The handler keeps a list of incidents inside the box inside the box. -/
theorem foldl_pushRow_box (rows : List Row) (acc : List Crime)
    (hacc : ∀ c ∈ acc, ∃ a b, c.lat = fin a ∧ c.long = fin b ∧ 127 / 10 ≤ a ∧ a ≤ 132 / 10
        ∧ 80 ≤ b ∧ b ≤ 803 / 10) :
    ∀ c ∈ rows.foldl pushRow acc, ∃ a b, c.lat = fin a ∧ c.long = fin b ∧ 127 / 10 ≤ a
        ∧ a ≤ 132 / 10 ∧ 80 ≤ b ∧ b ≤ 803 / 10 := by
  induction rows generalizing acc with
  | nil => exact hacc
  | cons row rows ih =>
      rw [List.foldl_cons]
      apply ih
      intro c hc
      rcases pushRow_cases acc row with h | ⟨h, hbox⟩
      · rw [h] at hc
        exact hacc c hc
      · rw [h, List.mem_append, List.mem_singleton] at hc
        rcases hc with hc | rfl
        · exact hacc c hc
        · exact hbox

/-- Every loaded incident has both coordinates inside the box. -/
theorem mem_loadRows (rows : List Row) (c : Crime) (hc : c ∈ loadRows rows) :
    ∃ a b, c.lat = fin a ∧ c.long = fin b ∧ 127 / 10 ≤ a ∧ a ≤ 132 / 10
      ∧ 80 ≤ b ∧ b ≤ 803 / 10 :=
  foldl_pushRow_box rows [] (fun c hc => by cases hc) c hc

/-- C18: for every input point list `createKDTree` inserts no point into a spatial
index: it returns `null`, the constructor call having failed, so a point whose latitude
or longitude is `NaN` or out of range is never inserted, whatever the list.  Nor does
such a point reach `createKDTree` from the file: the row handler of `loadCrimeData`
drops every row whose latitude or longitude is `NaN` or out of range (not a finite
number within ±90, respectively ±180). -/
theorem createKDTree_inserts_no_malformed (data : Option (List Crime)) :
    createKDTree data = none
      ∧ (∀ tree, createKDTree data ≠ some tree)
      ∧ (∀ (rows : List Row), ∀ c ∈ loadRows rows, InRange c.lat 90 ∧ InRange c.long 180)
      ∧ ∀ (crimeData : List Crime) (row : Row),
          ¬ InRange row.lat 90 ∨ ¬ InRange row.long 180 → pushRow crimeData row = crimeData := by
  refine ⟨createKDTree_none data, ?_, ?_, ?_⟩
  · intro tree h
    rw [createKDTree_none] at h
    cases h
  · intro rows c hc
    obtain ⟨a, b, ha, hb, h1, h2, h3, h4⟩ := mem_loadRows rows c hc
    exact ⟨⟨a, ha, by rw [abs_le]; constructor <;> linarith⟩,
      ⟨b, hb, by rw [abs_le]; constructor <;> linarith⟩⟩
  · intro crimeData row hbad
    rcases pushRow_cases crimeData row with h | ⟨_, a, b, ha, hb, h1, h2, h3, h4⟩
    · exact h
    · exfalso
      rcases hbad with hbad | hbad
      · exact hbad ⟨a, ha, by rw [abs_le]; constructor <;> linarith⟩
      · exact hbad ⟨b, hb, by rw [abs_le]; constructor <;> linarith⟩

/-- Witness of C18: a list of one point with a `NaN` latitude and the longitude 200. -/
theorem createKDTree_inserts_no_malformed_witness :
    createKDTree (some [⟨.num 0, nan, fin 200⟩]) = none
      ∧ (∀ tree, createKDTree (some [⟨.num 0, nan, fin 200⟩]) ≠ some tree)
      ∧ (∀ (rows : List Row), ∀ c ∈ loadRows rows, InRange c.lat 90 ∧ InRange c.long 180)
      ∧ ∀ (crimeData : List Crime) (row : Row),
          ¬ InRange row.lat 90 ∨ ¬ InRange row.long 180 → pushRow crimeData row = crimeData :=
  createKDTree_inserts_no_malformed (some [⟨.num 0, nan, fin 200⟩])

/-! ## The range of the penalty factor -/

/-- The graph `createWaypointGraph` returns: the built graph with every edge scaled by
the edge penalty of the specification. -/
theorem returned_graph_scaled (env : Env) (ws : List Waypoint) (cd : Option (List Crime))
    (tree : Option KDTree) (nc : Int) :
    createWaypointGraph env ws cd tree nc
      = .ok ⟨(buildGraph env ws nc).nodes,
          (buildGraph env ws nc).edges.map (fun e =>
            scaleEdge e (specEdgePenalty env cd tree (wp ws e.u) (wp ws e.v)))⟩ := by
  rw [createWaypointGraph_eq,
    applyPenalties_eq env cd tree _ (buildGraph_nodup_keys env ws nc)]
  congr 1
  split
  · congr 1
    apply List.map_congr_left
    intro e he
    unfold penalize scaleEdge
    rw [edgeMaxPenalty_buildGraph env cd tree ws nc e he]
    simp only
    split
    · rfl
    · next hgt =>
        have hP : AtLeastOne (specEdgePenalty env cd tree (wp ws e.u) (wp ws e.v)) :=
          atLeastOne_max
            (atLeastOne_max (atLeastOne_specPointPenalty env cd tree _)
              (atLeastOne_specPointPenalty env cd tree _))
            (atLeastOne_specPointPenalty env cd tree _)
        rw [eq_one_of_not_gt hP (by simpa using hgt), mul_one_eq]
  · next h =>
      have hmap : (buildGraph env ws nc).edges.map (fun e =>
            scaleEdge e (specEdgePenalty env cd tree (wp ws e.u) (wp ws e.v)))
          = (buildGraph env ws nc).edges := by
        conv_rhs => rw [← List.map_id (buildGraph env ws nc).edges]
        apply List.map_congr_left
        intro e _
        unfold scaleEdge
        rw [specEdgePenalty_inactive env cd tree _ _ h, mul_one_eq]
        rfl
      rw [hmap]

theorem notNegative_div_thousand {y : JSNum} (h : NotNegative y) :
    NotNegative (y / fin 1000) := by
  obtain ⟨hinf, hq⟩ := h
  cases y with
  | fin q =>
      rw [fin_div_fin _ _ (by norm_num)]
      refine ⟨fun h => (by cases h), ?_⟩
      intro q' hq'
      injection hq' with hq'
      have := hq q rfl
      rw [← hq']
      positivity
  | nan => exact ⟨fun h => (by cases h), fun q h => (by cases h)⟩
  | posInf =>
      have : (posInf : JSNum) / fin 1000 = posInf := by
        show div posInf (fin 1000) = posInf
        norm_num [div]
      rw [this]
      exact ⟨fun h => (by cases h), fun q h => (by cases h)⟩
  | negInf => exact absurd rfl hinf

theorem notNegative_min {x y : JSNum} (hx : NotNegative x) (hy : NotNegative y) :
    NotNegative (JSNum.min x y) := by
  cases x <;> cases y <;> simp only [JSNum.min] <;> first
    | exact hx
    | exact hy
    | (split <;> first | exact hx | exact hy)

/-- The minimum distance is not negative when the distance library returns no
negative number. -/
theorem notNegative_minDistTo (env : Env) (p : Waypoint) (found : List Crime)
    (hnn : ∀ a b c d, NotNegative (env.haversine a b c d)) :
    NotNegative (minDistTo env p found) := by
  unfold minDistTo
  suffices h : ∀ (l : List Crime) (m : JSNum), NotNegative m →
      NotNegative (l.foldl (fun minDist crime => JSNum.min minDist
        (env.haversine p.lat p.lon crime.lat crime.long / fin 1000)) m) by
    exact h found posInf ⟨fun h => (by cases h), fun q h => (by cases h)⟩
  intro l
  induction l with
  | nil => intro m hm; exact hm
  | cons c l ih =>
      intro m hm
      rw [List.foldl_cons]
      exact ih _ (notNegative_min hm (notNegative_div_thousand (hnn _ _ _ _)))

/-- The formula of the point penalty, for a non-negative distance below the radius,
lies in `(2, 5]`. -/
theorem pointPenaltyOf_band {d : JSNum} (hd : NotNegative d) (h : lt d radiusKm = true) :
    ∃ p, pointPenaltyOf d = fin p ∧ 2 < p ∧ p ≤ 5 := by
  cases d with
  | fin q =>
      have hq0 : 0 ≤ q := hd.2 q rfl
      simp only [radiusKm, lt, decide_eq_true_eq] at h
      refine ⟨2 + (2 / 5 - q) / (2 / 5) * 3, ?_, ?_, ?_⟩
      · simp only [pointPenaltyOf, radiusKm, fin_sub_fin]
        rw [fin_div_fin _ _ (by norm_num)]
        simp only [fin_mul_fin, fin_add_fin]
      · have : 0 < (2 / 5 - q) / (2 / 5) * 3 := by
          have : 0 < 2 / 5 - q := by linarith
          positivity
        linarith
      · have : (2 / 5 - q) / (2 / 5) * 3 = 3 - q * (15 / 2) := by ring
        rw [this]
        nlinarith
  | nan => simp [radiusKm, lt] at h
  | posInf => simp [radiusKm, lt] at h
  | negInf => exact absurd rfl hd.1

theorem penaltyBand_max {x y : JSNum} (hx : PenaltyBand x) (hy : PenaltyBand y) :
    PenaltyBand (JSNum.max x y) := by
  rcases hx with rfl | ⟨a, rfl, ha2, ha5⟩ <;> rcases hy with rfl | ⟨b, rfl, hb2, hb5⟩
  · left; simp [JSNum.max, lt]
  · right
    have h1b : (1 : ℚ) < b := by linarith
    exact ⟨b, by simp [JSNum.max, lt, h1b], hb2, hb5⟩
  · right
    refine ⟨a, ?_, ha2, ha5⟩
    have : ¬ a < 1 := by linarith
    simp [JSNum.max, lt, this]
  · right
    by_cases hab : a < b
    · exact ⟨b, by simp [JSNum.max, lt, hab], hb2, hb5⟩
    · exact ⟨a, by simp [JSNum.max, lt, hab], ha2, ha5⟩

theorem penaltyBand_specPointPenalty (env : Env) (cd : Option (List Crime))
    (tree : Option KDTree) (p : Waypoint)
    (hnn : ∀ a b c d, NotNegative (env.haversine a b c d)) :
    PenaltyBand (specPointPenalty env cd tree p) := by
  unfold specPointPenalty
  simp only
  split
  · next h =>
      right
      exact pointPenaltyOf_band (notNegative_minDistTo env p _ hnn) h.2
  · exact Or.inl rfl

theorem penaltyBand_specEdgePenalty (env : Env) (cd : Option (List Crime))
    (tree : Option KDTree) (U V : Waypoint)
    (hnn : ∀ a b c d, NotNegative (env.haversine a b c d)) :
    PenaltyBand (specEdgePenalty env cd tree U V) :=
  penaltyBand_max
    (penaltyBand_max (penaltyBand_specPointPenalty env cd tree _ hnn)
      (penaltyBand_specPointPenalty env cd tree _ hnn))
    (penaltyBand_specPointPenalty env cd tree _ hnn)

/-- A finite non-negative weight times a factor of the band stays between the weight
and five times the weight. -/
theorem scaled_weight_bounds {w : ℚ} (hw : 0 ≤ w) {P : JSNum} (hP : PenaltyBand P) :
    ∃ w', fin w * P = fin w' ∧ w ≤ w' ∧ w' ≤ 5 * w ∧ 0 ≤ w' := by
  rcases hP with rfl | ⟨p, rfl, hp2, hp5⟩
  · exact ⟨w, by simp, le_refl w, by linarith, hw⟩
  · refine ⟨w * p, by simp, ?_, ?_, ?_⟩
    · nlinarith
    · nlinarith
    · nlinarith

/-- The stand-in distance of `sampleEnv` is never negative. -/
theorem sampleEnv_notNegative (a b c d : JSNum) :
    NotNegative (sampleEnv.haversine a b c d) := by
  have hnan : NotNegative nan := ⟨fun h => (by cases h), fun q h => (by cases h)⟩
  cases a with
  | fin a' =>
      cases b with
      | fin b' =>
          cases c with
          | fin c' =>
              cases d with
              | fin d' =>
                  refine ⟨fun h => (by cases h), fun q h => ?_⟩
                  have h' : (111320 : ℚ) * (|c' - a'| + |d' - b'|) = q := by
                    injection h
                  rw [← h']
                  positivity
              | nan => exact hnan
              | posInf => exact hnan
              | negInf => exact hnan
          | nan => exact hnan
          | posInf => exact hnan
          | negInf => exact hnan
      | nan => exact hnan
      | posInf => exact hnan
      | negInf => exact hnan
  | nan => exact hnan
  | posInf => exact hnan
  | negInf => exact hnan

/-- C11: given that the distance library returns no negative number, every edge of the
returned graph is the edge of the built graph at the same position with its weight
multiplied by a penalty factor that is exactly 1.0 or lies in `(2.0, 5.0]`; so a finite
original weight `w` becomes a weight between `w` and `5 w`, which is non-negative. -/
theorem penalty_factor_range (env : Env) (ws : List Waypoint) (cd : Option (List Crime))
    (tree : Option KDTree) (nc : Int)
    (hnn : ∀ a b c d, NotNegative (env.haversine a b c d)) :
    ∃ G, createWaypointGraph env ws cd tree nc = .ok G
      ∧ List.Forall₂
          (fun e e' => e'.u = e.u ∧ e'.v = e.v
            ∧ ∃ P, PenaltyBand P ∧ e'.data.length = e.data.length * P
              ∧ ∀ w, e.data.length = fin w →
                  ∃ w', e'.data.length = fin w' ∧ w ≤ w' ∧ w' ≤ 5 * w ∧ 0 ≤ w')
          (buildGraph env ws nc).edges G.edges := by
  refine ⟨_, returned_graph_scaled env ws cd tree nc, ?_⟩
  simp only
  rw [List.forall₂_map_right_iff, List.forall₂_same]
  intro e he
  have hP := penaltyBand_specEdgePenalty env cd tree (wp ws e.u) (wp ws e.v) hnn
  refine ⟨rfl, rfl, _, hP, rfl, ?_⟩
  intro w hw
  have hw0 : 0 ≤ w := by
    have hlen := buildGraph_edge_length env ws nc e he
    rw [hw] at hlen
    exact (hnn _ _ _ _).2 w hlen.symm
  obtain ⟨w', h1, h2, h3, h4⟩ := scaled_weight_bounds hw0 hP
  refine ⟨w', ?_, h2, h3, h4⟩
  show e.data.length * _ = _
  rw [hw]
  exact h1

/-- Witness of C11: three waypoints on a line and one incident at the middle of the
first step. -/
theorem penalty_factor_range_witness :
    ∃ G, createWaypointGraph sampleEnv [⟨fin 0, fin 0⟩, ⟨fin 1, fin 0⟩, ⟨fin 2, fin 0⟩]
        (some [⟨.num 0, fin (1 / 2), fin 0⟩]) (some ⟨[⟨fin (1 / 2), fin 0, .num 0⟩]⟩) 2 = .ok G
      ∧ List.Forall₂
          (fun e e' => e'.u = e.u ∧ e'.v = e.v
            ∧ ∃ P, PenaltyBand P ∧ e'.data.length = e.data.length * P
              ∧ ∀ w, e.data.length = fin w →
                  ∃ w', e'.data.length = fin w' ∧ w ≤ w' ∧ w' ≤ 5 * w ∧ 0 ≤ w')
          (buildGraph sampleEnv [⟨fin 0, fin 0⟩, ⟨fin 1, fin 0⟩, ⟨fin 2, fin 0⟩] 2).edges
          G.edges :=
  penalty_factor_range sampleEnv [⟨fin 0, fin 0⟩, ⟨fin 1, fin 0⟩, ⟨fin 2, fin 0⟩]
    (some [⟨.num 0, fin (1 / 2), fin 0⟩]) (some ⟨[⟨fin (1 / 2), fin 0, .num 0⟩]⟩) 2
    sampleEnv_notNegative

/-! ## Edges far from and near to incidents -/

/-- Every incident `findCrimesNear` returns is a record of `crimeData`. -/
theorem mem_findCrimesNear (env : Env) (lat lon radius : JSNum) (data : List Crime)
    (tree : Option KDTree) (c : Crime)
    (hc : c ∈ findCrimesNear env lat lon radius (some data) tree) : c ∈ data := by
  unfold findCrimesNear at hc
  cases tree with
  | none => simp at hc
  | some t =>
      simp only at hc
      split at hc
      · simp at hc
      · rw [List.mem_filterMap] at hc
        obtain ⟨entry, _, hfind⟩ := hc
        exact List.mem_of_find?_eq_some hfind

/-- Without incident data `findCrimesNear` returns nothing. -/
theorem findCrimesNear_none (env : Env) (lat lon radius : JSNum) (tree : Option KDTree) :
    findCrimesNear env lat lon radius none tree = [] := by
  unfold findCrimesNear
  cases tree <;> rfl

theorem lt_asymm_eq {x y : JSNum} (h : lt x y = true) : lt y x = false := by
  cases x <;> cases y <;> simp_all [lt]
  exact le_of_lt h

/-- The minimum of two numbers above a finite bound is above the bound. -/
theorem lt_min_of_lt {r : ℚ} {x y : JSNum} (hx : lt (fin r) x = true)
    (hy : lt (fin r) y = true) : lt (fin r) (JSNum.min x y) = true := by
  cases x <;> cases y <;> simp only [JSNum.min] <;> first
    | exact hx
    | exact hy
    | (split <;> first | exact hx | exact hy)

/-- The minimum distance to incidents that are all farther than the radius is not
below the radius. -/
theorem minDistTo_not_lt (env : Env) (p : Waypoint) (found : List Crime)
    (hfar : ∀ c ∈ found, lt radiusKm (distKm env p c) = true) :
    lt (minDistTo env p found) radiusKm = false := by
  apply lt_asymm_eq
  unfold minDistTo
  suffices h : ∀ (l : List Crime) (m : JSNum), lt radiusKm m = true →
      (∀ c ∈ l, lt radiusKm (distKm env p c) = true) →
      lt radiusKm (l.foldl (fun minDist crime => JSNum.min minDist
        (env.haversine p.lat p.lon crime.lat crime.long / fin 1000)) m) = true by
    exact h found posInf rfl hfar
  intro l
  induction l with
  | nil => intro m hm _; exact hm
  | cons c l ih =>
      intro m hm hl
      rw [List.foldl_cons]
      refine ih _ ?_ (fun c' hc' => hl c' (List.mem_cons_of_mem c hc'))
      exact lt_min_of_lt hm (hl c (List.mem_cons_self c l))

/-- The point penalty of the specification is 1 at a point farther than the radius from
every incident of `crimeData`. -/
theorem specPointPenalty_far (env : Env) (cd : Option (List Crime)) (tree : Option KDTree)
    (p : Waypoint)
    (hfar : ∀ data, cd = some data → ∀ c ∈ data, lt radiusKm (distKm env p c) = true) :
    specPointPenalty env cd tree p = fin 1 := by
  unfold specPointPenalty
  simp only
  rw [if_neg]
  rintro ⟨hne, hlt⟩
  cases cd with
  | none => exact hne (findCrimesNear_none env _ _ _ tree)
  | some data =>
      have := minDistTo_not_lt env p
        (findCrimesNear env p.lat p.lon radiusKm (some data) tree)
        (fun c hc => hfar data rfl c (mem_findCrimesNear env _ _ _ data tree c hc))
      rw [this] at hlt
      cases hlt

/-- An edge whose three sample points are farther than the radius from every incident
of `crimeData` is scaled to itself. -/
theorem scaleEdge_far (env : Env) (cd : Option (List Crime)) (tree : Option KDTree)
    (U V : Waypoint) (e : Edge)
    (hfar : ∀ data, cd = some data → ∀ c ∈ data, ∀ t ∈ [(1 / 4 : ℚ), 1 / 2, 3 / 4],
      lt radiusKm (distKm env (samplePoint U V t) c) = true) :
    scaleEdge e (specEdgePenalty env cd tree U V) = e := by
  have h1 := specPointPenalty_far env cd tree (samplePoint U V (1 / 4))
    (fun data hd c hc => hfar data hd c hc _ (by simp))
  have h2 := specPointPenalty_far env cd tree (samplePoint U V (1 / 2))
    (fun data hd c hc => hfar data hd c hc _ (by simp))
  have h3 := specPointPenalty_far env cd tree (samplePoint U V (3 / 4))
    (fun data hd c hc => hfar data hd c hc _ (by simp))
  have hP : specEdgePenalty env cd tree U V = fin 1 := by
    simp only [specEdgePenalty, h1, h2, h3]
    simp [JSNum.max, lt]
  unfold scaleEdge
  rw [hP, mul_one_eq]

/-- C13: for every incident set (ids may repeat) and whatever the spatial index
returns, an edge of the built graph whose three sample points (so, in particular, one
all of whose points) are farther than `radiusKm` from every incident of `crimeData`
keeps its entry unchanged in the returned graph: its weight after penalty application
is its original weight. -/
theorem far_edge_unchanged (env : Env) (ws : List Waypoint) (cd : Option (List Crime))
    (tree : Option KDTree) (nc : Int) (i : Nat) (e : Edge)
    (he : (buildGraph env ws nc).edges[i]? = some e)
    (hfar : ∀ data, cd = some data → ∀ c ∈ data, ∀ t ∈ [(1 / 4 : ℚ), 1 / 2, 3 / 4],
      lt radiusKm (distKm env (samplePoint (wp ws e.u) (wp ws e.v) t) c) = true) :
    ∃ G, createWaypointGraph env ws cd tree nc = .ok G ∧ G.edges[i]? = some e := by
  refine ⟨_, returned_graph_scaled env ws cd tree nc, ?_⟩
  simp only [List.getElem?_map, he, Option.map_some']
  rw [scaleEdge_far env cd tree _ _ e hfar]

/-- Witness of C13: three waypoints on a line and two incidents sharing one id, both
more than 20 km from the sample points of the first edge. -/
theorem far_edge_unchanged_witness :
    ∃ G, createWaypointGraph sampleEnv [⟨fin 0, fin 0⟩, ⟨fin 1, fin 0⟩, ⟨fin 2, fin 0⟩]
        (some [⟨.str "x", fin (1 / 2), fin (1 / 5)⟩, ⟨.str "x", fin 5, fin 5⟩])
        (createKDTree (some [⟨.str "x", fin (1 / 2), fin (1 / 5)⟩, ⟨.str "x", fin 5, fin 5⟩]))
        2 = .ok G
      ∧ G.edges[0]?
          = some (primaryEdge sampleEnv [⟨fin 0, fin 0⟩, ⟨fin 1, fin 0⟩, ⟨fin 2, fin 0⟩] 0) :=
  far_edge_unchanged sampleEnv [⟨fin 0, fin 0⟩, ⟨fin 1, fin 0⟩, ⟨fin 2, fin 0⟩]
    (some [⟨.str "x", fin (1 / 2), fin (1 / 5)⟩, ⟨.str "x", fin 5, fin 5⟩])
    (createKDTree (some [⟨.str "x", fin (1 / 2), fin (1 / 5)⟩, ⟨.str "x", fin 5, fin 5⟩]))
    2 0 (primaryEdge sampleEnv [⟨fin 0, fin 0⟩, ⟨fin 1, fin 0⟩, ⟨fin 2, fin 0⟩] 0)
    (by rw [buildGraph_eq]; rfl)
    (by
      intro data hd c hc t ht
      injection hd with hd
      subst hd
      simp only [List.mem_cons, List.mem_singleton, List.not_mem_nil, or_false] at hc ht
      rcases hc with rfl | rfl <;> rcases ht with rfl | rfl | rfl <;>
        (simp only [distKm, samplePoint, primaryEdge, wp, List.getD_cons_zero,
          List.getD_cons_succ, fin_sub_fin, fin_mul_fin, fin_add_fin, sampleEnv, radiusKm]
         rw [fin_div_fin _ _ (by norm_num)]
         simp only [lt, decide_eq_true_eq]
         norm_num [abs_of_nonneg, abs_of_nonpos]))


/-- C12, as stated, fails: an incident at the very start of a 111 km edge lies on the
edge's segment (distance 0 at `t = 0`), yet the three sample points are more than 27 km
away and the weight of the edge stays 111320, which is not twice 111320.  This is so
with the index `createKDTree` returns and also with an index that holds the incident. -/
theorem endpoint_incident_not_penalized :
    createWaypointGraph sampleEnv [⟨fin 0, fin 0⟩, ⟨fin 1, fin 0⟩]
        (some [⟨.num 0, fin 0, fin 0⟩]) (createKDTree (some [⟨.num 0, fin 0, fin 0⟩])) 2
        = .ok ⟨[(0, ⟨fin 0, fin 0⟩), (1, ⟨fin 1, fin 0⟩)],
            [⟨0, 1, ⟨fin 111320, .primary⟩⟩]⟩
      ∧ (buildGraph sampleEnv [⟨fin 0, fin 0⟩, ⟨fin 1, fin 0⟩] 2).edges
          = [⟨0, 1, ⟨fin 111320, .primary⟩⟩]
      ∧ distKm sampleEnv (samplePoint ⟨fin 0, fin 0⟩ ⟨fin 1, fin 0⟩ 0) ⟨.num 0, fin 0, fin 0⟩
          = fin 0
      ∧ lt (fin 111320) (fin 2 * fin 111320) = true
      ∧ createWaypointGraph sampleEnv [⟨fin 0, fin 0⟩, ⟨fin 1, fin 0⟩]
          (some [⟨.num 0, fin 0, fin 0⟩]) (some ⟨[⟨fin 0, fin 0, .num 0⟩]⟩) 2
          = .ok ⟨[(0, ⟨fin 0, fin 0⟩), (1, ⟨fin 1, fin 0⟩)],
              [⟨0, 1, ⟨fin 111320, .primary⟩⟩]⟩ := by
  have hb : buildGraph sampleEnv [⟨fin 0, fin 0⟩, ⟨fin 1, fin 0⟩] 2
      = ⟨[(0, ⟨fin 0, fin 0⟩), (1, ⟨fin 1, fin 0⟩)],
          [⟨0, 1, ⟨fin 111320, .primary⟩⟩]⟩ := by
    rw [buildGraph_eq]
    have h1 : hav sampleEnv (wp [⟨fin 0, fin 0⟩, ⟨fin 1, fin 0⟩] 0)
        (wp [⟨fin 0, fin 0⟩, ⟨fin 1, fin 0⟩] 1) = fin 111320 := by
      simp only [hav, wp, List.getD_cons_zero, List.getD_cons_succ, sampleEnv]
      norm_num [abs_of_nonneg]
    have hp : primaryEdges sampleEnv [⟨fin 0, fin 0⟩, ⟨fin 1, fin 0⟩]
        = [⟨0, 1, ⟨fin 111320, .primary⟩⟩] := by
      rw [← h1]
      rfl
    have hs : secondaryEdges sampleEnv [⟨fin 0, fin 0⟩, ⟨fin 1, fin 0⟩] 2 = [] := by
      simp [secondaryEdges, secondaryRow, forwardTargets, maxForwardSkip, List.range_succ]
    rw [hp, hs]
    rfl
  have hany : ∀ tree : Option KDTree,
      createWaypointGraph sampleEnv [⟨fin 0, fin 0⟩, ⟨fin 1, fin 0⟩]
        (some [⟨.num 0, fin 0, fin 0⟩]) tree 2
        = .ok ⟨[(0, ⟨fin 0, fin 0⟩), (1, ⟨fin 1, fin 0⟩)],
            [⟨0, 1, ⟨fin 111320, .primary⟩⟩]⟩ := by
    intro tree
    rw [returned_graph_scaled, hb]
    simp only [List.map_cons, List.map_nil]
    rw [scaleEdge_far]
    intro data hd c hc t ht
    injection hd with hd
    subst hd
    simp only [List.mem_cons, List.mem_singleton, List.not_mem_nil, or_false] at hc ht
    subst hc
    rcases ht with rfl | rfl | rfl <;>
      (simp only [distKm, samplePoint, wp, List.getD_cons_zero,
        List.getD_cons_succ, fin_sub_fin, fin_mul_fin, fin_add_fin, sampleEnv, radiusKm]
       rw [fin_div_fin _ _ (by norm_num)]
       simp only [lt, decide_eq_true_eq]
       norm_num [abs_of_nonneg, abs_of_nonpos])
  refine ⟨hany _, by rw [hb], ?_, ?_, hany _⟩
  · simp only [distKm, samplePoint, fin_sub_fin, fin_mul_fin, fin_add_fin, sampleEnv]
    rw [fin_div_fin _ _ (by norm_num)]
    norm_num
  · simp only [fin_mul_fin, lt, decide_eq_true_eq]
    norm_num

theorem min_ne_nan {x y : JSNum} (hx : x ≠ nan) (hy : y ≠ nan) : JSNum.min x y ≠ nan := by
  cases x <;> cases y <;> simp only [JSNum.min] <;> first
    | exact hx
    | exact hy
    | (split <;> first | exact hx | exact hy)

theorem min_fin_fin (a b : ℚ) : JSNum.min (fin a) (fin b) = if b < a then fin b else fin a := by
  simp [JSNum.min, lt]

/-- The minimum with a number below a finite bound is below the bound. -/
theorem min_lt_of_left {r : ℚ} {x y : JSNum} (hx : lt x (fin r) = true) (hy : y ≠ nan) :
    lt (JSNum.min x y) (fin r) = true := by
  cases x with
  | fin a =>
      have ha : a < r := by simpa [lt] using hx
      cases y with
      | fin b =>
          rw [min_fin_fin]
          by_cases h : b < a
          · rw [if_pos h]
            simp only [lt, decide_eq_true_eq]
            linarith
          · rw [if_neg h]
            exact hx
      | nan => exact absurd rfl hy
      | posInf => exact hx
      | negInf => rfl
  | nan => simp [lt] at hx
  | posInf => simp [lt] at hx
  | negInf =>
      cases y with
      | fin b => rfl
      | nan => exact absurd rfl hy
      | posInf => rfl
      | negInf => rfl

theorem min_lt_of_right {r : ℚ} {x y : JSNum} (hy : lt y (fin r) = true) (hx : x ≠ nan) :
    lt (JSNum.min x y) (fin r) = true := by
  cases y with
  | fin b =>
      have hb : b < r := by simpa [lt] using hy
      cases x with
      | fin a =>
          rw [min_fin_fin]
          by_cases h : b < a
          · rw [if_pos h]
            exact hy
          · rw [if_neg h]
            simp only [lt, decide_eq_true_eq]
            linarith
      | nan => exact absurd rfl hx
      | posInf => exact hy
      | negInf => rfl
  | nan => simp [lt] at hy
  | posInf => simp [lt] at hy
  | negInf =>
      cases x with
      | fin a => rfl
      | nan => exact absurd rfl hx
      | posInf => rfl
      | negInf => rfl

/-- With no `NaN` among the distances, an incident below the radius brings the minimum
distance below the radius. -/
theorem minDistTo_lt (env : Env) (p : Waypoint) (found : List Crime) (P : Crime)
    (hP : P ∈ found) (hnear : lt (distKm env p P) radiusKm = true)
    (hnum : ∀ c ∈ found, isNaN (distKm env p c) = false) :
    lt (minDistTo env p found) radiusKm = true := by
  unfold minDistTo
  suffices h : ∀ (l : List Crime) (m : JSNum), m ≠ nan →
      (∀ c ∈ l, distKm env p c ≠ nan) →
      (lt m radiusKm = true ∨ ∃ c ∈ l, lt (distKm env p c) radiusKm = true) →
      lt (l.foldl (fun minDist crime => JSNum.min minDist
        (env.haversine p.lat p.lon crime.lat crime.long / fin 1000)) m) radiusKm = true by
    refine h found posInf (fun h => by cases h) ?_ (Or.inr ⟨P, hP, hnear⟩)
    intro c hc hnan
    have := hnum c hc
    rw [hnan] at this
    cases this
  intro l
  induction l with
  | nil =>
      intro m _ _ h
      rcases h with h | ⟨c, hc, _⟩
      · exact h
      · cases hc
  | cons c l ih =>
      intro m hm hl h
      rw [List.foldl_cons]
      have hc : distKm env p c ≠ nan := hl c (List.mem_cons_self c l)
      refine ih _ (min_ne_nan hm hc) (fun c' hc' => hl c' (List.mem_cons_of_mem c hc')) ?_
      rcases h with h | ⟨c', hc', hlt⟩
      · exact Or.inl (min_lt_of_left h hc)
      · rcases List.mem_cons.1 hc' with rfl | hc'
        · exact Or.inl (min_lt_of_right hlt hm)
        · exact Or.inr ⟨c', hc', hlt⟩

/-- The maximum of two band factors, one of them above 2, is above 2. -/
theorem max_gt_two_of_left {x y : JSNum} (hx : ∃ p, x = fin p ∧ 2 < p ∧ p ≤ 5)
    (hy : PenaltyBand y) : ∃ p, JSNum.max x y = fin p ∧ 2 < p ∧ p ≤ 5 := by
  obtain ⟨a, rfl, ha2, ha5⟩ := hx
  rcases hy with rfl | ⟨b, rfl, hb2, hb5⟩
  · have : ¬ a < 1 := by linarith
    exact ⟨a, by simp [JSNum.max, lt, this], ha2, ha5⟩
  · by_cases hab : a < b
    · exact ⟨b, by simp [JSNum.max, lt, hab], hb2, hb5⟩
    · exact ⟨a, by simp [JSNum.max, lt, hab], ha2, ha5⟩

theorem max_gt_two_of_right {x y : JSNum} (hx : PenaltyBand x)
    (hy : ∃ p, y = fin p ∧ 2 < p ∧ p ≤ 5) : ∃ p, JSNum.max x y = fin p ∧ 2 < p ∧ p ≤ 5 := by
  obtain ⟨b, rfl, hb2, hb5⟩ := hy
  rcases hx with rfl | ⟨a, rfl, ha2, ha5⟩
  · have : (1 : ℚ) < b := by linarith
    exact ⟨b, by simp [JSNum.max, lt, this], hb2, hb5⟩
  · by_cases hab : a < b
    · exact ⟨b, by simp [JSNum.max, lt, hab], hb2, hb5⟩
    · exact ⟨a, by simp [JSNum.max, lt, hab], ha2, ha5⟩

/-- The edge penalty of the specification is above 2 when, at one of the three sample
points, the query returns an incident below the radius and no distance is `NaN`. -/
theorem specEdgePenalty_near (env : Env) (cd : Option (List Crime)) (tree : Option KDTree)
    (U V : Waypoint) (t : ℚ) (ht : t ∈ [(1 / 4 : ℚ), 1 / 2, 3 / 4]) (P : Crime)
    (hnn : ∀ a b c d, NotNegative (env.haversine a b c d))
    (hfound : P ∈ findCrimesNear env (samplePoint U V t).lat (samplePoint U V t).lon
      radiusKm cd tree)
    (hnear : lt (distKm env (samplePoint U V t) P) radiusKm = true)
    (hnum : ∀ c ∈ findCrimesNear env (samplePoint U V t).lat (samplePoint U V t).lon
      radiusKm cd tree, isNaN (distKm env (samplePoint U V t) c) = false) :
    ∃ p, specEdgePenalty env cd tree U V = fin p ∧ 2 < p ∧ p ≤ 5 := by
  have hpt : ∃ p, specPointPenalty env cd tree (samplePoint U V t) = fin p ∧ 2 < p ∧ p ≤ 5 := by
    have hlt := minDistTo_lt env (samplePoint U V t) _ P hfound hnear hnum
    have hne : findCrimesNear env (samplePoint U V t).lat (samplePoint U V t).lon
        radiusKm cd tree ≠ [] := List.ne_nil_of_mem hfound
    unfold specPointPenalty
    simp only
    rw [if_pos ⟨hne, hlt⟩]
    exact pointPenaltyOf_band (notNegative_minDistTo env _ _ hnn) hlt
  have hb := fun p => penaltyBand_specPointPenalty env cd tree p hnn
  simp only [List.mem_cons, List.mem_singleton, List.not_mem_nil, or_false] at ht
  unfold specEdgePenalty
  rcases ht with rfl | rfl | rfl
  · exact max_gt_two_of_left (max_gt_two_of_left hpt (hb _)) (hb _)
  · exact max_gt_two_of_left (max_gt_two_of_right (hb _) hpt) (hb _)
  · exact max_gt_two_of_right (penaltyBand_max (hb _) (hb _)) hpt

/-- C12, amended: for an incident `P` and an edge of the built graph, if at one of the
three sample points of the edge (`t = 0.25, 0.5, 0.75` between its endpoint
coordinates) `findCrimesNear` returns `P`, `P` is at distance below `radiusKm` from
that sample point and none of the distances to the returned incidents is `NaN`, then
(the distance library returning no negative number) the edge's weight after penalty
application is its original weight times a factor in `(2.0, 5.0]`, hence at least twice
a finite original weight. -/
theorem near_sample_penalized (env : Env) (ws : List Waypoint) (cd : Option (List Crime))
    (tree : Option KDTree) (nc : Int) (i : Nat) (e : Edge) (t : ℚ) (P : Crime)
    (he : (buildGraph env ws nc).edges[i]? = some e)
    (ht : t ∈ [(1 / 4 : ℚ), 1 / 2, 3 / 4])
    (hnn : ∀ a b c d, NotNegative (env.haversine a b c d))
    (hfound : P ∈ findCrimesNear env (samplePoint (wp ws e.u) (wp ws e.v) t).lat
      (samplePoint (wp ws e.u) (wp ws e.v) t).lon radiusKm cd tree)
    (hnear : lt (distKm env (samplePoint (wp ws e.u) (wp ws e.v) t) P) radiusKm = true)
    (hnum : ∀ c ∈ findCrimesNear env (samplePoint (wp ws e.u) (wp ws e.v) t).lat
      (samplePoint (wp ws e.u) (wp ws e.v) t).lon radiusKm cd tree,
      isNaN (distKm env (samplePoint (wp ws e.u) (wp ws e.v) t) c) = false) :
    ∃ G e', createWaypointGraph env ws cd tree nc = .ok G ∧ G.edges[i]? = some e'
      ∧ e'.u = e.u ∧ e'.v = e.v
      ∧ ∃ p, 2 < p ∧ p ≤ 5 ∧ e'.data.length = e.data.length * fin p
        ∧ ∀ w, e.data.length = fin w → ∃ w', e'.data.length = fin w' ∧ 2 * w ≤ w' := by
  obtain ⟨p, hp, hp2, hp5⟩ := specEdgePenalty_near env cd tree (wp ws e.u) (wp ws e.v) t ht P
    hnn hfound hnear hnum
  refine ⟨_, scaleEdge e (fin p), returned_graph_scaled env ws cd tree nc, ?_, rfl, rfl,
    p, hp2, hp5, rfl, ?_⟩
  · simp only [List.getElem?_map, he, Option.map_some', hp]
  · intro w hw
    have hw0 : 0 ≤ w := by
      have hlen := buildGraph_edge_length env ws nc e (List.getElem?_mem he)
      rw [hw] at hlen
      exact (hnn _ _ _ _).2 w hlen.symm
    refine ⟨w * p, ?_, by nlinarith⟩
    show e.data.length * fin p = _
    rw [hw, fin_mul_fin]

/-- Witness of the amended C12: three waypoints on a line, an incident at the middle of
the first edge, an index holding that incident, the sample point `t = 0.5`. -/
theorem near_sample_penalized_witness :
    ∃ G e', createWaypointGraph sampleEnv [⟨fin 0, fin 0⟩, ⟨fin 1, fin 0⟩, ⟨fin 2, fin 0⟩]
        (some [⟨.num 0, fin (1 / 2), fin 0⟩])
        (some ⟨[⟨fin (1 / 2), fin 0, .num 0⟩]⟩) 2 = .ok G
      ∧ G.edges[0]? = some e'
      ∧ e'.u = (primaryEdge sampleEnv [⟨fin 0, fin 0⟩, ⟨fin 1, fin 0⟩, ⟨fin 2, fin 0⟩] 0).u
      ∧ e'.v = (primaryEdge sampleEnv [⟨fin 0, fin 0⟩, ⟨fin 1, fin 0⟩, ⟨fin 2, fin 0⟩] 0).v
      ∧ ∃ p, 2 < p ∧ p ≤ 5
        ∧ e'.data.length
            = (primaryEdge sampleEnv [⟨fin 0, fin 0⟩, ⟨fin 1, fin 0⟩, ⟨fin 2, fin 0⟩]
                0).data.length * fin p
        ∧ ∀ w, (primaryEdge sampleEnv [⟨fin 0, fin 0⟩, ⟨fin 1, fin 0⟩, ⟨fin 2, fin 0⟩]
              0).data.length = fin w →
            ∃ w', e'.data.length = fin w' ∧ 2 * w ≤ w' := by
  have hs : samplePoint (wp [⟨fin 0, fin 0⟩, ⟨fin 1, fin 0⟩, ⟨fin 2, fin 0⟩]
        (primaryEdge sampleEnv [⟨fin 0, fin 0⟩, ⟨fin 1, fin 0⟩, ⟨fin 2, fin 0⟩] 0).u)
      (wp [⟨fin 0, fin 0⟩, ⟨fin 1, fin 0⟩, ⟨fin 2, fin 0⟩]
        (primaryEdge sampleEnv [⟨fin 0, fin 0⟩, ⟨fin 1, fin 0⟩, ⟨fin 2, fin 0⟩] 0).v) (1 / 2)
      = ⟨fin (1 / 2), fin 0⟩ := by
    simp only [samplePoint, primaryEdge, wp, List.getD_cons_zero, List.getD_cons_succ,
      fin_sub_fin, fin_mul_fin, fin_add_fin]
    norm_num
  have hq : findCrimesNear sampleEnv (fin (1 / 2)) (fin 0) radiusKm
      (some [⟨.num 0, fin (1 / 2), fin 0⟩])
      (some ⟨[⟨fin (1 / 2), fin 0, .num 0⟩]⟩)
      = [⟨.num 0, fin (1 / 2), fin 0⟩] := by
    simp only [findCrimesNear, List.length_singleton, one_ne_zero, if_false,
      List.map_cons, List.map_nil, sampleEnv, List.filterMap_cons, List.filterMap_nil,
      sub_self, abs_zero, add_zero, mul_zero, radiusKm, lt]
    norm_num
    rfl
  have hd : distKm sampleEnv ⟨fin (1 / 2), fin 0⟩ ⟨.num 0, fin (1 / 2), fin 0⟩ = fin 0 := by
    simp only [distKm, sampleEnv, sub_self, abs_zero, add_zero, mul_zero]
    rw [fin_div_fin _ _ (by norm_num)]
    norm_num
  exact near_sample_penalized sampleEnv [⟨fin 0, fin 0⟩, ⟨fin 1, fin 0⟩, ⟨fin 2, fin 0⟩]
    (some [⟨.num 0, fin (1 / 2), fin 0⟩])
    (some ⟨[⟨fin (1 / 2), fin 0, .num 0⟩]⟩) 2 0
    (primaryEdge sampleEnv [⟨fin 0, fin 0⟩, ⟨fin 1, fin 0⟩, ⟨fin 2, fin 0⟩] 0) (1 / 2)
    ⟨.num 0, fin (1 / 2), fin 0⟩
    (by rw [buildGraph_eq]; rfl) (by simp) sampleEnv_notNegative
    (by rw [hs, hq]; exact List.mem_singleton.2 rfl)
    (by rw [hs, hd]; simp [radiusKm, lt])
    (by
      rw [hs, hq]
      intro c hc
      rw [List.mem_singleton] at hc
      rw [hc, hd]
      rfl)

/-! ## Failures in the penalty loop -/

theorem edgeSucceeds_congr (env : Env) (cd : Option (List Crime)) (tree : Option KDTree)
    (G G' : Graph) (h : G.nodes = G'.nodes) (e : Edge) :
    edgeSucceeds env cd tree G e = edgeSucceeds env cd tree G' e := by
  simp only [edgeSucceeds, edgeMaxPenalty_congr env cd tree G G' h]

theorem edgeSucceeds_penalize (env : Env) (cd : Option (List Crime)) (tree : Option KDTree)
    (G G' : Graph) (e : Edge) :
    edgeSucceeds env cd tree G (penalize env cd tree G' e) = edgeSucceeds env cd tree G e := by
  have hk := penalize_key env cd tree G' e
  simp only [Edge.key, Prod.mk.injEq] at hk
  simp only [edgeSucceeds, hk.1, hk.2]

/-- An edge whose turn fails keeps its entry. -/
theorem penalize_of_error (env : Env) (cd : Option (List Crime)) (tree : Option KDTree)
    (G : Graph) (e : Edge) (err : JSError)
    (h : edgeMaxPenalty env cd tree G e.u e.v = .error err) :
    penalize env cd tree G e = e := by
  unfold penalize
  rw [h]

/-- C15: in the penalty loop over a graph whose edges have pairwise distinct pairs
`(u, v)`, an edge whose turn raises a failure keeps exactly its entry (its original
weight), and the other edges receive exactly the weights they receive in the run over
the graph without the failing edges, in which no failure occurs. -/
theorem failed_edge_keeps_weight (env : Env) (cd : Option (List Crime))
    (tree : Option KDTree) (G : Graph) (hkeys : (G.edges.map Edge.key).Nodup) :
    (∀ (i : Nat) (e : Edge) (err : JSError), G.edges[i]? = some e →
        edgeMaxPenalty env cd tree G e.u e.v = .error err →
        (applyPenalties env cd tree G).edges[i]? = some e)
      ∧ (applyPenalties env cd tree G).edges.filter (edgeSucceeds env cd tree G)
          = (applyPenalties env cd tree
              ⟨G.nodes, G.edges.filter (edgeSucceeds env cd tree G)⟩).edges
      ∧ ∀ e ∈ G.edges.filter (edgeSucceeds env cd tree G),
          ∃ p, edgeMaxPenalty env cd tree
            ⟨G.nodes, G.edges.filter (edgeSucceeds env cd tree G)⟩ e.u e.v = .ok p := by
  have hkeys' : ((G.edges.filter (edgeSucceeds env cd tree G)).map Edge.key).Nodup :=
    hkeys.sublist ((List.filter_sublist G.edges).map Edge.key)
  rw [applyPenalties_eq env cd tree G hkeys,
    applyPenalties_eq env cd tree ⟨G.nodes, G.edges.filter (edgeSucceeds env cd tree G)⟩ hkeys']
  refine ⟨?_, ?_, ?_⟩
  · intro i e err he herr
    split
    · simp only [List.getElem?_map, he, Option.map_some']
      rw [penalize_of_error env cd tree G e err herr]
    · exact he
  · split
    · simp only
      rw [List.filter_map]
      have hfun : (edgeSucceeds env cd tree G ∘ penalize env cd tree G)
          = edgeSucceeds env cd tree G := by
        funext e
        exact edgeSucceeds_penalize env cd tree G G e
      rw [hfun]
      apply List.map_congr_left
      intro e _
      exact penalize_congr env cd tree G _ rfl e
    · rfl
  · intro e he
    have hs := (List.mem_filter.1 he).2
    rw [edgeMaxPenalty_congr env cd tree
      ⟨G.nodes, G.edges.filter (edgeSucceeds env cd tree G)⟩ G rfl]
    unfold edgeSucceeds at hs
    split at hs
    · next p hp => exact ⟨p, hp⟩
    · cases hs

/-- Witness of C15: `danglingGraph`, whose edge `(1, 7)` fails on `vNode.y`, with one
incident at the middle of the edge `(0, 1)`. -/
theorem failed_edge_keeps_weight_witness :
    (∀ (i : Nat) (e : Edge) (err : JSError), danglingGraph.edges[i]? = some e →
        edgeMaxPenalty sampleEnv (some [⟨.num 0, fin (1 / 2), fin 0⟩])
          (some ⟨[⟨fin (1 / 2), fin 0, .num 0⟩]⟩) danglingGraph e.u e.v = .error err →
        (applyPenalties sampleEnv (some [⟨.num 0, fin (1 / 2), fin 0⟩])
          (some ⟨[⟨fin (1 / 2), fin 0, .num 0⟩]⟩) danglingGraph).edges[i]? = some e)
      ∧ (applyPenalties sampleEnv (some [⟨.num 0, fin (1 / 2), fin 0⟩])
          (some ⟨[⟨fin (1 / 2), fin 0, .num 0⟩]⟩) danglingGraph).edges.filter
            (edgeSucceeds sampleEnv (some [⟨.num 0, fin (1 / 2), fin 0⟩])
              (some ⟨[⟨fin (1 / 2), fin 0, .num 0⟩]⟩) danglingGraph)
          = (applyPenalties sampleEnv (some [⟨.num 0, fin (1 / 2), fin 0⟩])
              (some ⟨[⟨fin (1 / 2), fin 0, .num 0⟩]⟩)
              ⟨danglingGraph.nodes, danglingGraph.edges.filter
                (edgeSucceeds sampleEnv (some [⟨.num 0, fin (1 / 2), fin 0⟩])
                  (some ⟨[⟨fin (1 / 2), fin 0, .num 0⟩]⟩) danglingGraph)⟩).edges
      ∧ ∀ e ∈ danglingGraph.edges.filter
            (edgeSucceeds sampleEnv (some [⟨.num 0, fin (1 / 2), fin 0⟩])
              (some ⟨[⟨fin (1 / 2), fin 0, .num 0⟩]⟩) danglingGraph),
          ∃ p, edgeMaxPenalty sampleEnv (some [⟨.num 0, fin (1 / 2), fin 0⟩])
            (some ⟨[⟨fin (1 / 2), fin 0, .num 0⟩]⟩)
            ⟨danglingGraph.nodes, danglingGraph.edges.filter
              (edgeSucceeds sampleEnv (some [⟨.num 0, fin (1 / 2), fin 0⟩])
                (some ⟨[⟨fin (1 / 2), fin 0, .num 0⟩]⟩) danglingGraph)⟩ e.u e.v = .ok p :=
  failed_edge_keeps_weight sampleEnv (some [⟨.num 0, fin (1 / 2), fin 0⟩])
    (some ⟨[⟨fin (1 / 2), fin 0, .num 0⟩]⟩) danglingGraph (by decide)

/-- In `danglingGraph` the turn of the edge `(1, 7)` does fail. -/
theorem danglingGraph_edge_fails :
    edgeMaxPenalty sampleEnv (some [⟨.num 0, fin (1 / 2), fin 0⟩])
      (some ⟨[⟨fin (1 / 2), fin 0, .num 0⟩]⟩) danglingGraph 1 7 = .error .typeError := rfl

/-! ## Radius queries -/

/-- On an index that holds two points of the same id `"1"`, the first 55 km from the
centre and the second at the centre, the index hits the second and the lookup by id
returns the first: `findCrimesNear` returns the far incident and not the near one. -/
theorem findCrimesNear_duplicate_id :
    findCrimesNear sampleEnv (fin 13) (fin 80) radiusKm
        (some [⟨.str "1", fin (132 / 10), fin (803 / 10)⟩, ⟨.str "1", fin 13, fin 80⟩])
        (some ⟨[⟨fin (132 / 10), fin (803 / 10), .str "1"⟩, ⟨fin 13, fin 80, .str "1"⟩]⟩)
        = [⟨.str "1", fin (132 / 10), fin (803 / 10)⟩]
      ∧ sampleEnv.nearest
          ⟨[⟨fin (132 / 10), fin (803 / 10), .str "1"⟩, ⟨fin 13, fin 80, .str "1"⟩]⟩
          (fin 13) (fin 80) 50 radiusKm = [(⟨fin 13, fin 80, .str "1"⟩, fin 0)]
      ∧ distKm sampleEnv ⟨fin 13, fin 80⟩ ⟨.str "1", fin (132 / 10), fin (803 / 10)⟩
          = fin (5566 / 100)
      ∧ distKm sampleEnv ⟨fin 13, fin 80⟩ ⟨.str "1", fin 13, fin 80⟩ = fin 0 := by
  have hn : sampleEnv.nearest
      ⟨[⟨fin (132 / 10), fin (803 / 10), .str "1"⟩, ⟨fin 13, fin 80, .str "1"⟩]⟩
      (fin 13) (fin 80) 50 radiusKm = [(⟨fin 13, fin 80, .str "1"⟩, fin 0)] := by
    simp only [sampleEnv, List.filterMap_cons, List.filterMap_nil, radiusKm, lt]
    norm_num [abs_of_nonneg]
  refine ⟨?_, hn, ?_, ?_⟩
  · simp only [findCrimesNear, List.length_cons, List.length_nil]
    simp only [List.length_cons, List.length_nil, Nat.add_one_ne_zero, if_false, hn,
      List.filterMap_cons, List.filterMap_nil, List.find?_cons, decide_True]
  · simp only [distKm, sampleEnv]
    rw [fin_div_fin _ _ (by norm_num)]
    norm_num [abs_of_nonneg]
  · simp only [distKm, sampleEnv, sub_self, abs_zero, add_zero, mul_zero]
    rw [fin_div_fin _ _ (by norm_num)]
    norm_num

/-- C17 at a failing input: one incident, at the centre of the query.  `createKDTree`
returns `null` for the list, the constructor call having failed, and on the `null`
index `findCrimesNear` returns the empty list, although the incident is at distance 0
from the centre, within the radius of 0.4 km. -/
theorem findCrimesNear_misses_incident :
    createKDTree (some [⟨.str "1", fin 13, fin 80⟩]) = none
      ∧ findCrimesNear sampleEnv (fin 13) (fin 80) radiusKm
          (some [⟨.str "1", fin 13, fin 80⟩])
          (createKDTree (some [⟨.str "1", fin 13, fin 80⟩])) = []
      ∧ distKm sampleEnv ⟨fin 13, fin 80⟩ ⟨.str "1", fin 13, fin 80⟩ = fin 0
      ∧ JSNum.le (fin 0) radiusKm = true := by
  refine ⟨rfl, rfl, ?_, by simp only [radiusKm, JSNum.le, decide_eq_true_eq]; norm_num⟩
  simp only [distKm, sampleEnv, sub_self, abs_zero, add_zero, mul_zero]
  rw [fin_div_fin _ _ (by norm_num)]
  norm_num

/-! ## Distances as extended rationals -/

theorem isDist_fin_zero : IsDist (fin 0) := Or.inr ⟨0, le_refl 0, rfl⟩

theorem isDist_posInf : IsDist posInf := Or.inl rfl

theorem val_fin (q : ℚ) : val (fin q) = (q : WithTop ℚ) := rfl

theorem val_posInf : val posInf = ⊤ := rfl

/-- On distances the comparison `<` is the order of their values. -/
theorem lt_iff_val_lt {x y : JSNum} (hx : IsDist x) (hy : IsDist y) :
    lt x y = true ↔ val x < val y := by
  rcases hx with rfl | ⟨a, _, rfl⟩ <;> rcases hy with rfl | ⟨b, _, rfl⟩
  · simp [lt, val]
  · simp [lt, val]
  · simp [lt, val]
  · simp [lt, val]

theorem not_lt_iff_val_le {x y : JSNum} (hx : IsDist x) (hy : IsDist y) :
    lt x y = false ↔ val y ≤ val x := by
  rw [← not_lt, ← lt_iff_val_lt hx hy]
  simp

/-- A distance plus a finite non-negative length is a distance, of the summed value. -/
theorem isDist_add {x : JSNum} {w : ℚ} (hx : IsDist x) (hw : 0 ≤ w) :
    IsDist (x + fin w) ∧ val (x + fin w) = val x + (w : WithTop ℚ) := by
  rcases hx with rfl | ⟨a, ha, rfl⟩
  · exact ⟨Or.inl rfl, by simp [val]; rfl⟩
  · refine ⟨Or.inr ⟨a + w, by linarith, rfl⟩, ?_⟩
    simp [val]

theorem val_lt_top_iff {x : JSNum} (hx : IsDist x) : val x < ⊤ ↔ lt x posInf = true := by
  rw [lt_iff_val_lt hx isDist_posInf, val_posInf]

theorem eq_posInf_of_not_lt {x : JSNum} (hx : IsDist x) (h : lt x posInf = false) :
    x = posInf := by
  rcases hx with rfl | ⟨a, _, rfl⟩
  · rfl
  · simp [lt] at h

theorem val_nonneg {x : JSNum} (hx : IsDist x) : (0 : WithTop ℚ) ≤ val x := by
  rcases hx with rfl | ⟨a, ha, rfl⟩
  · exact le_top
  · rw [val_fin]
    exact_mod_cast ha

/-! ## The choice of the next node -/

/-- One comparison keeps an unsettled best that is at most as far as the candidate and
as the best before. -/
theorem closer_spec (s : SearchState) (hgood : ∀ v, IsDist (s.dist v)) (best : Option Nat)
    (c : Nat) (hbest : ∀ b0, best = some b0 → b0 ∉ s.visited) :
    (∀ b', closer s best c = some b' → b' ∉ s.visited ∧ (best = some b' ∨ b' = c))
      ∧ (c ∉ s.visited → ∃ b', closer s best c = some b' ∧ val (s.dist b') ≤ val (s.dist c))
      ∧ (∀ b0, best = some b0 →
          ∃ b', closer s best c = some b' ∧ val (s.dist b') ≤ val (s.dist b0)) := by
  unfold closer
  by_cases hc : c ∈ s.visited
  · rw [if_pos hc]
    refine ⟨fun b' hb' => ⟨hbest b' hb', Or.inl hb'⟩, fun h => absurd hc h, ?_⟩
    intro b0 hb0
    exact ⟨b0, hb0, le_refl _⟩
  · rw [if_neg hc]
    cases best with
    | none =>
        refine ⟨?_, fun _ => ⟨c, rfl, le_refl _⟩, fun b0 hb0 => by cases hb0⟩
        intro b' hb'
        injection hb' with hb'
        subst hb'
        exact ⟨hc, Or.inr rfl⟩
    | some b0 =>
        simp only
        by_cases hlt : lt (s.dist c) (s.dist b0) = true
        · simp only [hlt, if_true]
          have hle : val (s.dist c) ≤ val (s.dist b0) :=
            le_of_lt ((lt_iff_val_lt (hgood c) (hgood b0)).1 hlt)
          refine ⟨?_, fun _ => ⟨c, rfl, le_refl _⟩, ?_⟩
          · intro b' hb'
            injection hb' with hb'
            subst hb'
            exact ⟨hc, Or.inr rfl⟩
          · intro b1 hb1
            injection hb1 with hb1
            subst hb1
            exact ⟨c, rfl, hle⟩
        · simp only [hlt]
          have hle : val (s.dist b0) ≤ val (s.dist c) :=
            (not_lt_iff_val_le (hgood c) (hgood b0)).1 (by simpa using hlt)
          refine ⟨?_, fun _ => ⟨b0, rfl, hle⟩, ?_⟩
          · intro b' hb'
            injection hb' with hb'
            subst hb'
            exact ⟨hbest _ rfl, Or.inl rfl⟩
          · intro b1 hb1
            injection hb1 with hb1
            subst hb1
            exact ⟨b0, rfl, le_refl _⟩

/-- The best after all comparisons is unsettled, is one of the candidates or the best
before, and is at most as far as every unsettled candidate and as the best before. -/
theorem foldl_closer_some (s : SearchState) (hgood : ∀ v, IsDist (s.dist v)) (l : List Nat) :
    ∀ (best : Option Nat), (∀ b0, best = some b0 → b0 ∉ s.visited) →
      ∀ b, l.foldl (closer s) best = some b →
        b ∉ s.visited ∧ (best = some b ∨ b ∈ l)
          ∧ (∀ y ∈ l, y ∉ s.visited → val (s.dist b) ≤ val (s.dist y))
          ∧ (∀ b0, best = some b0 → val (s.dist b) ≤ val (s.dist b0)) := by
  induction l with
  | nil =>
      intro best hbest b hb
      simp only [List.foldl_nil] at hb
      refine ⟨hbest b hb, Or.inl hb, fun y hy => (by cases hy), ?_⟩
      intro b0 hb0
      rw [hb] at hb0
      injection hb0 with hb0
      rw [hb0]
  | cons c l ih =>
      intro best hbest b hb
      rw [List.foldl_cons] at hb
      obtain ⟨h1, h2, h3⟩ := closer_spec s hgood best c hbest
      obtain ⟨i1, i2, i3, i4⟩ := ih (closer s best c) (fun b0 hb0 => (h1 b0 hb0).1) b hb
      refine ⟨i1, ?_, ?_, ?_⟩
      · rcases i2 with i2 | i2
        · rcases (h1 b i2).2 with h | h
          · exact Or.inl h
          · exact Or.inr (by rw [h]; exact List.mem_cons_self c l)
        · exact Or.inr (List.mem_cons_of_mem c i2)
      · intro y hy hyv
        rcases List.mem_cons.1 hy with rfl | hy
        · obtain ⟨b', hb', hle⟩ := h2 hyv
          exact le_trans (i4 b' hb') hle
        · exact i3 y hy hyv
      · intro b0 hb0
        obtain ⟨b', hb', hle⟩ := h3 b0 hb0
        exact le_trans (i4 b' hb') hle

/-- No best after all comparisons: there was none before and every candidate is
settled. -/
theorem foldl_closer_none (s : SearchState) (l : List Nat) :
    ∀ (best : Option Nat), l.foldl (closer s) best = none →
      best = none ∧ ∀ y ∈ l, y ∈ s.visited := by
  induction l with
  | nil =>
      intro best hb
      exact ⟨hb, fun y hy => (by cases hy)⟩
  | cons c l ih =>
      intro best hb
      rw [List.foldl_cons] at hb
      obtain ⟨h1, h2⟩ := ih _ hb
      unfold closer at h1
      by_cases hc : c ∈ s.visited
      · rw [if_pos hc] at h1
        refine ⟨h1, ?_⟩
        intro y hy
        rcases List.mem_cons.1 hy with rfl | hy
        · exact hc
        · exact h2 y hy
      · rw [if_neg hc] at h1
        cases best with
        | none => simp at h1
        | some b0 =>
            simp only at h1
            split at h1 <;> cases h1

/-- The node the search settles next is an unsettled node at finite distance, at most
as far as every unsettled node. -/
theorem pickNext_some (G : Graph) (s : SearchState) (hgood : ∀ v, IsDist (s.dist v))
    (u : Nat) (h : pickNext G s = some u) :
    u ∈ G.nodeIds ∧ u ∉ s.visited ∧ lt (s.dist u) posInf = true
      ∧ ∀ y, y ∉ s.visited → y ∈ G.nodeIds → val (s.dist u) ≤ val (s.dist y) := by
  unfold pickNext at h
  split at h
  · next b hb =>
      split at h
      · next hfin =>
          injection h with h
          subst h
          obtain ⟨i1, i2, i3, _⟩ := foldl_closer_some s hgood G.nodeIds none
            (fun b0 hb0 => by cases hb0) b hb
          refine ⟨?_, i1, hfin, fun y hyv hy => i3 y hy hyv⟩
          rcases i2 with i2 | i2
          · cases i2
          · exact i2
      · cases h
  · cases h

/-- When the search settles no further node, every unsettled node is at distance
`Infinity`. -/
theorem pickNext_none (G : Graph) (s : SearchState) (hgood : ∀ v, IsDist (s.dist v))
    (h : pickNext G s = none) :
    ∀ y, y ∉ s.visited → y ∈ G.nodeIds → lt (s.dist y) posInf = false := by
  intro y hyv hy
  unfold pickNext at h
  split at h
  · next b hb =>
      split at h
      · cases h
      · next hinf =>
          obtain ⟨_, _, i3, _⟩ := foldl_closer_some s hgood G.nodeIds none
            (fun b0 hb0 => by cases hb0) b hb
          have hb' : s.dist b = posInf :=
            eq_posInf_of_not_lt (hgood b) (by simpa using hinf)
          have hle := i3 y hy hyv
          rw [hb', val_posInf, top_le_iff] at hle
          rw [not_lt_iff_val_le (hgood y) isDist_posInf, hle]
          exact le_top
  · next hb =>
      obtain ⟨_, hall⟩ := foldl_closer_none s G.nodeIds none hb
      exact absurd (hall y hy) hyv

/-! ## One round of the search -/

/-- An edge that needs no change joins the relaxed edges. -/
theorem roundInv_keep (G : Graph) (source : Nat) (s : SearchState) (u : Nat)
    (done : List Edge) (t : SearchState) (e : Edge)
    (ht : RoundInv G source s u done t)
    (hrel : e.u = u → val (t.dist e.v) ≤ val (t.dist u) + val e.data.length) :
    RoundInv G source s u (e :: done) t :=
  { good := ht.good
    src := ht.src
    vis := ht.vis
    du := ht.du
    frozen := ht.frozen
    low := ht.low
    rel := ht.rel
    relDone := by
      intro e' he' hu'
      rcases List.mem_cons.1 he' with rfl | he'
      · exact hrel hu'
      · exact ht.relDone e' he' hu'
    pred := ht.pred
    hasPred := ht.hasPred }

/-- At equal cost the predecessor may be replaced by `u`. -/
theorem roundInv_tie (G : Graph) (source : Nat) (s : SearchState) (u : Nat)
    (done : List Edge) (t : SearchState) (e : Edge) (w : ℚ) (hw : 0 ≤ w)
    (hlen : e.data.length = fin w)
    (ht : RoundInv G source s u done t) (he : e ∈ G.edges) (heu : e.u = u)
    (heq : t.dist u + e.data.length = t.dist e.v) :
    RoundInv G source s u (e :: done)
      { t with prev := Function.update t.prev e.v (some u) } :=
  { good := ht.good
    src := ht.src
    vis := ht.vis
    du := ht.du
    frozen := ht.frozen
    low := ht.low
    rel := ht.rel
    relDone := by
      intro e' he' hu'
      rcases List.mem_cons.1 he' with rfl | he'
      · show val (t.dist e'.v) ≤ val (t.dist u) + val e'.data.length
        rw [← heq, hlen, (isDist_add (ht.good u) hw).2]
        rfl
      · exact ht.relDone e' he' hu'
    pred := by
      intro v p hp
      by_cases hv : v = e.v
      · subst hv
        simp only [Function.update_same, Option.some.injEq] at hp
        subst hp
        exact ⟨Or.inr rfl, e, he, heu, rfl, heq.symm⟩
      · simp only [Function.update_noteq hv] at hp
        exact ht.pred v p hp
    hasPred := by
      intro v hv hfin
      by_cases hve : v = e.v
      · subst hve
        exact ⟨u, by simp⟩
      · obtain ⟨p, hp⟩ := ht.hasPred v hv hfin
        exact ⟨p, by simp [Function.update_noteq hve, hp]⟩ }

/-- A strictly better way through `u` replaces distance and predecessor of the target. -/
theorem roundInv_update (G : Graph) (source : Nat) (s : SearchState) (u : Nat)
    (done : List Edge) (t : SearchState) (e : Edge) (w : ℚ) (hw : 0 ≤ w)
    (hlen : e.data.length = fin w)
    (hs : SearchInv G source s) (hu : u ∉ s.visited) (huid : u ∈ G.nodeIds)
    (ht : RoundInv G source s u done t) (he : e ∈ G.edges) (heu : e.u = u)
    (hlt : lt (t.dist u + e.data.length) (t.dist e.v) = true) :
    RoundInv G source s u (e :: done)
      { t with dist := Function.update t.dist e.v (t.dist u + e.data.length),
               prev := Function.update t.prev e.v (some u) } := by
  have halt := isDist_add (ht.good u) hw
  rw [← hlen] at halt
  have hvlen : val e.data.length = (w : WithTop ℚ) := by rw [hlen]; rfl
  have hval : val (t.dist u + e.data.length) < val (t.dist e.v) :=
    (lt_iff_val_lt halt.1 (ht.good e.v)).1 hlt
  have hw' : (0 : WithTop ℚ) ≤ (w : WithTop ℚ) := by exact_mod_cast hw
  have hle : val (t.dist u) ≤ val (t.dist u + e.data.length) := by
    rw [halt.2]
    exact le_add_of_nonneg_right hw'
  have hvu : e.v ≠ u := by
    intro h
    rw [h] at hval
    exact absurd hval (not_lt.2 hle)
  have hvv : e.v ∉ s.visited := by
    intro h
    have h1 := hs.ord e.v h u hu huid
    rw [← ht.frozen e.v h, ← ht.du] at h1
    exact absurd hval (not_lt.2 (le_trans h1 hle))
  have hvs : e.v ≠ source := by
    intro h
    rw [h, ht.src] at hval
    exact absurd hval (not_lt.2 (val_nonneg halt.1))
  have hdist : ∀ x, x ≠ e.v →
      Function.update t.dist e.v (t.dist u + e.data.length) x = t.dist x :=
    fun x hx => Function.update_noteq hx _ _
  have hdown : ∀ x, val (Function.update t.dist e.v (t.dist u + e.data.length) x)
      ≤ val (t.dist x) := by
    intro x
    by_cases hx : x = e.v
    · subst hx
      rw [Function.update_same]
      exact le_of_lt hval
    · rw [hdist x hx]
  exact
  { good := by
      intro v
      by_cases hv : v = e.v
      · subst hv
        show IsDist (Function.update t.dist _ _ _)
        rw [Function.update_same]
        exact halt.1
      · show IsDist (Function.update t.dist _ _ _)
        rw [hdist v hv]
        exact ht.good v
    src := by
      show Function.update t.dist _ _ _ = _
      rw [hdist source (Ne.symm hvs)]
      exact ht.src
    vis := ht.vis
    du := by
      show Function.update t.dist _ _ _ = _
      rw [hdist u (Ne.symm hvu)]
      exact ht.du
    frozen := by
      intro x hx
      show Function.update t.dist _ _ _ = _
      rw [hdist x (fun h => hvv (h ▸ hx))]
      exact ht.frozen x hx
    low := by
      intro y hyv hy
      show _ ≤ val (Function.update t.dist _ _ _)
      by_cases hye : y = e.v
      · subst hye
        rw [Function.update_same, ← ht.du]
        exact hle
      · rw [hdist y hye]
        exact ht.low y hyv hy
    rel := by
      intro e' he' hu'
      show val (Function.update t.dist _ _ _) ≤ val (Function.update t.dist _ _ _) + _
      rw [hdist e'.u (fun h => hvv (h ▸ hu'))]
      exact le_trans (hdown e'.v) (ht.rel e' he' hu')
    relDone := by
      intro e' he' hu'
      show val (Function.update t.dist _ _ _) ≤ val (Function.update t.dist _ _ _) + _
      rw [hdist u (Ne.symm hvu)]
      rcases List.mem_cons.1 he' with rfl | he'
      · rw [Function.update_same, halt.2, hvlen]
      · exact le_trans (hdown e'.v) (ht.relDone e' he' hu')
    pred := by
      intro v p hp
      show _ ∧ ∃ e' ∈ G.edges, _ ∧ _ ∧ Function.update t.dist _ _ _
        = Function.update t.dist _ _ _ + _
      by_cases hv : v = e.v
      · subst hv
        simp only [Function.update_same, Option.some.injEq] at hp
        subst hp
        refine ⟨Or.inr rfl, e, he, heu, rfl, ?_⟩
        rw [Function.update_same, hdist _ (Ne.symm hvu)]
      · simp only [Function.update_noteq hv] at hp
        obtain ⟨hp1, e', he', h1, h2, h3⟩ := ht.pred v p hp
        refine ⟨hp1, e', he', h1, h2, ?_⟩
        have hpe : p ≠ e.v := by
          rcases hp1 with hp1 | hp1
          · exact fun h => hvv (h ▸ hp1)
          · rw [hp1]; exact Ne.symm hvu
        rw [hdist v hv, hdist p hpe]
        exact h3
    hasPred := by
      intro v hv hfin
      by_cases hve : v = e.v
      · subst hve
        exact ⟨u, by simp⟩
      · have hfin' : lt (t.dist v) posInf = true := by
          have : Function.update t.dist e.v (t.dist u + e.data.length) v = t.dist v :=
            hdist v hve
          rw [← this]
          exact hfin
        obtain ⟨p, hp⟩ := ht.hasPred v hv hfin'
        exact ⟨p, by simp [Function.update_noteq hve, hp]⟩ }

/-- Relaxing one edge of the graph keeps what holds inside a round. -/
theorem relaxEdge_round (G : Graph) (source : Nat) (s : SearchState) (u : Nat)
    (done : List Edge) (t : SearchState) (e : Edge)
    (hW : ∀ e ∈ G.edges, ∃ w, 0 ≤ w ∧ e.data.length = fin w)
    (hs : SearchInv G source s) (hu : u ∉ s.visited) (huid : u ∈ G.nodeIds)
    (he : e ∈ G.edges) (ht : RoundInv G source s u done t) :
    RoundInv G source s u (e :: done) (relaxEdge u t e) := by
  obtain ⟨w, hw, hlen⟩ := hW e he
  unfold relaxEdge
  by_cases heu : e.u = u
  · rw [if_pos heu]
    simp only
    by_cases hlt : lt (t.dist u + e.data.length) (t.dist e.v) = true
    · rw [if_pos hlt]
      exact roundInv_update G source s u done t e w hw hlen hs hu huid ht he heu hlt
    · rw [if_neg hlt]
      have halt := isDist_add (ht.good u) hw
      rw [← hlen] at halt
      have hvlen : val e.data.length = (w : WithTop ℚ) := by rw [hlen]; rfl
      have hrel : e.u = u → val (t.dist e.v) ≤ val (t.dist u) + val e.data.length := by
        intro _
        rw [hvlen, ← halt.2]
        exact (not_lt_iff_val_le halt.1 (ht.good e.v)).1 (by simpa using hlt)
      by_cases heq : t.dist u + e.data.length = t.dist e.v
      · rw [if_pos heq]
        split
        · split
          · exact roundInv_tie G source s u done t e w hw hlen ht he heu heq
          · exact roundInv_keep G source s u done t e ht hrel
        · exact roundInv_keep G source s u done t e ht hrel
      · rw [if_neg heq]
        exact roundInv_keep G source s u done t e ht hrel
  · rw [if_neg heu]
    exact roundInv_keep G source s u done t e ht (fun h => absurd h heu)

/-- Relaxing a list of edges of the graph keeps what holds inside a round. -/
theorem foldl_relaxEdge_round (G : Graph) (source : Nat) (s : SearchState) (u : Nat)
    (hW : ∀ e ∈ G.edges, ∃ w, 0 ≤ w ∧ e.data.length = fin w)
    (hs : SearchInv G source s) (hu : u ∉ s.visited) (huid : u ∈ G.nodeIds)
    (l : List Edge) :
    ∀ (done : List Edge) (t : SearchState), (∀ e ∈ l, e ∈ G.edges) →
      RoundInv G source s u done t →
      RoundInv G source s u (l.reverse ++ done) (l.foldl (relaxEdge u) t) := by
  induction l with
  | nil => intro done t _ ht; exact ht
  | cons e l ih =>
      intro done t hl ht
      rw [List.foldl_cons, List.reverse_cons, List.append_assoc]
      exact ih (e :: done) _ (fun e' he' => hl e' (List.mem_cons_of_mem e he'))
        (relaxEdge_round G source s u done t e hW hs hu huid
          (hl e (List.mem_cons_self e l)) ht)

/-- At the start of a round the state between rounds holds what holds inside. -/
theorem roundInv_start (G : Graph) (source : Nat) (s : SearchState) (u : Nat)
    (hs : SearchInv G source s)
    (hmin : ∀ y, y ∉ s.visited → y ∈ G.nodeIds → val (s.dist u) ≤ val (s.dist y)) :
    RoundInv G source s u [] s :=
  { good := hs.good
    src := hs.src
    vis := rfl
    du := rfl
    frozen := fun _ _ => rfl
    low := hmin
    rel := hs.rel
    relDone := fun e he => by cases he
    pred := fun v p hp => ⟨Or.inl (hs.pred v p hp).1, (hs.pred v p hp).2⟩
    hasPred := hs.hasPred }

/-- A round of the search keeps what holds between rounds; it settles a node that was
not settled. -/
theorem searchStep_inv (G : Graph) (source : Nat) (s s' : SearchState)
    (hW : ∀ e ∈ G.edges, ∃ w, 0 ≤ w ∧ e.data.length = fin w)
    (hs : SearchInv G source s) (h : searchStep G s = some s') :
    SearchInv G source s'
      ∧ ∃ u, u ∈ G.nodeIds ∧ u ∉ s.visited ∧ s'.visited = u :: s.visited := by
  unfold searchStep at h
  split at h
  · cases h
  · next u hpick =>
      injection h with h
      obtain ⟨huid, hu, _, hmin⟩ := pickNext_some G s hs.good u hpick
      have ht := foldl_relaxEdge_round G source s u hW hs hu huid G.edges [] s
        (fun e he => he) (roundInv_start G source s u hs hmin)
      refine ⟨?_, u, huid, hu, by rw [← h]⟩
      rw [← h]
      exact
      { good := ht.good
        src := ht.src
        ord := by
          intro x hx y hy hyid
          have hyv : y ∉ s.visited := fun hc => hy (List.mem_cons_of_mem u hc)
          have hlow := ht.low y hyv hyid
          rcases List.mem_cons.1 hx with rfl | hx
          · show val ((G.edges.foldl (relaxEdge x) s).dist x) ≤ _
            rw [ht.du]
            exact hlow
          · show val ((G.edges.foldl (relaxEdge u) s).dist x) ≤ _
            rw [ht.frozen x hx]
            exact le_trans (hs.ord x hx u hu huid) hlow
        rel := by
          intro e he heu
          rcases List.mem_cons.1 heu with heu | heu
          · have := ht.relDone e (by simpa using he) heu
            show val ((G.edges.foldl (relaxEdge u) s).dist e.v)
              ≤ val ((G.edges.foldl (relaxEdge u) s).dist e.u) + val e.data.length
            rw [heu]
            exact this
          · exact ht.rel e he heu
        pred := by
          intro v p hp
          obtain ⟨hp1, hp2⟩ := ht.pred v p hp
          refine ⟨?_, hp2⟩
          rcases hp1 with hp1 | hp1
          · exact List.mem_cons_of_mem u hp1
          · rw [hp1]; exact List.mem_cons_self u _
        hasPred := ht.hasPred }

/-- The start of the search holds what holds between rounds. -/
theorem searchInv_initial (G : Graph) (source : Nat) :
    SearchInv G source (initialState source) :=
  { good := by
      intro v
      show IsDist (if v = source then fin 0 else posInf)
      split
      · exact isDist_fin_zero
      · exact isDist_posInf
    src := by simp [initialState]
    ord := fun x hx => by cases hx
    rel := fun e _ hu => by cases hu
    pred := fun v p hp => by cases hp
    hasPred := by
      intro v hv hfin
      simp [initialState, hv, lt] at hfin }

/-- The rounds of the search keep what holds between rounds. -/
theorem searchLoop_inv (G : Graph) (source : Nat)
    (hW : ∀ e ∈ G.edges, ∃ w, 0 ≤ w ∧ e.data.length = fin w) (fuel : Nat) :
    ∀ s, SearchInv G source s → SearchInv G source (searchLoop G fuel s) := by
  induction fuel with
  | zero => intro s hs; exact hs
  | succ fuel ih =>
      intro s hs
      unfold searchLoop
      split
      · exact hs
      · next s' hstep => exact ih s' (searchStep_inv G source s s' hW hs hstep).1

/-- With one round of fuel per unsettled node, the search ends with every unsettled
node at distance `Infinity`. -/
theorem searchLoop_finished (G : Graph) (source : Nat)
    (hW : ∀ e ∈ G.edges, ∃ w, 0 ≤ w ∧ e.data.length = fin w) (fuel : Nat) :
    ∀ s, SearchInv G source s →
      (G.nodeIds.filter (fun y => decide (y ∉ s.visited))).length ≤ fuel →
      ∀ y, y ∉ (searchLoop G fuel s).visited → y ∈ G.nodeIds →
        lt ((searchLoop G fuel s).dist y) posInf = false := by
  induction fuel with
  | zero =>
      intro s _ hm y hyv hy
      exfalso
      have hmem : y ∈ G.nodeIds.filter (fun y => decide (y ∉ s.visited)) :=
        List.mem_filter.2 ⟨hy, by simpa using hyv⟩
      have := List.length_pos_of_mem hmem
      omega
  | succ fuel ih =>
      intro s hs hm
      unfold searchLoop
      split
      · next hstep =>
          unfold searchStep at hstep
          split at hstep
          · next hpick => exact pickNext_none G s hs.good hpick
          · cases hstep
      · next s' hstep =>
          obtain ⟨hs', u, huid, hu, hvis⟩ := searchStep_inv G source s s' hW hs hstep
          apply ih s' hs'
          have hlt : (G.nodeIds.filter (fun y => decide (y ∉ s'.visited))).length
              < (G.nodeIds.filter (fun y => decide (y ∉ s.visited))).length := by
            have hsub : G.nodeIds.filter (fun y => decide (y ∉ s'.visited))
                = (G.nodeIds.filter (fun y => decide (y ∉ s.visited))).filter
                    (fun y => decide (y ≠ u)) := by
              rw [List.filter_filter]
              apply List.filter_congr
              intro y _
              rw [hvis]
              simp [List.mem_cons, not_or, and_comm]
            rw [hsub]
            apply List.length_filter_lt_length_iff_exists.2
            exact ⟨u, List.mem_filter.2 ⟨huid, by simpa using hu⟩, by simp⟩
          omega

/-! ## The result of the search -/

/-- After the search every edge that leaves a node of the graph is relaxed: its target
is at most the length of the edge farther than its origin. -/
theorem searchLoop_relaxed (G : Graph) (source : Nat)
    (hW : ∀ e ∈ G.edges, ∃ w, 0 ≤ w ∧ e.data.length = fin w) :
    SearchInv G source (searchLoop G G.nodeCount (initialState source))
      ∧ ∀ e ∈ G.edges, e.u ∈ G.nodeIds →
          val ((searchLoop G G.nodeCount (initialState source)).dist e.v)
            ≤ val ((searchLoop G G.nodeCount (initialState source)).dist e.u)
              + val e.data.length := by
  have hinv := searchLoop_inv G source hW G.nodeCount _ (searchInv_initial G source)
  refine ⟨hinv, ?_⟩
  intro e he heu
  by_cases hv : e.u ∈ (searchLoop G G.nodeCount (initialState source)).visited
  · exact hinv.rel e he hv
  · have hfuel : (G.nodeIds.filter
        (fun y => decide (y ∉ (initialState source).visited))).length ≤ G.nodeCount := by
      refine le_trans (List.length_filter_le _ _) ?_
      simp [Graph.nodeIds, Graph.nodeCount]
    have hinf := searchLoop_finished G source hW G.nodeCount _ (searchInv_initial G source)
      hfuel e.u hv heu
    rw [eq_posInf_of_not_lt (hinv.good e.u) hinf, val_posInf, top_add]
    exact le_top

/-- The lookup of the pair of an edge of a graph with pairwise distinct pairs finds the
length of that edge. -/
theorem edgeLength_of_mem (G : Graph) (hk : (G.edges.map Edge.key).Nodup) (e : Edge)
    (he : e ∈ G.edges) : edgeLength G e.u e.v = e.data.length := by
  unfold edgeLength Graph.getEdge
  cases hfind : G.edges.find? (fun e' => decide (e'.key = (e.u, e.v))) with
  | none =>
      rw [List.find?_eq_none] at hfind
      exact absurd (by simp [Edge.key]) (hfind e he)
  | some e' =>
      have hmem := List.mem_of_find?_eq_some hfind
      have hkey := List.find?_some hfind
      have : e' = e := List.inj_on_of_nodup_map hk hmem he (by simpa [Edge.key] using hkey)
      rw [this]
      rfl

/-- A node reached through a predecessor at finite distance has its predecessor at
finite distance. -/
theorem finite_of_add {x : JSNum} {w : ℚ} (hx : IsDist x)
    (h : lt (x + fin w) posInf = true) : lt x posInf = true := by
  rcases hx with rfl | ⟨a, _, rfl⟩
  · exact h
  · rfl

/-- Reading the route back succeeds when predecessors have lower indices and every node
at finite distance other than the source has one. -/
theorem walkBack_some (prev : Nat → Option Nat) (source : Nat) (F : Nat → Prop)
    (hdec : ∀ v p, prev v = some p → p < v)
    (hhas : ∀ v, v ≠ source → F v → ∃ p, prev v = some p ∧ F p) (fuel : Nat) :
    ∀ v acc, v ≤ fuel → F v → ∃ route, walkBack prev source fuel v acc = some route := by
  induction fuel with
  | zero =>
      intro v acc hv hF
      unfold walkBack
      by_cases hvs : v = source
      · exact ⟨v :: acc, by rw [if_pos hvs]⟩
      · obtain ⟨p, hp, _⟩ := hhas v hvs hF
        have := hdec v p hp
        omega
  | succ fuel ih =>
      intro v acc hv hF
      unfold walkBack
      by_cases hvs : v = source
      · exact ⟨v :: acc, by rw [if_pos hvs]⟩
      · rw [if_neg hvs]
        obtain ⟨p, hp, hFp⟩ := hhas v hvs hF
        rw [hp]
        have := hdec v p hp
        exact ih p (v :: acc) (by omega) hFp

/-- The route read back runs from the source along the predecessors into the list it
was started with. -/
theorem walkBack_chain (prev : Nat → Option Nat) (source : Nat) (fuel : Nat) :
    ∀ v acc route, walkBack prev source fuel v acc = some route →
      List.Chain' (fun a b => prev b = some a) (v :: acc) →
      List.Chain' (fun a b => prev b = some a) route
        ∧ route.head? = some source ∧ route.getLast? = (v :: acc).getLast? := by
  induction fuel with
  | zero =>
      intro v acc route h hc
      unfold walkBack at h
      split at h
      · next hvs =>
          injection h with h
          subst h
          exact ⟨hc, by simp [hvs], rfl⟩
      · cases h
  | succ fuel ih =>
      intro v acc route h hc
      unfold walkBack at h
      split at h
      · next hvs =>
          injection h with h
          subst h
          exact ⟨hc, by simp [hvs], rfl⟩
      · split at h
        · cases h
        · next p hp =>
            obtain ⟨h1, h2, h3⟩ := ih p (v :: acc) route h
              (List.chain'_cons.2 ⟨hp, hc⟩)
            refine ⟨h1, h2, ?_⟩
            rw [h3, List.getLast?_cons_cons]

/-- Along a chain of predecessors the running total of lengths is the distance. -/
theorem pathWeightFrom_chain (G : Graph) (source : Nat) (s : SearchState)
    (hs : SearchInv G source s) (hk : (G.edges.map Edge.key).Nodup) (l : List Nat) :
    ∀ x z, List.Chain' (fun a b => s.prev b = some a) (x :: l) →
      (x :: l).getLast? = some z →
      pathWeightFrom G (s.dist x) (x :: l) = s.dist z := by
  induction l with
  | nil =>
      intro x z _ hz
      simp only [List.getLast?_singleton, Option.some.injEq] at hz
      rw [← hz]
      rfl
  | cons y l ih =>
      intro x z hc hz
      rw [List.chain'_cons] at hc
      obtain ⟨_, e, he, heu, hev, hd⟩ := hs.pred y x hc.1
      rw [List.getLast?_cons_cons] at hz
      show pathWeightFrom G (s.dist x + edgeLength G x y) (y :: l) = s.dist z
      have hlen := edgeLength_of_mem G hk e he
      rw [heu, hev] at hlen
      rw [hlen, ← hd]
      exact ih y z hc.2 hz

/-- A chain of predecessors is a chain of edges of the graph. -/
theorem chain_edges_of_prev (G : Graph) (source : Nat) (s : SearchState)
    (hs : SearchInv G source s) (route : List Nat)
    (hc : List.Chain' (fun a b => s.prev b = some a) route) :
    List.Chain' (fun a b => ∃ e ∈ G.edges, e.u = a ∧ e.v = b) route := by
  refine List.Chain'.imp ?_ hc
  intro a b hab
  obtain ⟨_, e, he, heu, hev, _⟩ := hs.pred b a hab
  exact ⟨e, he, heu, hev⟩

/-- The distance the search ends with is at most the total weight of any route of
edges of the graph from the source through nodes of the graph; that weight is a finite
non-negative number. -/
theorem dist_le_pathWeight (G : Graph) (source : Nat)
    (hW : ∀ e ∈ G.edges, ∃ w, 0 ≤ w ∧ e.data.length = fin w)
    (hk : (G.edges.map Edge.key).Nodup) (l : List Nat) :
    ∀ (x z : Nat) (t : ℚ), 0 ≤ t → x ∈ G.nodeIds → (∀ y ∈ l, y ∈ G.nodeIds) →
      val ((searchLoop G G.nodeCount (initialState source)).dist x) ≤ (t : WithTop ℚ) →
      List.Chain' (fun a b => ∃ e ∈ G.edges, e.u = a ∧ e.v = b) (x :: l) →
      (x :: l).getLast? = some z →
      ∃ b, 0 ≤ b ∧ pathWeightFrom G (fin t) (x :: l) = fin b
        ∧ val ((searchLoop G G.nodeCount (initialState source)).dist z)
            ≤ (b : WithTop ℚ) := by
  induction l with
  | nil =>
      intro x z t ht _ _ hx _ hz
      simp only [List.getLast?_singleton, Option.some.injEq] at hz
      rw [← hz]
      exact ⟨t, ht, rfl, hx⟩
  | cons y l ih =>
      intro x z t ht hxid hl hx hc hz
      rw [List.chain'_cons] at hc
      obtain ⟨⟨e, he, heu, hev⟩, hc2⟩ := hc
      obtain ⟨w, hw, hlen⟩ := hW e he
      rw [List.getLast?_cons_cons] at hz
      have hel := edgeLength_of_mem G hk e he
      rw [heu, hev, hlen] at hel
      have hrel := (searchLoop_relaxed G source hW).2 e he (by rw [heu]; exact hxid)
      rw [heu, hev, hlen, val_fin] at hrel
      have hy : val ((searchLoop G G.nodeCount (initialState source)).dist y)
          ≤ ((t + w : ℚ) : WithTop ℚ) := by
        refine le_trans hrel ?_
        rw [WithTop.coe_add]
        exact add_le_add_right hx _
      obtain ⟨b, hb0, hb, hbz⟩ := ih y z (t + w) (by linarith)
        (hl y (List.mem_cons_self y l)) (fun y' hy' => hl y' (List.mem_cons_of_mem y hy'))
        hy hc2 hz
      refine ⟨b, hb0, ?_, hbz⟩
      show pathWeightFrom G (fin t + edgeLength G x y) (y :: l) = fin b
      rw [hel, fin_add_fin]
      exact hb

/-- The search on a graph with finite non-negative lengths, pairwise distinct pairs and
edges that go up, from a node `source` to a node `dest` that some route `p` of edges
through nodes of the graph reaches: `shortestPath` returns a route of edges of the
graph from `source` to `dest` whose total weight is at most that of `p`. -/
theorem shortestPath_of_path (G : Graph) (source dest : Nat)
    (hW : ∀ e ∈ G.edges, ∃ w, 0 ≤ w ∧ e.data.length = fin w)
    (hk : (G.edges.map Edge.key).Nodup) (hinc : ∀ e ∈ G.edges, e.u < e.v)
    (hfuel : dest ≤ G.nodeCount) (p : List Nat)
    (hp0 : p.head? = some source) (hpl : p.getLast? = some dest)
    (hpid : ∀ y ∈ p, y ∈ G.nodeIds)
    (hc : List.Chain' (fun a b => ∃ e ∈ G.edges, e.u = a ∧ e.v = b) p) :
    ∃ route a b, G.shortestPath source dest = .ok route
      ∧ List.Chain' (fun a b => ∃ e ∈ G.edges, e.u = a ∧ e.v = b) route
      ∧ route.head? = some source ∧ route.getLast? = some dest
      ∧ pathWeight G route = fin a ∧ pathWeight G p = fin b ∧ a ≤ b ∧ 0 ≤ a := by
  obtain ⟨hinv, _⟩ := searchLoop_relaxed G source hW
  cases p with
  | nil => simp at hp0
  | cons x l =>
    simp only [List.head?_cons, Option.some.injEq] at hp0
    subst hp0
    have hxid : x ∈ G.nodeIds := hpid x (List.mem_cons_self x l)
    have hdid : dest ∈ G.nodeIds := hpid dest (List.mem_of_getLast?_eq_some hpl)
    obtain ⟨b, hb0, hb, hbz⟩ := dist_le_pathWeight G x hW hk l x dest 0 (le_refl 0) hxid
      (fun y hy => hpid y (List.mem_cons_of_mem x hy))
      (by rw [hinv.src]; exact le_refl _) hc hpl
    -- the destination is at finite distance
    obtain ⟨a, ha0, ha⟩ : ∃ a, 0 ≤ a
        ∧ (searchLoop G G.nodeCount (initialState x)).dist dest = fin a := by
      rcases hinv.good dest with h | ⟨a, ha0, ha⟩
      · rw [h, val_posInf] at hbz
        exact absurd hbz (by simp)
      · exact ⟨a, ha0, ha⟩
    have hab : a ≤ b := by
      rw [ha, val_fin] at hbz
      exact_mod_cast hbz
    have hfin : lt ((searchLoop G G.nodeCount (initialState x)).dist dest) posInf = true := by
      rw [ha]; rfl
    -- the route is read back
    have hdec : ∀ v q, (searchLoop G G.nodeCount (initialState x)).prev v = some q → q < v := by
      intro v q hq
      obtain ⟨_, e, he, heu, hev, _⟩ := hinv.pred v q hq
      have := hinc e he
      omega
    have hhas : ∀ v, v ≠ x →
        lt ((searchLoop G G.nodeCount (initialState x)).dist v) posInf = true →
        ∃ q, (searchLoop G G.nodeCount (initialState x)).prev v = some q
          ∧ lt ((searchLoop G G.nodeCount (initialState x)).dist q) posInf = true := by
      intro v hv hF
      obtain ⟨q, hq⟩ := hinv.hasPred v hv hF
      obtain ⟨_, e, he, _, _, hd⟩ := hinv.pred v q hq
      obtain ⟨w, _, hlen⟩ := hW e he
      rw [hd, hlen] at hF
      exact ⟨q, hq, finite_of_add (hinv.good q) hF⟩
    obtain ⟨route, hroute⟩ := walkBack_some _ x
      (fun v => lt ((searchLoop G G.nodeCount (initialState x)).dist v) posInf = true)
      hdec hhas G.nodeCount dest [] hfuel hfin
    obtain ⟨hc1, hh, hlast⟩ := walkBack_chain _ x G.nodeCount dest [] route hroute
      (List.chain'_singleton dest)
    refine ⟨route, a, b, ?_, chain_edges_of_prev G x _ hinv route hc1, hh, hlast, ?_, hb,
      hab, ha0⟩
    · unfold Graph.shortestPath
      rw [if_pos ⟨hxid, hdid⟩]
      simp only [hfin, if_true, hroute]
    · cases route with
      | nil => simp at hh
      | cons r rest =>
          simp only [List.head?_cons, Option.some.injEq] at hh
          subst hh
          rw [← ha, ← pathWeightFrom_chain G r _ hinv hk rest r dest hc1 hlast, hinv.src]
          rfl

/-- A list in which every element is followed by its successor is a run of consecutive
numbers. -/
theorem chain_succ_eq_range' (l : List Nat) :
    ∀ x, List.Chain' (fun a b => b = a + 1) (x :: l) →
      x :: l = List.range' x (l.length + 1) ∧ (x :: l).getLast? = some (x + l.length) := by
  induction l with
  | nil => intro x _; exact ⟨rfl, rfl⟩
  | cons y l ih =>
      intro x hc
      rw [List.chain'_cons] at hc
      obtain ⟨hy, hc2⟩ := hc
      obtain ⟨h1, h2⟩ := ih y hc2
      subst hy
      constructor
      · rw [List.length_cons, List.range'_succ, ← h1]
      · rw [List.getLast?_cons_cons, h2, List.length_cons]
        congr 1
        omega

/-- The list `[0, 1, ..., n]` starts at 0, ends at `n` and steps by one. -/
theorem range_succ_path (n : Nat) :
    (List.range (n + 1)).head? = some 0 ∧ (List.range (n + 1)).getLast? = some n := by
  constructor
  · rw [List.range_succ_eq_map]
    rfl
  · rw [List.range_succ]
    exact List.getLast?_concat _

/-- The function `findOptimalRoute` on a graph whose search from node 0 to the last
node succeeds returns the route of the search. -/
theorem findOptimalRoute_of_ok (G : Graph) (route : List Nat) (hn : 1 ≤ G.nodeCount)
    (h : G.shortestPath 0 (G.nodeCount - 1) = .ok route) :
    findOptimalRoute G = route.map Int.ofNat := by
  unfold findOptimalRoute
  have h0 : (0 : Int) ≤ (G.nodeCount : Int) - 1 := by omega
  have h1 : ((G.nodeCount : Int) - 1).toNat = G.nodeCount - 1 := by omega
  simp only [h0, if_true, h1, h]

/-! ## Routes -/

/-- C19: for a graph of `N ≥ 2` nodes `0 .. N-1` (one entry per pair) that contains
the primary edges `(i, i+1)` and no other edge, with finite non-negative weights, the
search from 0 to `N-1` succeeds and `findOptimalRoute` returns the full sequential
path `[0, 1, ..., N-1]`. -/
theorem primary_only_route (G : Graph) (N : Nat) (hN : 2 ≤ N)
    (hids : G.nodeIds = List.range N)
    (hk : (G.edges.map Edge.key).Nodup)
    (hprim : ∀ i, i + 1 < N → ∃ e ∈ G.edges, e.u = i ∧ e.v = i + 1)
    (honly : ∀ e ∈ G.edges, e.v = e.u + 1 ∧ e.v < N)
    (hW : ∀ e ∈ G.edges, ∃ w, 0 ≤ w ∧ e.data.length = fin w) :
    G.shortestPath 0 (N - 1) = .ok (List.range N)
      ∧ findOptimalRoute G = (List.range N).map Int.ofNat := by
  have hcount : G.nodeCount = N := by
    have := congrArg List.length hids
    simpa [Graph.nodeIds, Graph.nodeCount] using this
  obtain ⟨n, rfl⟩ : ∃ n, N = n + 1 := ⟨N - 1, by omega⟩
  obtain ⟨h0, hl⟩ := range_succ_path n
  have hchain : List.Chain' (fun a b => ∃ e ∈ G.edges, e.u = a ∧ e.v = b)
      (List.range (n + 1)) := by
    rw [List.chain'_range_succ]
    intro m hm
    exact hprim m (by omega)
  obtain ⟨route, a, b, hroute, hc, hh, hlast, _⟩ := shortestPath_of_path G 0 n hW hk
    (fun e he => by have := (honly e he).1; omega) (by omega) (List.range (n + 1)) h0 hl
    (fun y hy => by rw [hids]; exact hy) hchain
  have hsucc : List.Chain' (fun a b => b = a + 1) route := by
    refine List.Chain'.imp ?_ hc
    rintro a b ⟨e, he, rfl, rfl⟩
    exact (honly e he).1
  have hrange : route = List.range (n + 1) := by
    cases route with
    | nil => simp at hh
    | cons x l =>
        simp only [List.head?_cons, Option.some.injEq] at hh
        subst hh
        obtain ⟨h1, h2⟩ := chain_succ_eq_range' l 0 hsucc
        rw [hlast] at h2
        injection h2 with h2
        have hlen : l.length = n := by omega
        rw [h1, hlen, List.range_eq_range']
  rw [hrange] at hroute
  have hroute' : G.shortestPath 0 (n + 1 - 1) = .ok (List.range (n + 1)) := hroute
  refine ⟨hroute', ?_⟩
  apply findOptimalRoute_of_ok G _ (by omega)
  rw [hcount]
  exact hroute'

/-- Witness of C19: `chainGraph`, three nodes in a row. -/
theorem primary_only_route_witness :
    chainGraph.shortestPath 0 (3 - 1) = .ok (List.range 3)
      ∧ findOptimalRoute chainGraph = (List.range 3).map Int.ofNat :=
  primary_only_route chainGraph 3 (by decide) rfl (by decide)
    (by
      intro i hi
      have hi' : i = 0 ∨ i = 1 := by omega
      rcases hi' with rfl | rfl
      · exact ⟨⟨0, 1, ⟨fin 1, .primary⟩⟩, by simp [chainGraph], rfl, rfl⟩
      · exact ⟨⟨1, 2, ⟨fin 2, .primary⟩⟩, by simp [chainGraph], rfl, rfl⟩)
    (by
      intro e he
      simp only [chainGraph, List.mem_cons, List.mem_singleton, List.not_mem_nil,
        or_false] at he
      rcases he with rfl | rfl <;> exact ⟨rfl, by decide⟩)
    (by
      intro e he
      simp only [chainGraph, List.mem_cons, List.mem_singleton, List.not_mem_nil,
        or_false] at he
      rcases he with rfl | rfl
      · exact ⟨1, by norm_num, rfl⟩
      · exact ⟨2, by norm_num, rfl⟩)

/-- The graph `createWaypointGraph` returns: its nodes are `0 .. N-1`, its edges have
pairwise distinct pairs, go up, and include every step `(m, m+1)`. -/
theorem returned_graph_shape (env : Env) (ws : List Waypoint) (cd : Option (List Crime))
    (tree : Option KDTree) (nc : Int) (G : Graph)
    (hG : createWaypointGraph env ws cd tree nc = .ok G) :
    G.nodeIds = List.range ws.length
      ∧ (G.edges.map Edge.key).Nodup
      ∧ (∀ e ∈ G.edges, e.u < e.v ∧ e.v < ws.length)
      ∧ (∀ m, m + 1 < ws.length → ∃ e ∈ G.edges, e.u = m ∧ e.v = m + 1)
      ∧ ∀ e ∈ G.edges, ∃ e0 ∈ (buildGraph env ws nc).edges,
          e.u = e0.u ∧ e.v = e0.v ∧ e.data.type = e0.data.type := by
  rw [createWaypointGraph_eq] at hG
  injection hG with hG
  obtain ⟨f, hf, hap⟩ := applyPenalties_buildGraph env cd tree ws nc
  rw [hap] at hG
  subst hG
  have hkey : ∀ e, (f e).key = e.key := by
    intro e
    simp only [Edge.key, (hf e).1, (hf e).2.1]
  refine ⟨?_, ?_, ?_, ?_, ?_⟩
  · simp only [Graph.nodeIds, buildGraph_eq, List.map_map]
    have : (Prod.fst ∘ nodeOf ws) = id := by
      funext i
      rfl
    rw [this, List.map_id]
  · simp only [List.map_map]
    have : (Edge.key ∘ f) = Edge.key := by
      funext e
      exact hkey e
    rw [this]
    exact buildGraph_nodup_keys env ws nc
  · intro e he
    obtain ⟨e0, he0, rfl⟩ := List.mem_map.1 he
    rw [(hf e0).1, (hf e0).2.1]
    have hb := buildGraph_edge_bounds env ws nc e0 he0
    rw [mem_buildGraph_edges] at he0
    rcases he0 with ⟨i, hi, rfl⟩ | ⟨i, j, hi, hj, _, rfl⟩
    · simp only [primaryEdge]
      omega
    · rw [mem_forwardTargets] at hj
      simp only [shortcut]
      omega
  · intro m hm
    refine ⟨f (primaryEdge env ws m), List.mem_map.2 ⟨_, ?_, rfl⟩, ?_, ?_⟩
    · rw [mem_buildGraph_edges]
      exact Or.inl ⟨m, hm, rfl⟩
    · rw [(hf _).1]; rfl
    · rw [(hf _).2.1]; rfl
  · intro e he
    obtain ⟨e0, he0, rfl⟩ := List.mem_map.1 he
    exact ⟨e0, he0, (hf e0).1, (hf e0).2.1, (hf e0).2.2⟩

/-- C20: for a graph `G` built by `createWaypointGraph` from `N ≥ 2` waypoints, with
finite non-negative edge weights, the search from node 0 to node `N-1` succeeds,
`findOptimalRoute` returns its route, and the total weight of that route is at most the
total weight of the primary path `0, 1, ..., N-1` in `G`. -/
theorem shortest_route_le_primary (env : Env) (ws : List Waypoint)
    (cd : Option (List Crime)) (tree : Option KDTree) (nc : Int) (G : Graph)
    (hN : 2 ≤ ws.length) (hG : createWaypointGraph env ws cd tree nc = .ok G)
    (hW : ∀ e ∈ G.edges, ∃ w, 0 ≤ w ∧ e.data.length = fin w) :
    ∃ route a b, G.shortestPath 0 (ws.length - 1) = .ok route
      ∧ findOptimalRoute G = route.map Int.ofNat
      ∧ pathWeight G route = fin a
      ∧ pathWeight G (List.range ws.length) = fin b
      ∧ a ≤ b := by
  obtain ⟨hids, hk, hinc, hprim, _⟩ := returned_graph_shape env ws cd tree nc G hG
  have hcount : G.nodeCount = ws.length := by
    have := congrArg List.length hids
    simpa [Graph.nodeIds, Graph.nodeCount] using this
  obtain ⟨n, hn⟩ : ∃ n, ws.length = n + 1 := ⟨ws.length - 1, by omega⟩
  rw [hn] at hids hprim hcount ⊢
  obtain ⟨h0, hl⟩ := range_succ_path n
  have hchain : List.Chain' (fun a b => ∃ e ∈ G.edges, e.u = a ∧ e.v = b)
      (List.range (n + 1)) := by
    rw [List.chain'_range_succ]
    intro m hm
    exact hprim m (by omega)
  obtain ⟨route, a, b, hroute, _, _, _, ha, hb, hab, _⟩ := shortestPath_of_path G 0 n hW hk
    (fun e he => (hinc e he).1) (by omega) (List.range (n + 1)) h0 hl
    (fun y hy => by rw [hids]; exact hy) hchain
  have hroute' : G.shortestPath 0 (n + 1 - 1) = .ok route := hroute
  refine ⟨route, a, b, hroute', ?_, ha, hb, hab⟩
  apply findOptimalRoute_of_ok G _ (by omega)
  rw [hcount]
  exact hroute'

/-- The stand-in distance between two waypoints with finite coordinates is a finite
non-negative number. -/
theorem sampleEnv_hav_finite (ws : List Waypoint)
    (hfin : ∀ w ∈ ws, ∃ a b, w = ⟨fin a, fin b⟩) (i j : Nat) (hi : i < ws.length)
    (hj : j < ws.length) : ∃ q, 0 ≤ q ∧ hav sampleEnv (wp ws i) (wp ws j) = fin q := by
  obtain ⟨a, b, hab⟩ := hfin (wp ws i) (by rw [wp_eq ws i hi]; exact List.getElem_mem hi)
  obtain ⟨c, d, hcd⟩ := hfin (wp ws j) (by rw [wp_eq ws j hj]; exact List.getElem_mem hj)
  rw [hab, hcd]
  exact ⟨111320 * (|c - a| + |d - b|), by positivity, rfl⟩

/-- Witness of C20: three waypoints on a line, no incident data. -/
theorem shortest_route_le_primary_witness :
    ∃ route a b,
      (buildGraph sampleEnv [⟨fin 0, fin 0⟩, ⟨fin 1, fin 0⟩, ⟨fin 2, fin 0⟩] 2).shortestPath 0
          (([⟨fin 0, fin 0⟩, ⟨fin 1, fin 0⟩, ⟨fin 2, fin 0⟩] : List Waypoint).length - 1)
        = .ok route
      ∧ findOptimalRoute
          (buildGraph sampleEnv [⟨fin 0, fin 0⟩, ⟨fin 1, fin 0⟩, ⟨fin 2, fin 0⟩] 2)
          = route.map Int.ofNat
      ∧ pathWeight (buildGraph sampleEnv [⟨fin 0, fin 0⟩, ⟨fin 1, fin 0⟩, ⟨fin 2, fin 0⟩] 2)
          route = fin a
      ∧ pathWeight (buildGraph sampleEnv [⟨fin 0, fin 0⟩, ⟨fin 1, fin 0⟩, ⟨fin 2, fin 0⟩] 2)
          (List.range ([⟨fin 0, fin 0⟩, ⟨fin 1, fin 0⟩, ⟨fin 2, fin 0⟩] : List Waypoint).length)
          = fin b
      ∧ a ≤ b :=
  shortest_route_le_primary sampleEnv [⟨fin 0, fin 0⟩, ⟨fin 1, fin 0⟩, ⟨fin 2, fin 0⟩]
    none none 2 (buildGraph sampleEnv [⟨fin 0, fin 0⟩, ⟨fin 1, fin 0⟩, ⟨fin 2, fin 0⟩] 2)
    (by decide) rfl
    (by
      intro e he
      obtain ⟨hu, hv⟩ := buildGraph_edge_bounds sampleEnv _ 2 e he
      rw [buildGraph_edge_length sampleEnv _ 2 e he]
      refine sampleEnv_hav_finite _ ?_ e.u e.v hu hv
      intro w hw
      simp only [List.mem_cons, List.mem_singleton, List.not_mem_nil, or_false] at hw
      rcases hw with rfl | rfl | rfl
      · exact ⟨0, 0, rfl⟩
      · exact ⟨1, 0, rfl⟩
      · exact ⟨2, 0, rfl⟩)

/-! ## The route of findOptimalRoute -/

/-- The graph built from three waypoints, the middle one without coordinates: both
primary edges have the weight `NaN` and the shortcut `(0, 2)` fails its test. -/
theorem nan_graph_eq :
    createWaypointGraph sampleEnv [⟨fin 0, fin 0⟩, ⟨nan, nan⟩, ⟨fin 1, fin 1⟩] none none 3
      = .ok ⟨[(0, ⟨fin 0, fin 0⟩), (1, ⟨nan, nan⟩), (2, ⟨fin 1, fin 1⟩)],
          [⟨0, 1, ⟨nan, .primary⟩⟩, ⟨1, 2, ⟨nan, .primary⟩⟩]⟩ := by
  rw [createWaypointGraph_eq, buildGraph_eq]
  have hp : primaryEdges sampleEnv [⟨fin 0, fin 0⟩, ⟨nan, nan⟩, ⟨fin 1, fin 1⟩]
      = [⟨0, 1, ⟨nan, .primary⟩⟩, ⟨1, 2, ⟨nan, .primary⟩⟩] := rfl
  have hm : (nan : JSNum) * fin (5 / 2) = nan := rfl
  have hs : secondaryEdges sampleEnv [⟨fin 0, fin 0⟩, ⟨nan, nan⟩, ⟨fin 1, fin 1⟩] 3 = [] := by
    simp [secondaryEdges, secondaryRow, forwardTargets, maxForwardSkip, List.range_succ,
      List.range', shortcutOk, hav, wp, sampleEnv, lt, hm]
  rw [hp, hs]
  rfl

/-- In a chain, every element after the first is related to some element before it. -/
theorem chain_tail_has_pred {α : Type} (R : α → α → Prop) (l : List α) :
    ∀ x, List.Chain' R (x :: l) → ∀ y ∈ l, ∃ z, R z y := by
  induction l with
  | nil => intro x _ y hy; simp at hy
  | cons a l ih =>
      intro x hc y hy
      rw [List.chain'_cons] at hc
      rcases List.mem_cons.1 hy with rfl | hy'
      · exact ⟨x, hc.1⟩
      · exact ih a hc.2 y hy'

/-- C21, as stated, fails on the fallback return path.  Three waypoints, the middle one
without coordinates (as `generateWaypoints` produces from an infinite input): the edge
weights are `NaN`, the search finds no route, and `findOptimalRoute` returns `[0, 2]`
although `(0, 2)` is no edge of the graph.  And from no waypoints the graph has no
node, and the route returned is `[0, -1]`. -/
theorem fallback_route_leaves_graph :
    (∃ G, createWaypointGraph sampleEnv [⟨fin 0, fin 0⟩, ⟨nan, nan⟩, ⟨fin 1, fin 1⟩]
          none none 3 = .ok G
        ∧ G.nodeCount = 3 ∧ findOptimalRoute G = [0, 2]
        ∧ ¬ ∃ e ∈ G.edges, e.u = 0 ∧ e.v = 2)
      ∧ ∃ G, createWaypointGraph sampleEnv [] none none 3 = .ok G
          ∧ G.nodeCount = 0 ∧ findOptimalRoute G = [0, -1] ∧ G.edges = [] := by
  refine ⟨⟨_, nan_graph_eq, rfl, by decide, ?_⟩, ⟨_, rfl, rfl, by decide, rfl⟩⟩
  rintro ⟨e, he, hu, hv⟩
  simp only [List.mem_cons, List.mem_singleton, List.not_mem_nil, or_false] at he
  rcases he with rfl | rfl
  · exact absurd hv (by decide)
  · exact absurd hu (by decide)

/-- C21, amended: for every graph `G` built by `createWaypointGraph` from `N ≥ 1`
waypoints whose edge weights are finite and non-negative, the search succeeds and the
route `findOptimalRoute` returns is a sequence of node indices that starts at 0, ends
at `N-1`, and in which every consecutive pair is an edge of `G`. -/
theorem findOptimalRoute_valid (env : Env) (ws : List Waypoint)
    (cd : Option (List Crime)) (tree : Option KDTree) (nc : Int) (G : Graph)
    (hN : 1 ≤ ws.length) (hG : createWaypointGraph env ws cd tree nc = .ok G)
    (hW : ∀ e ∈ G.edges, ∃ w, 0 ≤ w ∧ e.data.length = fin w) :
    ∃ route : List Nat, G.shortestPath 0 (ws.length - 1) = .ok route
      ∧ findOptimalRoute G = route.map Int.ofNat
      ∧ route.head? = some 0 ∧ route.getLast? = some (ws.length - 1)
      ∧ (∀ y ∈ route, y < ws.length)
      ∧ List.Chain' (fun u v => ∃ e ∈ G.edges, e.u = u ∧ e.v = v) route := by
  obtain ⟨hids, hk, hinc, hprim, _⟩ := returned_graph_shape env ws cd tree nc G hG
  have hcount : G.nodeCount = ws.length := by
    have := congrArg List.length hids
    simpa [Graph.nodeIds, Graph.nodeCount] using this
  obtain ⟨n, hn⟩ : ∃ n, ws.length = n + 1 := ⟨ws.length - 1, by omega⟩
  rw [hn] at hids hprim hcount hinc ⊢
  obtain ⟨h0, hl⟩ := range_succ_path n
  have hchain : List.Chain' (fun a b => ∃ e ∈ G.edges, e.u = a ∧ e.v = b)
      (List.range (n + 1)) := by
    rw [List.chain'_range_succ]
    intro m hm
    exact hprim m (by omega)
  obtain ⟨route, a, b, hroute, hc, hh, hlast, _⟩ := shortestPath_of_path G 0 n hW hk
    (fun e he => (hinc e he).1) (by omega) (List.range (n + 1)) h0 hl
    (fun y hy => by rw [hids]; exact hy) hchain
  have hroute' : G.shortestPath 0 (n + 1 - 1) = .ok route := hroute
  refine ⟨route, hroute', ?_, hh, hlast, ?_, hc⟩
  · apply findOptimalRoute_of_ok G _ (by omega)
    rw [hcount]
    exact hroute'
  · intro y hy
    cases route with
    | nil => simp at hh
    | cons x l =>
        simp only [List.head?_cons, Option.some.injEq] at hh
        subst hh
        rcases List.mem_cons.1 hy with rfl | hy'
        · omega
        · obtain ⟨z, e, he, _, rfl⟩ := chain_tail_has_pred _ l _ hc y hy'
          exact (hinc e he).2

/-- Witness of the amended C21: three waypoints on a line, no incident data. -/
theorem findOptimalRoute_valid_witness :
    ∃ route : List Nat,
      (buildGraph sampleEnv [⟨fin 0, fin 0⟩, ⟨fin 1, fin 0⟩, ⟨fin 2, fin 0⟩] 3).shortestPath 0
          (([⟨fin 0, fin 0⟩, ⟨fin 1, fin 0⟩, ⟨fin 2, fin 0⟩] : List Waypoint).length - 1)
        = .ok route
      ∧ findOptimalRoute
          (buildGraph sampleEnv [⟨fin 0, fin 0⟩, ⟨fin 1, fin 0⟩, ⟨fin 2, fin 0⟩] 3)
          = route.map Int.ofNat
      ∧ route.head? = some 0
      ∧ route.getLast?
          = some (([⟨fin 0, fin 0⟩, ⟨fin 1, fin 0⟩, ⟨fin 2, fin 0⟩] : List Waypoint).length - 1)
      ∧ (∀ y ∈ route,
          y < ([⟨fin 0, fin 0⟩, ⟨fin 1, fin 0⟩, ⟨fin 2, fin 0⟩] : List Waypoint).length)
      ∧ List.Chain' (fun u v =>
          ∃ e ∈ (buildGraph sampleEnv [⟨fin 0, fin 0⟩, ⟨fin 1, fin 0⟩, ⟨fin 2, fin 0⟩] 3).edges,
            e.u = u ∧ e.v = v) route :=
  findOptimalRoute_valid sampleEnv [⟨fin 0, fin 0⟩, ⟨fin 1, fin 0⟩, ⟨fin 2, fin 0⟩]
    none none 3 (buildGraph sampleEnv [⟨fin 0, fin 0⟩, ⟨fin 1, fin 0⟩, ⟨fin 2, fin 0⟩] 3)
    (by decide) rfl
    (by
      intro e he
      obtain ⟨hu, hv⟩ := buildGraph_edge_bounds sampleEnv _ 3 e he
      rw [buildGraph_edge_length sampleEnv _ 3 e he]
      refine sampleEnv_hav_finite _ ?_ e.u e.v hu hv
      intro w hw
      simp only [List.mem_cons, List.mem_singleton, List.not_mem_nil, or_false] at hw
      rcases hw with rfl | rfl | rfl
      · exact ⟨0, 0, rfl⟩
      · exact ⟨1, 0, rfl⟩
      · exact ⟨2, 0, rfl⟩)

/-- C22: whenever the search fails, `findOptimalRoute` raises nothing and returns the
two-node direct route `[0, nodeCount - 1]`.  The search fails when
`G.shortestPath(0, nodeCount - 1)` raises a failure, whichever it is, and in a graph
without nodes, where the end node `-1` is no node. -/
theorem findOptimalRoute_fallback (G : Graph) (err : JSError)
    (h : G.nodeCount = 0 ∨ G.shortestPath 0 (G.nodeCount - 1) = .error err) :
    findOptimalRoute G = [0, (G.nodeCount : Int) - 1] := by
  unfold findOptimalRoute
  by_cases h0 : (0 : Int) ≤ (G.nodeCount : Int) - 1
  · have h1 : ((G.nodeCount : Int) - 1).toNat = G.nodeCount - 1 := by omega
    rcases h with h | h
    · omega
    · simp only [h0, if_true, h1, h]
      rfl
  · simp only [h0, if_false]
    rfl

/-- Witness of C22: two nodes and no edge; the search from 0 finds no route to 1. -/
theorem findOptimalRoute_fallback_witness :
    (Graph.nodeCount ⟨[(0, ⟨fin 0, fin 0⟩), (1, ⟨fin 1, fin 0⟩)], []⟩ = 0
        ∨ Graph.shortestPath ⟨[(0, ⟨fin 0, fin 0⟩), (1, ⟨fin 1, fin 0⟩)], []⟩ 0
            (Graph.nodeCount ⟨[(0, ⟨fin 0, fin 0⟩), (1, ⟨fin 1, fin 0⟩)], []⟩ - 1)
          = .error .noPath)
      ∧ findOptimalRoute ⟨[(0, ⟨fin 0, fin 0⟩), (1, ⟨fin 1, fin 0⟩)], []⟩
          = [0, ((Graph.nodeCount ⟨[(0, ⟨fin 0, fin 0⟩), (1, ⟨fin 1, fin 0⟩)], []⟩ : Nat) : Int)
              - 1] :=
  ⟨Or.inr rfl,
    findOptimalRoute_fallback ⟨[(0, ⟨fin 0, fin 0⟩), (1, ⟨fin 1, fin 0⟩)], []⟩ .noPath
      (Or.inr rfl)⟩

/-! ## Radius queries with distinct ids -/

/-- With pairwise distinct ids, the lookup by id of a record of the list finds that
record. -/
theorem find_by_id (data : List Crime) (hd : (data.map (fun c => c.id)).Nodup) (c : Crime)
    (hc : c ∈ data) : data.find? (fun crime => crime.id = c.id) = some c := by
  induction data with
  | nil => simp at hc
  | cons a l ih =>
      rw [List.map_cons, List.nodup_cons] at hd
      rw [List.find?_cons]
      by_cases h : a.id = c.id
      · have hac : a = c := by
          rcases List.mem_cons.1 hc with rfl | hc'
          · rfl
          · exact absurd (List.mem_map.2 ⟨c, hc', h.symm⟩) hd.1
        simp [hac]
      · simp only [h, decide_False]
        rcases List.mem_cons.1 hc with rfl | hc'
        · exact absurd rfl h
        · exact ih hd.2 hc'

/-- A map into options that is defined on every element of the list filters nothing. -/
theorem filterMap_eq_map_of_some {α β : Type} (f : α → Option β) (g : α → β) (l : List α)
    (h : ∀ x ∈ l, f x = some (g x)) : l.filterMap f = l.map g := by
  induction l with
  | nil => rfl
  | cons a l ih =>
      rw [List.filterMap_cons, h a (List.mem_cons_self a l), List.map_cons,
        ih (fun x hx => h x (List.mem_cons_of_mem a hx))]

/-- The hits of the stand-in index are points of the tree. -/
theorem sampleEnv_nearest_mem (tree : KDTree) (x y : JSNum) (maxNodes : Nat)
    (maxDistance : JSNum) (entry : KDPoint × JSNum)
    (h : entry ∈ sampleEnv.nearest tree x y maxNodes maxDistance) : entry.1 ∈ tree.points := by
  have h1 := List.mem_of_mem_take h
  rw [List.mem_filterMap] at h1
  obtain ⟨p, hp, hpe⟩ := h1
  split at hpe
  · simp only at hpe
    split at hpe
    · injection hpe with hpe
      rw [← hpe]
      exact hp
    · cases hpe
  · cases hpe

/-- C29: for every `crimeData` list with pairwise distinct ids and a tree built from
that list (its points are the points `{x: lat, y: long, id}` of the list), the index
returning points of the tree, `findCrimesNear` returns, hit by hit and in hit order,
the record `{id, lat, long}` the hit point was built from, and that record is in
`crimeData`: no hit is dropped and none is replaced by another record. -/
theorem findCrimesNear_distinct_ids (env : Env) (lat lon radius : JSNum)
    (data : List Crime) (tree : KDTree)
    (hid : (data.map (fun c => c.id)).Nodup)
    (htree : tree.points = data.map (fun point => ⟨point.lat, point.long, point.id⟩))
    (hhits : ∀ entry ∈ env.nearest tree lat lon 50 radius, entry.1 ∈ tree.points) :
    findCrimesNear env lat lon radius (some data) (some tree)
        = (env.nearest tree lat lon 50 radius).map
            (fun entry => ⟨entry.1.id, entry.1.x, entry.1.y⟩)
      ∧ ∀ entry ∈ env.nearest tree lat lon 50 radius,
          (⟨entry.1.id, entry.1.x, entry.1.y⟩ : Crime) ∈ data := by
  have hrec : ∀ entry ∈ env.nearest tree lat lon 50 radius,
      (⟨entry.1.id, entry.1.x, entry.1.y⟩ : Crime) ∈ data := by
    intro entry he
    have hp := hhits entry he
    rw [htree] at hp
    obtain ⟨c, hc, hce⟩ := List.mem_map.1 hp
    rw [← hce]
    exact hc
  refine ⟨?_, hrec⟩
  unfold findCrimesNear
  simp only
  split
  · rename_i hlen
    have hnil : data = [] := List.length_eq_zero.1 hlen
    have hpts : tree.points = [] := by rw [htree, hnil]; rfl
    cases hq : env.nearest tree lat lon 50 radius with
    | nil => rfl
    | cons entry rest =>
        have := hhits entry (by rw [hq]; exact List.mem_cons_self _ _)
        rw [hpts] at this
        cases this
  · apply filterMap_eq_map_of_some
    intro entry he
    exact find_by_id data hid ⟨entry.1.id, entry.1.x, entry.1.y⟩ (hrec entry he)

/-- Witness of C29: two incidents with the ids `"a"` and `"b"`, a query at the second. -/
theorem findCrimesNear_distinct_ids_witness :
    findCrimesNear sampleEnv (fin 13) (fin 80) radiusKm
        (some [⟨.str "a", fin (132 / 10), fin (803 / 10)⟩, ⟨.str "b", fin 13, fin 80⟩])
        (some ⟨[⟨fin (132 / 10), fin (803 / 10), .str "a"⟩, ⟨fin 13, fin 80, .str "b"⟩]⟩)
        = (sampleEnv.nearest
            ⟨[⟨fin (132 / 10), fin (803 / 10), .str "a"⟩, ⟨fin 13, fin 80, .str "b"⟩]⟩
            (fin 13) (fin 80) 50 radiusKm).map
            (fun entry => ⟨entry.1.id, entry.1.x, entry.1.y⟩)
      ∧ ∀ entry ∈ sampleEnv.nearest
            ⟨[⟨fin (132 / 10), fin (803 / 10), .str "a"⟩, ⟨fin 13, fin 80, .str "b"⟩]⟩
            (fin 13) (fin 80) 50 radiusKm,
          (⟨entry.1.id, entry.1.x, entry.1.y⟩ : Crime)
            ∈ [⟨.str "a", fin (132 / 10), fin (803 / 10)⟩, ⟨.str "b", fin 13, fin 80⟩] :=
  findCrimesNear_distinct_ids sampleEnv (fin 13) (fin 80) radiusKm
    [⟨.str "a", fin (132 / 10), fin (803 / 10)⟩, ⟨.str "b", fin 13, fin 80⟩]
    ⟨[⟨fin (132 / 10), fin (803 / 10), .str "a"⟩, ⟨fin 13, fin 80, .str "b"⟩]⟩
    (by decide) rfl
    (fun entry h => sampleEnv_nearest_mem _ _ _ _ _ entry h)

/-! ## The sample of loadCrimeData -/

/-- The sampling loop returns what was sampled before it, followed by items of the
rest of the list, in their order. -/
theorem sampleItems_sublist (rand : Nat → JSNum) (sampleRate : JSNum) (maxPoints : Nat) :
    ∀ (l : List Crime) (k : Nat) (acc : List Crime),
      ∃ picked, sampleItems rand sampleRate maxPoints k l acc = acc ++ picked
        ∧ picked.Sublist l := by
  intro l
  induction l with
  | nil =>
      intro k acc
      exact ⟨[], by simp [sampleItems], List.Sublist.refl _⟩
  | cons item rest ih =>
      intro k acc
      unfold sampleItems
      simp only
      by_cases hlt : lt (rand k) sampleRate = true
      · simp only [hlt, if_true]
        split
        · exact ⟨[item], rfl, by simp⟩
        · obtain ⟨picked, hp, hs⟩ := ih (k + 1) (acc ++ [item])
          refine ⟨item :: picked, ?_, hs.cons₂ item⟩
          rw [hp]
          simp
      · have hf : lt (rand k) sampleRate = false := by simpa using hlt
        simp only [hf, Bool.false_eq_true, if_false]
        split
        · exact ⟨[], by simp, List.nil_sublist _⟩
        · obtain ⟨picked, hp, hs⟩ := ih (k + 1) acc
          exact ⟨picked, hp, hs.cons item⟩

/-- The sampling loop, entered with fewer than `maxPoints` items sampled, ends with at
most `maxPoints`. -/
theorem sampleItems_length (rand : Nat → JSNum) (sampleRate : JSNum) (maxPoints : Nat) :
    ∀ (l : List Crime) (k : Nat) (acc : List Crime), acc.length < maxPoints →
      (sampleItems rand sampleRate maxPoints k l acc).length ≤ maxPoints := by
  intro l
  induction l with
  | nil =>
      intro k acc h
      simp only [sampleItems]
      omega
  | cons item rest ih =>
      intro k acc h
      unfold sampleItems
      simp only
      by_cases hlt : lt (rand k) sampleRate = true
      · simp only [hlt, if_true]
        split
        · simp only [List.length_append, List.length_singleton]
          omega
        · rename_i hge
          exact ih (k + 1) _ (by omega)
      · have hf : lt (rand k) sampleRate = false := by simpa using hlt
        simp only [hf, Bool.false_eq_true, if_false]
        split
        · omega
        · exact ih (k + 1) _ h

/-- C27: for every list of loaded incident rows, every non-negative integer
`maxPoints` and every sequence of draws of `Math.random()` (numbers in `[0, 1)`), the
sampled list of `loadCrimeData` is an order-preserving subsequence of the input; its
length is at most `maxPoints` when the input is longer than `maxPoints`, and it is the
whole input otherwise. -/
theorem sampleData_subsequence (rand : Nat → JSNum) (crimeData : List Crime)
    (maxPoints : Nat) (hr : ∀ k, ∃ r, 0 ≤ r ∧ r < 1 ∧ rand k = fin r) :
    (sampleData rand crimeData maxPoints).Sublist crimeData
      ∧ (crimeData.length > maxPoints →
          (sampleData rand crimeData maxPoints).length ≤ maxPoints)
      ∧ (crimeData.length ≤ maxPoints → sampleData rand crimeData maxPoints = crimeData) := by
  refine ⟨?_, ?_, ?_⟩
  · unfold sampleData
    split
    · obtain ⟨picked, hp, hs⟩ := sampleItems_sublist rand
        (ofNat maxPoints / ofNat crimeData.length) maxPoints crimeData 0 []
      simp only
      rw [hp]
      exact hs
    · exact List.Sublist.refl _
  · intro hgt
    unfold sampleData
    rw [if_pos hgt]
    simp only
    rcases Nat.eq_zero_or_pos maxPoints with h0 | hpos
    · subst h0
      cases crimeData with
      | nil => simp at hgt
      | cons item rest =>
          obtain ⟨r, hr0, _, hrk⟩ := hr 0
          have hrate : ofNat 0 / ofNat (item :: rest).length = fin 0 := by
            simp only [ofNat_eq, List.length_cons]
            rw [fin_div_fin _ _ (Nat.cast_ne_zero.2 (Nat.succ_ne_zero rest.length))]
            simp
          rw [hrate]
          unfold sampleItems
          have hlt : lt (rand 0) (fin 0) = false := by
            rw [hrk]
            simp [lt, hr0]
          simp [hlt]
    · exact sampleItems_length rand _ maxPoints crimeData 0 [] (by simpa using hpos)
  · intro hle
    unfold sampleData
    rw [if_neg (by omega)]

/-- Witness of C27: three rows, `maxPoints = 2`, every draw 0.5. -/
theorem sampleData_subsequence_witness :
    (sampleData (fun _ => fin (1 / 2))
        [⟨.num 0, fin 13, fin 80⟩, ⟨.num 1, fin 13, fin 80⟩, ⟨.num 2, fin 13, fin 80⟩] 2).Sublist
        [⟨.num 0, fin 13, fin 80⟩, ⟨.num 1, fin 13, fin 80⟩, ⟨.num 2, fin 13, fin 80⟩]
      ∧ (([⟨.num 0, fin 13, fin 80⟩, ⟨.num 1, fin 13, fin 80⟩, ⟨.num 2, fin 13, fin 80⟩] :
            List Crime).length > 2 →
          (sampleData (fun _ => fin (1 / 2))
            [⟨.num 0, fin 13, fin 80⟩, ⟨.num 1, fin 13, fin 80⟩, ⟨.num 2, fin 13, fin 80⟩]
            2).length ≤ 2)
      ∧ (([⟨.num 0, fin 13, fin 80⟩, ⟨.num 1, fin 13, fin 80⟩, ⟨.num 2, fin 13, fin 80⟩] :
            List Crime).length ≤ 2 →
          sampleData (fun _ => fin (1 / 2))
            [⟨.num 0, fin 13, fin 80⟩, ⟨.num 1, fin 13, fin 80⟩, ⟨.num 2, fin 13, fin 80⟩] 2
            = [⟨.num 0, fin 13, fin 80⟩, ⟨.num 1, fin 13, fin 80⟩, ⟨.num 2, fin 13, fin 80⟩]) :=
  sampleData_subsequence (fun _ => fin (1 / 2))
    [⟨.num 0, fin 13, fin 80⟩, ⟨.num 1, fin 13, fin 80⟩, ⟨.num 2, fin 13, fin 80⟩] 2
    (fun _ => ⟨1 / 2, by norm_num, by norm_num, rfl⟩)

/-! ## The two copies of generateWaypoints -/

/-- C30: for four coordinates none of which is `NaN` (after `parseFloat`), every
`numPoints` and the same sequence of random draws, `generateWaypoints` of `server.js`
returns, without raising an error, the waypoint sequence that `generateWaypoints` of
`uploads/api/route.js` returns. -/
theorem generateWaypoints_same_in_both (env : Env) (rand : Nat → JSNum)
    (srcLat srcLon dstLat dstLon : JSNum) (numPoints : Nat)
    (h : (isNaN srcLat || isNaN srcLon || isNaN dstLat || isNaN dstLon) = false) :
    generateWaypoints env rand srcLat srcLon dstLat dstLon numPoints
      = .ok (RouteJs.generateWaypoints env rand srcLat srcLon dstLat dstLon numPoints) := by
  rw [generateWaypoints_of_not_nan env rand _ _ _ _ numPoints h]
  simp only [RouteJs.generateWaypoints, parseFloat, h]
  rfl

/-- Witness of C30: from `(0, 0)` to `(1, 1)`, eight points, every draw 0.5. -/
theorem generateWaypoints_same_in_both_witness :
    generateWaypoints sampleEnv (fun _ => fin (1 / 2)) (fin 0) (fin 0) (fin 1) (fin 1) 8
      = .ok (RouteJs.generateWaypoints sampleEnv (fun _ => fin (1 / 2)) (fin 0) (fin 0)
          (fin 1) (fin 1) 8) :=
  generateWaypoints_same_in_both sampleEnv (fun _ => fin (1 / 2)) (fin 0) (fin 0) (fin 1)
    (fin 1) 8 rfl

/-! ## The checks of the /api/route handler -/

/-- C24 at failing inputs.  In `server.js` a request with the source latitude 200 (all
four fields present and non-zero) passes the only test of the handler and reaches
`generateWaypoints` with the latitude 200.  In the snapshot
`server_20250415010340.js`, which tests the ranges, a request whose source latitude is
`true` is read by `parseFloat` as `NaN`, passes every comparison of the range test, and
reaches `generateWaypoints` with a latitude that is not finite. -/
theorem route_handler_admits_invalid (parseString : String → JSNum) :
    routeHandler parseString
        ⟨.num (fin 200), .num (fin (802 / 10)), .num (fin 13), .num (fin (803 / 10))⟩
        = .compute (fin 200) (fin (802 / 10)) (fin 13) (fin (803 / 10))
      ∧ lt (fin 90) (fin 200) = true
      ∧ routeHandlerRanged parseString
          ⟨.bool true, .num (fin (802 / 10)), .num (fin 13), .num (fin (803 / 10))⟩
          = .compute nan (fin (802 / 10)) (fin 13) (fin (803 / 10))
      ∧ isFinite nan = false := by
  refine ⟨?_, by decide, ?_, rfl⟩
  · simp only [routeHandler, JSVal.truthy, isNaN, parseFloatOf, parseFloat]
    norm_num
  · simp only [routeHandlerRanged, JSVal.truthy, isNaN, parseFloatOf, parseFloat, lt, gt]
    norm_num

/-- C28 at a failing input: a request in which all four fields are present and the
source latitude is the number 0 is answered 400 `Missing required coordinates`,
because `!sourceLat` is true for the number 0. -/
theorem zero_coordinate_rejected_as_missing (parseString : String → JSNum) :
    routeHandler parseString
        ⟨.num (fin 0), .num (fin (802 / 10)), .num (fin 13), .num (fin (803 / 10))⟩
        = .status400 "Missing required coordinates"
      ∧ JSVal.num (fin 0) ≠ .undefined := by
  refine ⟨?_, by decide⟩
  simp only [routeHandler, JSVal.truthy, isNaN, parseFloatOf, parseFloat]
  norm_num

/-! ## The distance of a route -/

/-- C25, as stated, fails: two waypoints 0.2 degrees of longitude apart, one incident at
the middle of the edge between them and an index that holds the incident.  The
haversine distance of the route `[0, 1]` is 22.264 km, the edge is stored with five
times its length, and `calculateRouteDistance` returns 111.32. -/
theorem calculateRouteDistance_counts_penalty :
    ∃ G, createWaypointGraph sampleEnv [⟨fin 13, fin 80⟩, ⟨fin 13, fin (401 / 5)⟩]
          (some [⟨.num 0, fin 13, fin (801 / 10)⟩])
          (some ⟨[⟨fin 13, fin (801 / 10), .num 0⟩]⟩) 3 = .ok G
      ∧ (∃ e ∈ G.edges, e.u = 0 ∧ e.v = 1)
      ∧ calculateRouteDistance G [0, 1] = fin (11132 / 100)
      ∧ haversineTotal sampleEnv [⟨fin 13, fin 80⟩, ⟨fin 13, fin (401 / 5)⟩] (fin 0) [0, 1]
          / fin 1000 = fin (2783 / 125) := by
  have hb : buildGraph sampleEnv [⟨fin 13, fin 80⟩, ⟨fin 13, fin (401 / 5)⟩] 3
      = ⟨[(0, ⟨fin 13, fin 80⟩), (1, ⟨fin 13, fin (401 / 5)⟩)],
          [⟨0, 1, ⟨fin 22264, .primary⟩⟩]⟩ := by
    rw [buildGraph_eq]
    have h1 : hav sampleEnv (wp [⟨fin 13, fin 80⟩, ⟨fin 13, fin (401 / 5)⟩] 0)
        (wp [⟨fin 13, fin 80⟩, ⟨fin 13, fin (401 / 5)⟩] 1) = fin 22264 := by
      simp only [hav, wp, List.getD_cons_zero, List.getD_cons_succ, sampleEnv]
      norm_num [abs_of_nonneg]
    have hp : primaryEdges sampleEnv [⟨fin 13, fin 80⟩, ⟨fin 13, fin (401 / 5)⟩]
        = [⟨0, 1, ⟨fin 22264, .primary⟩⟩] := by
      rw [← h1]
      rfl
    have hs : secondaryEdges sampleEnv [⟨fin 13, fin 80⟩, ⟨fin 13, fin (401 / 5)⟩] 3 = [] := by
      simp [secondaryEdges, secondaryRow, forwardTargets, maxForwardSkip, List.range_succ]
    rw [hp, hs]
    rfl
  have hfar : ∀ t : ℚ, t = 1 / 4 ∨ t = 3 / 4 →
      specPointPenalty sampleEnv (some [⟨.num 0, fin 13, fin (801 / 10)⟩])
        (some ⟨[⟨fin 13, fin (801 / 10), .num 0⟩]⟩)
        (samplePoint ⟨fin 13, fin 80⟩ ⟨fin 13, fin (401 / 5)⟩ t) = fin 1 := by
    intro t ht
    apply specPointPenalty_far
    intro data hd c hc
    injection hd with hd
    subst hd
    rw [List.mem_singleton] at hc
    subst hc
    rcases ht with rfl | rfl <;>
      (simp only [distKm, samplePoint, fin_sub_fin, fin_mul_fin, fin_add_fin, sampleEnv,
        radiusKm]
       rw [fin_div_fin _ _ (by norm_num)]
       simp only [lt, decide_eq_true_eq]
       norm_num [abs_of_nonneg, abs_of_nonpos])
  have hs : samplePoint ⟨fin 13, fin 80⟩ ⟨fin 13, fin (401 / 5)⟩ (1 / 2)
      = ⟨fin 13, fin (801 / 10)⟩ := by
    simp only [samplePoint, fin_sub_fin, fin_mul_fin, fin_add_fin]
    norm_num
  have hq : findCrimesNear sampleEnv (fin 13) (fin (801 / 10)) radiusKm
      (some [⟨.num 0, fin 13, fin (801 / 10)⟩])
      (some ⟨[⟨fin 13, fin (801 / 10), .num 0⟩]⟩)
      = [⟨.num 0, fin 13, fin (801 / 10)⟩] := by
    simp only [findCrimesNear, List.length_singleton, one_ne_zero, if_false,
      List.map_cons, List.map_nil, sampleEnv, List.filterMap_cons, List.filterMap_nil,
      sub_self, abs_zero, add_zero, mul_zero, radiusKm, lt]
    norm_num
    rfl
  have hmid : specPointPenalty sampleEnv (some [⟨.num 0, fin 13, fin (801 / 10)⟩])
      (some ⟨[⟨fin 13, fin (801 / 10), .num 0⟩]⟩)
      (samplePoint ⟨fin 13, fin 80⟩ ⟨fin 13, fin (401 / 5)⟩ (1 / 2)) = fin 5 := by
    rw [hs]
    have hm : minDistTo sampleEnv ⟨fin 13, fin (801 / 10)⟩ [⟨.num 0, fin 13, fin (801 / 10)⟩]
        = fin 0 := by
      simp only [minDistTo, List.foldl_cons, List.foldl_nil, sampleEnv, sub_self, abs_zero,
        add_zero, mul_zero]
      rw [fin_div_fin _ _ (by norm_num)]
      simp [JSNum.min, lt]
    unfold specPointPenalty
    simp only [hq, hm]
    rw [if_pos ⟨by simp, by simp [radiusKm, lt]⟩]
    simp only [radiusKm, fin_sub_fin]
    rw [fin_div_fin _ _ (by norm_num), fin_mul_fin, fin_add_fin]
    norm_num
  have hP : specEdgePenalty sampleEnv (some [⟨.num 0, fin 13, fin (801 / 10)⟩])
      (some ⟨[⟨fin 13, fin (801 / 10), .num 0⟩]⟩)
      ⟨fin 13, fin 80⟩ ⟨fin 13, fin (401 / 5)⟩ = fin 5 := by
    unfold specEdgePenalty
    rw [hfar _ (Or.inl rfl), hfar _ (Or.inr rfl), hmid]
    simp [JSNum.max, lt]
  refine ⟨_, returned_graph_scaled sampleEnv _ _ _ 3, ?_, ?_, ?_⟩
  · rw [hb]
    exact ⟨_, List.mem_map.2 ⟨_, List.mem_singleton.2 rfl, rfl⟩, rfl, rfl⟩
  · rw [hb]
    simp only [List.map_cons, List.map_nil, wp, List.getD_cons_zero, List.getD_cons_succ, hP,
      scaleEdge, fin_mul_fin, calculateRouteDistance, routeTotal, Graph.getEdge,
      List.find?_cons, Edge.key, decide_True, Option.map_some', fin_add_fin]
    rw [fin_div_fin _ _ (by norm_num)]
    norm_num
  · simp only [haversineTotal, hav, wp, List.getD_cons_zero, List.getD_cons_succ, sampleEnv,
      fin_add_fin]
    rw [fin_div_fin _ _ (by norm_num)]
    norm_num [abs_of_nonneg]

/-! ## The URL of a route -/

/-- The strings of `createGoogleMapsUrl` are those of the waypoints the handler
extracts, and both loops fail on the same routes. -/
theorem pathCoords_eq (toStr : JSNum → String) (G : Graph) (route : List Nat) :
    pathCoords toStr G route
      = (routeWaypoints G route).map
          (List.map (fun w => toStr w.lat ++ "," ++ toStr w.lon)) := by
  induction route with
  | nil => rfl
  | cons nodeId rest ih =>
      unfold pathCoords routeWaypoints
      cases G.getNode nodeId with
      | none => rfl
      | some node =>
          simp only [ih]
          cases routeWaypoints G rest <;> rfl

/-- A route through nodes of the graph has its waypoints extracted without failure. -/
theorem routeWaypoints_ok (G : Graph) (route : List Nat)
    (h : ∀ nodeId ∈ route, ∃ node, G.getNode nodeId = some node) :
    ∃ wps, routeWaypoints G route = .ok wps ∧ wps.length = route.length := by
  induction route with
  | nil => exact ⟨[], rfl, rfl⟩
  | cons nodeId rest ih =>
      obtain ⟨node, hnode⟩ := h nodeId (List.mem_cons_self nodeId rest)
      obtain ⟨wps, hw, hl⟩ := ih (fun x hx => h x (List.mem_cons_of_mem nodeId hx))
      refine ⟨⟨node.y, node.x⟩ :: wps, ?_, by simp [hl]⟩
      unfold routeWaypoints
      simp only [hnode, hw]

/-- Joining with a separator and closing with it is appending every element followed
by the separator. -/
theorem join_go_eq_foldl (base sep : String) (f : Waypoint → String) (l : List Waypoint) :
    ∀ acc, base ++ String.intercalate.go acc sep (l.map f) ++ sep
      = l.foldl (fun u w => u ++ (f w ++ sep)) (base ++ (acc ++ sep)) := by
  induction l with
  | nil =>
      intro acc
      simp only [List.map_nil, String.intercalate.go, List.foldl_nil, String.append_assoc]
  | cons a l ih =>
      intro acc
      simp only [List.map_cons, String.intercalate.go, List.foldl_cons]
      rw [ih]
      simp only [String.append_assoc]

/-- C26, as stated, fails for the empty route: `createGoogleMapsUrl` closes the base URL
with a second slash, the handler leaves the base URL as it is. -/
theorem empty_route_urls_differ :
    createGoogleMapsUrl (fun _ => "0") chainGraph [] = "https://www.google.com/maps/dir//"
      ∧ inlineUrl (fun _ => "0") chainGraph [] = .ok "https://www.google.com/maps/dir/"
      ∧ "https://www.google.com/maps/dir//" ≠ "https://www.google.com/maps/dir/" :=
  ⟨by decide, rfl, by decide⟩

/-- C26, amended: for every graph `G` and every non-empty route through node ids of
`G`, the handler builds its URL without failure and `createGoogleMapsUrl(G, route)`
equals it: the fixed base URL followed by `lat,lon/` for each route node in order. -/
theorem createGoogleMapsUrl_eq_inline (toStr : JSNum → String) (G : Graph)
    (route : List Nat) (hne : route ≠ [])
    (h : ∀ nodeId ∈ route, ∃ node, G.getNode nodeId = some node) :
    inlineUrl toStr G route = .ok (createGoogleMapsUrl toStr G route) := by
  obtain ⟨wps, hw, hl⟩ := routeWaypoints_ok G route h
  unfold inlineUrl createGoogleMapsUrl
  rw [pathCoords_eq, hw]
  simp only [Except.map]
  congr 1
  cases wps with
  | nil =>
      cases route with
      | nil => exact absurd rfl hne
      | cons a l => simp at hl
  | cons w rest =>
      simp only [List.map_cons, String.intercalate, List.foldl_cons]
      exact (join_go_eq_foldl baseUrl "/" _ rest _).symm

/-- Witness of the amended C26: the route `[0, 2]` in `chainGraph`. -/
theorem createGoogleMapsUrl_eq_inline_witness :
    inlineUrl (fun x => if x = fin 0 then "0" else "1") chainGraph [0, 2]
      = .ok (createGoogleMapsUrl (fun x => if x = fin 0 then "0" else "1") chainGraph [0, 2]) :=
  createGoogleMapsUrl_eq_inline _ chainGraph [0, 2] (by decide)
    (by
      intro nodeId hn
      simp only [List.mem_cons, List.mem_singleton, List.not_mem_nil, or_false] at hn
      rcases hn with rfl | rfl
      · exact ⟨_, rfl⟩
      · exact ⟨_, rfl⟩)

/-! ## The cost of the route of a request -/

/-- Two step functions that agree on the elements of a list fold it to the same value. -/
theorem foldl_congr_mem {α β : Type} (f g : β → α → β) (l : List α)
    (h : ∀ b, ∀ a ∈ l, f b a = g b a) : ∀ b, l.foldl f b = l.foldl g b := by
  induction l with
  | nil => intro b; rfl
  | cons a l ih =>
      intro b
      rw [List.foldl_cons, List.foldl_cons, h b a (List.mem_cons_self a l)]
      exact ih (fun b x hx => h b x (List.mem_cons_of_mem a hx)) _

/-- The running total along a run of consecutive nodes adds the lengths of its steps. -/
theorem pathWeightFrom_range' (G : Graph) : ∀ (k s : Nat) (total : JSNum),
    pathWeightFrom G total (List.range' s (k + 1))
      = (List.range' s k).foldl (fun tot i => tot + edgeLength G i (i + 1)) total := by
  intro k
  induction k with
  | zero => intro s total; rfl
  | succ k ih =>
      intro s total
      rw [List.range'_succ s (k + 1), List.range'_succ (s + 1) k, pathWeightFrom,
        ← List.range'_succ (s + 1) k, ih (s + 1), List.range'_succ s k, List.foldl_cons]

/-- The weight of the primary path in the graph before penalties is the sum of the
haversine distances between consecutive waypoints. -/
theorem pathWeight_primary (env : Env) (ws : List Waypoint) (nc : Int) :
    pathWeight (buildGraph env ws nc) (List.range ws.length) = primaryCost env ws := by
  unfold pathWeight primaryCost
  rcases Nat.eq_zero_or_pos ws.length with h0 | hpos
  · rw [h0]
    rfl
  · obtain ⟨n, hn⟩ : ∃ n, ws.length = n + 1 := ⟨ws.length - 1, by omega⟩
    rw [hn, List.range_eq_range', pathWeightFrom_range', Nat.add_sub_cancel,
      List.range_eq_range']
    apply foldl_congr_mem
    intro b i hi
    rw [List.mem_range'_1] at hi
    have hmem : primaryEdge env ws i ∈ (buildGraph env ws nc).edges := by
      rw [mem_buildGraph_edges]
      exact Or.inl ⟨i, by omega, rfl⟩
    have := edgeLength_of_mem _ (buildGraph_nodup_keys env ws nc) _ hmem
    simp only [primaryEdge] at this
    rw [this]

/-- When every sample point of every edge is farther than the radius from every
incident, `createWaypointGraph` returns the graph as built before penalties. -/
theorem createWaypointGraph_far (env : Env) (ws : List Waypoint) (cd : Option (List Crime))
    (tree : Option KDTree) (nc : Int)
    (hfar : ∀ data, cd = some data → ∀ c ∈ data, ∀ e ∈ (buildGraph env ws nc).edges,
      ∀ t ∈ [(1 / 4 : ℚ), 1 / 2, 3 / 4],
        lt radiusKm (distKm env (samplePoint (wp ws e.u) (wp ws e.v) t) c) = true) :
    createWaypointGraph env ws cd tree nc = .ok (buildGraph env ws nc) := by
  rw [returned_graph_scaled]
  congr 1
  have hmap : (buildGraph env ws nc).edges.map (fun e =>
      scaleEdge e (specEdgePenalty env cd tree (wp ws e.u) (wp ws e.v)))
      = (buildGraph env ws nc).edges := by
    conv_rhs => rw [← List.map_id (buildGraph env ws nc).edges]
    apply List.map_congr_left
    intro e he
    exact scaleEdge_far env cd tree _ _ e (fun data hd c hc t ht => hfar data hd c hc e he t ht)
  rw [hmap]

/-- Finite non-negative haversine distances between the waypoints give the graph before
penalties finite non-negative weights. -/
theorem buildGraph_finite_weights (env : Env) (ws : List Waypoint) (nc : Int)
    (hW : ∀ i j, i < ws.length → j < ws.length →
      ∃ w, 0 ≤ w ∧ hav env (wp ws i) (wp ws j) = fin w) :
    ∀ e ∈ (buildGraph env ws nc).edges, ∃ w, 0 ≤ w ∧ e.data.length = fin w := by
  intro e he
  obtain ⟨hu, hv⟩ := buildGraph_edge_bounds env ws nc e he
  rw [buildGraph_edge_length env ws nc e he]
  exact hW e.u e.v hu hv

/-- The list `generateWaypoints` returns has at least two waypoints. -/
theorem generateWaypoints_two (env : Env) (rand : Nat → JSNum)
    (srcLat srcLon dstLat dstLon : JSNum) (numPoints : Nat) (ws : List Waypoint)
    (h : generateWaypoints env rand srcLat srcLon dstLat dstLon numPoints = .ok ws) :
    2 ≤ ws.length := by
  unfold generateWaypoints at h
  simp only at h
  split at h
  · injection h with h
    rw [← h]
    simp
  · injection h with h
    rw [← h]
    simp

/-- The parts of a request that the handler computed. -/
theorem handlerRoute_ok (env : Env) (rand : Nat → JSNum) (cd : Option (List Crime))
    (tree : Option KDTree) (sourceLat sourceLon destLat destLon : JSNum)
    (ws : List Waypoint) (G : Graph) (route : List Int)
    (h : handlerRoute env rand cd tree sourceLat sourceLon destLat destLon
      = .ok (ws, G, route)) :
    generateWaypoints env rand sourceLat sourceLon destLat destLon 8 = .ok ws
      ∧ createWaypointGraph env ws cd tree 3 = .ok G ∧ route = findOptimalRoute G := by
  unfold handlerRoute at h
  cases hg : generateWaypoints env rand sourceLat sourceLon destLat destLon 8 with
  | error err => rw [hg] at h; cases h
  | ok ws' =>
      rw [hg] at h
      simp only at h
      cases hc : createWaypointGraph env ws' cd tree 3 with
      | error err => rw [hc] at h; cases h
      | ok G' =>
          rw [hc] at h
          simp only at h
          injection h with h
          injection h with h1 h2
          injection h2 with h2 h3
          subst h1
          subst h2
          exact ⟨rfl, hc, h3.symm⟩

/-- With the index `createKDTree` returns, `createWaypointGraph` returns the graph as
built before penalties, whatever the incident data. -/
theorem createWaypointGraph_no_index (env : Env) (ws : List Waypoint)
    (cd cd' : Option (List Crime)) (nc : Int) :
    createWaypointGraph env ws cd (createKDTree cd') nc = .ok (buildGraph env ws nc) := by
  rw [createKDTree_none, createWaypointGraph_eq]
  unfold applyPenalties
  cases cd <;> rfl

/-- C23, amended: for every source/destination pair for which the haversine distances
between the waypoints are finite and non-negative, and every set of incident points (so
for every set of 10 incident points each at least 5 km from the straight
source-destination line), with the index `createKDTree` returns for the incidents, the
cost of the route computed by `generateWaypoints` -> `createWaypointGraph` ->
`findOptimalRoute` is at most the cost of the unpenalized primary path
`0, 1, ..., N-1` (the sum of the haversine distances between consecutive waypoints). -/
theorem route_cost_le_primary (env : Env) (rand : Nat → JSNum) (cd : Option (List Crime))
    (sourceLat sourceLon destLat destLon : JSNum)
    (ws : List Waypoint) (G : Graph) (route : List Int)
    (h : handlerRoute env rand cd (createKDTree cd) sourceLat sourceLon destLat destLon
      = .ok (ws, G, route))
    (hW : ∀ i j, i < ws.length → j < ws.length →
      ∃ w, 0 ≤ w ∧ hav env (wp ws i) (wp ws j) = fin w) :
    ∃ (r : List Nat) (x y : ℚ), route = r.map Int.ofNat ∧ pathWeight G r = fin x
      ∧ primaryCost env ws = fin y ∧ x ≤ y := by
  obtain ⟨hg, hc, hr⟩ := handlerRoute_ok env rand cd (createKDTree cd) _ _ _ _ ws G route h
  have hN := generateWaypoints_two env rand _ _ _ _ 8 ws hg
  have hGb : G = buildGraph env ws 3 := by
    have := createWaypointGraph_no_index env ws cd cd 3
    rw [hc] at this
    injection this
  obtain ⟨hids, hk, hinc, hprim, _⟩ :=
    returned_graph_shape env ws cd (createKDTree cd) 3 G hc
  have hWG : ∀ e ∈ G.edges, ∃ w, 0 ≤ w ∧ e.data.length = fin w := by
    rw [hGb]
    exact buildGraph_finite_weights env ws 3 hW
  have hcount : G.nodeCount = ws.length := by
    have := congrArg List.length hids
    simpa [Graph.nodeIds, Graph.nodeCount] using this
  obtain ⟨n, hn⟩ : ∃ n, ws.length = n + 1 := ⟨ws.length - 1, by omega⟩
  have hpc := pathWeight_primary env ws 3
  rw [← hGb] at hpc
  rw [hn] at hids hprim hcount hpc
  obtain ⟨h0, hl⟩ := range_succ_path n
  have hchain : List.Chain' (fun a b => ∃ e ∈ G.edges, e.u = a ∧ e.v = b)
      (List.range (n + 1)) := by
    rw [List.chain'_range_succ]
    intro m hm
    exact hprim m (by omega)
  obtain ⟨r, a, b, hroute, _, _, _, ha, hb, hab, _⟩ := shortestPath_of_path G 0 n hWG hk
    (fun e he => (hinc e he).1) (by omega) (List.range (n + 1)) h0 hl
    (fun y hy => by rw [hids]; exact hy) hchain
  refine ⟨r, a, b, ?_, ha, ?_, hab⟩
  · rw [hr]
    apply findOptimalRoute_of_ok G _ (by omega)
    rw [hcount]
    exact hroute
  · rw [← hpc]
    exact hb

/-- The waypoint of iteration `i` on the way from `(0, 0)` to `(0, 9)`, in the stand-in
environment. -/
theorem jitter_intermediate (i : Nat) (r : ℚ) :
    intermediate sampleEnv (fin 0) (fin 0) (fin 0) (fin 9) 8 i (fin r)
      = ⟨fin (-((r * 2 - 1) * (27 / 100) * (4 * ((i : ℚ) / 9) * (1 - (i : ℚ) / 9)))),
          fin (i : ℚ)⟩ := by
  have hD : sampleEnv.haversine (fin 0) (fin 0) (fin 0) (fin 9) = fin 1001880 := by
    simp [sampleEnv]
    norm_num [abs_of_nonneg]
  have hs : sampleEnv.sqrt (fin (((9 : ℚ) - 0) ^ 2 + (0 - 0) ^ 2)) = fin 9 := by
    have h81 : ((9 : ℚ) - 0) ^ 2 + (0 - 0) ^ 2 = 9 * 9 := by norm_num
    have hsq : Rat.sqrt (9 * 9) = 9 := by rw [Rat.sqrt_eq]; norm_num [abs_of_nonneg]
    rw [h81]
    simp only [sampleEnv]
    rw [if_pos (by norm_num), hsq]
  rw [intermediate_closed_form sampleEnv 0 0 0 9 8 i r 1001880 9 1 hD hs (by norm_num) rfl
    one_ne_zero]
  congr 2
  · norm_num
    ring
  · norm_num
    ring

/-- The waypoints of the request from `(0, 0)` to `(0, 9)` with the draws `jitterDraws`. -/
theorem jitter_generateWaypoints :
    generateWaypoints sampleEnv jitterDraws (fin 0) (fin 0) (fin 0) (fin 9) 8
      = .ok jitterWaypoints := by
  rw [generateWaypoints_of_not_nan sampleEnv jitterDraws (fin 0) (fin 0) (fin 0) (fin 9) 8 rfl]
  have hr : List.range 8 = [0, 1, 2, 3, 4, 5, 6, 7] := by decide
  rw [hr]
  simp only [List.map_cons, List.map_nil, jitterDraws]
  simp only [jitterWaypoints, List.cons_append, List.nil_append, List.singleton_append]
  norm_num
  refine ⟨?_, ?_, ?_, ?_, ?_, ?_, ?_, ?_⟩ <;> (rw [jitter_intermediate]; norm_num)

/-- Every waypoint of `jitterWaypoints` has finite coordinates and a latitude between
`-0.1` and `0`. -/
theorem jitterWaypoints_box (w : Waypoint) (hw : w ∈ jitterWaypoints) :
    ∃ a b, w = ⟨fin a, fin b⟩ ∧ -(1 / 10) ≤ a ∧ a ≤ 0 := by
  simp only [jitterWaypoints, List.mem_cons, List.mem_singleton, List.not_mem_nil,
    or_false] at hw
  rcases hw with rfl | rfl | rfl | rfl | rfl | rfl | rfl | rfl | rfl | rfl <;>
    exact ⟨_, _, rfl, by norm_num, by norm_num⟩

/-- In the stand-in environment an incident at latitude 1 is farther than the radius
from every point of a segment whose endpoints have latitudes between `-0.1` and `0`. -/
theorem sampleEnv_far_north (a b a' b' y t : ℚ) (id : CrimeId)
    (ha : -(1 / 10) ≤ a ∧ a ≤ 0) (ha' : -(1 / 10) ≤ a' ∧ a' ≤ 0)
    (ht : 0 ≤ t ∧ t ≤ 1) :
    lt radiusKm (distKm sampleEnv (samplePoint ⟨fin a, fin b⟩ ⟨fin a', fin b'⟩ t)
      ⟨id, fin 1, fin y⟩) = true := by
  simp only [distKm, samplePoint, fin_sub_fin, fin_mul_fin, fin_add_fin, sampleEnv, radiusKm]
  rw [fin_div_fin _ _ (by norm_num)]
  simp only [lt, decide_eq_true_eq]
  have hs : a + (a' - a) * t ≤ 0 := by nlinarith [ha.2, ha'.2, ht.1, ht.2]
  have h1 : (1 : ℚ) ≤ |1 - (a + (a' - a) * t)| := by
    rw [abs_of_nonneg (by linarith)]
    linarith
  have h2 : (0 : ℚ) ≤ |y - (b + (b' - b) * t)| := abs_nonneg _
  linarith

/-- The hypotheses of the amended C23 at the request from `(0, 0)` to `(0, 9)`: no
sample point of an edge is within the radius of an incident of `farIncidents`. -/
theorem jitter_far (data : List Crime) (hd : some farIncidents = some data) (c : Crime)
    (hc : c ∈ data) (e : Edge) (he : e ∈ (buildGraph sampleEnv jitterWaypoints 3).edges)
    (t : ℚ) (ht : t ∈ [(1 / 4 : ℚ), 1 / 2, 3 / 4]) :
    lt radiusKm (distKm sampleEnv
      (samplePoint (wp jitterWaypoints e.u) (wp jitterWaypoints e.v) t) c) = true := by
  injection hd with hd
  subst hd
  obtain ⟨hu, hv⟩ := buildGraph_edge_bounds sampleEnv jitterWaypoints 3 e he
  obtain ⟨a, b, hab, ha⟩ := jitterWaypoints_box (wp jitterWaypoints e.u)
    (by rw [wp_eq _ _ hu]; exact List.getElem_mem hu)
  obtain ⟨a', b', hab', ha'⟩ := jitterWaypoints_box (wp jitterWaypoints e.v)
    (by rw [wp_eq _ _ hv]; exact List.getElem_mem hv)
  simp only [farIncidents, List.mem_map, List.mem_range] at hc
  obtain ⟨k, _, rfl⟩ := hc
  rw [hab, hab']
  apply sampleEnv_far_north _ _ _ _ _ _ _ ha ha'
  simp only [List.mem_cons, List.mem_singleton, List.not_mem_nil, or_false] at ht
  rcases ht with rfl | rfl | rfl <;> norm_num

/-- The haversine distances between the waypoints of `jitterWaypoints` are finite and
non-negative. -/
theorem jitter_finite (i j : Nat) (hi : i < jitterWaypoints.length)
    (hj : j < jitterWaypoints.length) :
    ∃ w, 0 ≤ w ∧ hav sampleEnv (wp jitterWaypoints i) (wp jitterWaypoints j) = fin w :=
  sampleEnv_hav_finite jitterWaypoints
    (fun w hw => by
      obtain ⟨a, b, hab, _⟩ := jitterWaypoints_box w hw
      exact ⟨a, b, hab⟩) i j hi hj

/-- The request from `(0, 0)` to `(0, 9)` with the draws `jitterDraws` and the incidents
`farIncidents`: the handler computes the waypoints `jitterWaypoints`, the graph before
penalties and its route. -/
theorem jitter_handlerRoute :
    handlerRoute sampleEnv jitterDraws (some farIncidents) (createKDTree (some farIncidents))
        (fin 0) (fin 0) (fin 0) (fin 9)
      = .ok (jitterWaypoints, buildGraph sampleEnv jitterWaypoints 3,
          findOptimalRoute (buildGraph sampleEnv jitterWaypoints 3)) := by
  unfold handlerRoute
  rw [jitter_generateWaypoints]
  simp only
  rw [createWaypointGraph_far sampleEnv jitterWaypoints (some farIncidents)
    (createKDTree (some farIncidents)) 3 jitter_far]

/-- Along a route of edges of a graph with finite weights and one entry per pair, the
running total grows by a fixed non-negative amount. -/
theorem pathWeightFrom_offset (G : Graph)
    (hW : ∀ e ∈ G.edges, ∃ w, 0 ≤ w ∧ e.data.length = fin w)
    (hk : (G.edges.map Edge.key).Nodup) (l : List Nat) :
    ∀ x, List.Chain' (fun a b => ∃ e ∈ G.edges, e.u = a ∧ e.v = b) (x :: l) →
      ∃ c, 0 ≤ c ∧ ∀ t, pathWeightFrom G (fin t) (x :: l) = fin (t + c) := by
  induction l with
  | nil =>
      intro x _
      exact ⟨0, le_refl 0, fun t => by simp [pathWeightFrom]⟩
  | cons y l ih =>
      intro x hc
      rw [List.chain'_cons] at hc
      obtain ⟨⟨e, he, rfl, rfl⟩, hc2⟩ := hc
      obtain ⟨w, hw0, hw⟩ := hW e he
      obtain ⟨c, hc0, hcf⟩ := ih e.v hc2
      refine ⟨w + c, by linarith, fun t => ?_⟩
      rw [pathWeightFrom, edgeLength_of_mem G hk e he, hw, fin_add_fin, hcf]
      congr 1
      ring

/-- Witness of the amended C23: the request from `(0, 0)` to `(0, 9)` with the draws
`jitterDraws` and the incidents `farIncidents`. -/
theorem route_cost_le_primary_witness :
    ∃ (r : List Nat) (x y : ℚ),
      findOptimalRoute (buildGraph sampleEnv jitterWaypoints 3) = r.map Int.ofNat
      ∧ pathWeight (buildGraph sampleEnv jitterWaypoints 3) r = fin x
      ∧ primaryCost sampleEnv jitterWaypoints = fin y ∧ x ≤ y :=
  route_cost_le_primary sampleEnv jitterDraws (some farIncidents)
    (fin 0) (fin 0) (fin 0) (fin 9) jitterWaypoints
    (buildGraph sampleEnv jitterWaypoints 3)
    (findOptimalRoute (buildGraph sampleEnv jitterWaypoints 3))
    jitter_handlerRoute jitter_finite

/-! ## The distance of an unpenalized route -/

/-- The data stored under the pair of an edge of a graph with one entry per pair is the
data of that edge. -/
theorem getEdge_of_mem (G : Graph) (hk : (G.edges.map Edge.key).Nodup) (e : Edge)
    (he : e ∈ G.edges) : G.getEdge e.u e.v = some e.data := by
  unfold Graph.getEdge
  cases hfind : G.edges.find? (fun e' => decide (e'.key = (e.u, e.v))) with
  | none =>
      rw [List.find?_eq_none] at hfind
      exact absurd (by simp [Edge.key]) (hfind e he)
  | some e' =>
      have hmem := List.mem_of_find?_eq_some hfind
      have hkey := List.find?_some hfind
      have : e' = e := List.inj_on_of_nodup_map hk hmem he (by simpa [Edge.key] using hkey)
      rw [this]
      rfl

/-- Along a route of edges to none of which a penalty was applied, the loop of
`calculateRouteDistance` adds up the haversine distances. -/
theorem routeTotal_unpenalized (env : Env) (ws : List Waypoint) (cd : Option (List Crime))
    (tree : Option KDTree) (nc : Int) (G : Graph)
    (hG : createWaypointGraph env ws cd tree nc = .ok G) (route : List Nat) :
    ∀ total, List.Chain' (fun u v => (∃ e ∈ G.edges, e.u = u ∧ e.v = v)
        ∧ specEdgePenalty env cd tree (wp ws u) (wp ws v) = fin 1) route →
      routeTotal G total route = .ok (haversineTotal env ws total route) := by
  obtain ⟨_, hk, _, _, _⟩ := returned_graph_shape env ws cd tree nc G hG
  have hGe := returned_graph_scaled env ws cd tree nc
  rw [hG] at hGe
  injection hGe with hGe
  induction route with
  | nil => intro total _; rfl
  | cons u rest ih =>
      intro total hc
      cases rest with
      | nil => rfl
      | cons v rest' =>
          rw [List.chain'_cons] at hc
          obtain ⟨⟨⟨e, he, hu, hv⟩, hP⟩, hc2⟩ := hc
          have hlen : e.data.length = hav env (wp ws u) (wp ws v) := by
            have he' := he
            rw [hGe] at he'
            obtain ⟨e0, he0, rfl⟩ := List.mem_map.1 he'
            have hu0 : e0.u = u := hu
            have hv0 : e0.v = v := hv
            show e0.data.length * specEdgePenalty env cd tree (wp ws e0.u) (wp ws e0.v) = _
            rw [hu0, hv0, hP, mul_one_eq, buildGraph_edge_length env ws nc e0 he0, hu0, hv0]
          have hget := getEdge_of_mem G hk e he
          rw [hu, hv] at hget
          rw [routeTotal, hget]
          simp only
          rw [hlen, haversineTotal]
          exact ih _ hc2

/-- C25, amended: for every graph `G` built by `createWaypointGraph` and every route
whose consecutive pairs are edges of `G` to which no penalty was applied (the maximum
penalty over the three check points of the edge is 1.0, as it is for every edge when
the index is `null`, which is what `createKDTree` returns, or when there is no incident
data), `calculateRouteDistance(G, route)` returns the sum of the haversine distances in
metres between the waypoints of consecutive route nodes, divided by 1000. -/
theorem calculateRouteDistance_unpenalized (env : Env) (ws : List Waypoint)
    (cd : Option (List Crime)) (tree : Option KDTree) (nc : Int) (G : Graph)
    (route : List Nat) (hG : createWaypointGraph env ws cd tree nc = .ok G)
    (hroute : List.Chain' (fun u v => (∃ e ∈ G.edges, e.u = u ∧ e.v = v)
      ∧ specEdgePenalty env cd tree (wp ws u) (wp ws v) = fin 1) route) :
    calculateRouteDistance G route = haversineTotal env ws (fin 0) route / fin 1000 := by
  unfold calculateRouteDistance
  rw [routeTotal_unpenalized env ws cd tree nc G hG route (fin 0) hroute]

/-- Witness of the amended C25: two waypoints, one incident at the middle of the edge
between them, and the index `createKDTree` returns for the incident list. -/
theorem calculateRouteDistance_unpenalized_witness :
    calculateRouteDistance
        (buildGraph sampleEnv [⟨fin 13, fin 80⟩, ⟨fin 13, fin (401 / 5)⟩] 3) [0, 1]
      = haversineTotal sampleEnv [⟨fin 13, fin 80⟩, ⟨fin 13, fin (401 / 5)⟩] (fin 0) [0, 1]
          / fin 1000 :=
  calculateRouteDistance_unpenalized sampleEnv [⟨fin 13, fin 80⟩, ⟨fin 13, fin (401 / 5)⟩]
    (some [⟨.num 0, fin 13, fin (801 / 10)⟩])
    (createKDTree (some [⟨.num 0, fin 13, fin (801 / 10)⟩])) 3
    (buildGraph sampleEnv [⟨fin 13, fin 80⟩, ⟨fin 13, fin (401 / 5)⟩] 3) [0, 1] rfl
    (by
      rw [List.chain'_cons]
      refine ⟨⟨⟨primaryEdge sampleEnv [⟨fin 13, fin 80⟩, ⟨fin 13, fin (401 / 5)⟩] 0, ?_, rfl, rfl⟩,
        ?_⟩, List.chain'_singleton 1⟩
      · rw [mem_buildGraph_edges]
        exact Or.inl ⟨0, by decide, rfl⟩
      · apply specEdgePenalty_inactive
        rintro ⟨h, _⟩
        rw [createKDTree_none] at h
        cases h)

/-! ## The search in a graph without weights -/

/-- C20, as stated, fails.  In the graph built from three waypoints, the middle one
without coordinates (as `generateWaypoints` produces from an infinite input), the edge
weights are `NaN`: the search returns no route, `findOptimalRoute` falls back to
`[0, 2]`, which has no weight in the graph, and the weight of the primary path is
`NaN`, so the one is not less than or equal to the other. -/
theorem nan_route_not_le_primary :
    ∃ G, createWaypointGraph sampleEnv [⟨fin 0, fin 0⟩, ⟨nan, nan⟩, ⟨fin 1, fin 1⟩]
          none none 3 = .ok G
      ∧ G.shortestPath 0 2 = .error .noPath
      ∧ findOptimalRoute G = [0, 2]
      ∧ pathWeight G [0, 2] = nan
      ∧ pathWeight G (List.range 3) = nan
      ∧ JSNum.le nan nan = false :=
  ⟨_, nan_graph_eq, rfl, by decide, by decide, by decide, rfl⟩

/-! ## A request with an infinite coordinate -/

theorem nan_add (x : JSNum) : nan + x = nan := by
  cases x <;> rfl

theorem add_nan (x : JSNum) : x + nan = nan := by
  cases x <;> rfl

theorem div_nan (x : JSNum) : x / nan = nan := by
  cases x <;> rfl

/-- From a source of infinite latitude every intermediate waypoint comes out without
coordinates. -/
theorem inf_intermediate (i : Nat) (hi : 0 < i) (r : JSNum) :
    intermediate sampleEnv posInf (fin 0) (fin 0) (fin 9) 8 i r = ⟨nan, nan⟩ := by
  have ht : ofNat i / (ofNat 8 + fin 1) = fin ((i : ℚ) / 9) := by
    simp only [ofNat_eq, fin_add_fin]
    rw [fin_div_fin _ _ (by norm_num)]
    norm_num
  have hq : (0 : ℚ) < (i : ℚ) / 9 := by
    have : (0 : ℚ) < (i : ℚ) := by exact_mod_cast hi
    positivity
  have hmul : (fin 0 - posInf) * fin ((i : ℚ) / 9) = negInf := by
    show mul (add (fin 0) (neg posInf)) (fin ((i : ℚ) / 9)) = negInf
    simp [add, neg, mul, infTimes, hq, ne_of_gt hq]
  have hbase : (basePoint posInf (fin 0) (fin 0) (fin 9) 8 i).2.1 = nan := by
    simp only [basePoint, ht, hmul]
    rfl
  unfold intermediate
  simp only [hbase, nan_add]
  have hcos : sampleEnv.cos (nan * PI / fin 180) = nan := rfl
  have hk : kmPerDegree * nan = nan := rfl
  rw [hcos, hk, div_nan, add_nan]

/-- The waypoints of the request from `(Infinity, 0)` to `(0, 9)`. -/
theorem inf_generateWaypoints (rand : Nat → JSNum) :
    generateWaypoints sampleEnv rand posInf (fin 0) (fin 0) (fin 9) 8 = .ok infWaypoints := by
  rw [generateWaypoints_of_not_nan sampleEnv rand posInf (fin 0) (fin 0) (fin 9) 8 rfl]
  have hr : List.range 8 = [0, 1, 2, 3, 4, 5, 6, 7] := by decide
  rw [hr]
  simp only [List.map_cons, List.map_nil]
  rw [inf_intermediate _ (by decide), inf_intermediate _ (by decide),
    inf_intermediate _ (by decide), inf_intermediate _ (by decide),
    inf_intermediate _ (by decide), inf_intermediate _ (by decide),
    inf_intermediate _ (by decide), inf_intermediate _ (by decide)]
  rfl

/-- The graph built from `infWaypoints`: nine primary edges of weight `NaN` and no
shortcut. -/
theorem inf_buildGraph :
    buildGraph sampleEnv infWaypoints 3
      = ⟨(List.range 10).map (nodeOf infWaypoints),
          (List.range 9).map (fun i => ⟨i, i + 1, ⟨nan, .primary⟩⟩)⟩ := by
  rw [buildGraph_eq]
  have hp : primaryEdges sampleEnv infWaypoints
      = (List.range 9).map (fun i => ⟨i, i + 1, ⟨nan, .primary⟩⟩) := by decide
  have hm : (nan : JSNum) * fin (5 / 2) = nan := rfl
  have hs : secondaryEdges sampleEnv infWaypoints 3 = [] := by
    simp [secondaryEdges, secondaryRow, forwardTargets, maxForwardSkip, List.range_succ,
      List.range', shortcutOk, hav, wp, sampleEnv, lt, hm, infWaypoints]
  rw [hp, hs]
  rfl

/-- In the graph built from `infWaypoints` the search finds no route: `findOptimalRoute`
falls back to `[0, 9]`; the fallback route has no weight in the graph and the cost of
the primary path is `NaN`. -/
theorem inf_route :
    findOptimalRoute (buildGraph sampleEnv infWaypoints 3) = [0, 9]
      ∧ pathWeight (buildGraph sampleEnv infWaypoints 3) [0, 9] = nan
      ∧ primaryCost sampleEnv infWaypoints = nan := by
  rw [inf_buildGraph]
  refine ⟨by decide, by decide, by decide⟩

/-! ## The cost of the route against the primary path -/

/-- C23, as stated, fails.  The request from `(0, 0)` to `(0, 9)` with ten incidents
more than 5 km (about 111 km) from the straight line: the first intermediate waypoint
is moved off the line, the shortcut `(0, 2)` passes its test and is shorter than the
steps `(0, 1)` and `(1, 2)` together, no penalty applies, and the route the handler
computes costs less than the unpenalized primary path.  And the request from
`(Infinity, 0)` to `(0, 9)` with the same incidents: the weights are `NaN`, the route is
the fallback `[0, 9]`, which has no cost in the graph, and the cost of the primary path
is `NaN`, so the costs are not comparable. -/
theorem route_cheaper_than_primary :
    farIncidents.length = 10
      ∧ (∀ c ∈ farIncidents, ∀ x : ℚ,
          ∃ d, sampleEnv.haversine c.lat c.long (fin 0) (fin x) = fin d ∧ 5000 ≤ d)
      ∧ (∃ (G : Graph) (r : List Nat) (x y : ℚ),
          handlerRoute sampleEnv jitterDraws (some farIncidents)
              (createKDTree (some farIncidents)) (fin 0) (fin 0) (fin 0) (fin 9)
            = .ok (jitterWaypoints, G, r.map Int.ofNat)
          ∧ pathWeight G r = fin x
          ∧ primaryCost sampleEnv jitterWaypoints = fin y
          ∧ x < y)
      ∧ ∃ G : Graph,
          handlerRoute sampleEnv jitterDraws (some farIncidents)
              (createKDTree (some farIncidents)) posInf (fin 0) (fin 0) (fin 9)
            = .ok (infWaypoints, G, [0, 9])
          ∧ pathWeight G [0, 9] = nan
          ∧ primaryCost sampleEnv infWaypoints = nan
          ∧ JSNum.le nan nan = false := by
  refine ⟨rfl, ?_, ?_, ?_⟩
  rotate_right
  · refine ⟨buildGraph sampleEnv infWaypoints 3, ?_, inf_route.2.1, inf_route.2.2, rfl⟩
    unfold handlerRoute
    rw [inf_generateWaypoints]
    simp only
    rw [createWaypointGraph_no_index]
    simp only
    rw [inf_route.1]
  · intro c hc x
    simp only [farIncidents, List.mem_map, List.mem_range] at hc
    obtain ⟨k, _, rfl⟩ := hc
    refine ⟨111320 * (|0 - 1| + |x - (k : ℚ)|), rfl, ?_⟩
    have : (0 : ℚ) ≤ |x - (k : ℚ)| := abs_nonneg _
    norm_num
    linarith
  · have hG := createWaypointGraph_far sampleEnv jitterWaypoints (some farIncidents)
      (createKDTree (some farIncidents)) 3 jitter_far
    obtain ⟨hids, hk, hinc, hprim, _⟩ := returned_graph_shape sampleEnv jitterWaypoints
      (some farIncidents) (createKDTree (some farIncidents)) 3 _ hG
    have hW := buildGraph_finite_weights sampleEnv jitterWaypoints 3 jitter_finite
    have hlen : jitterWaypoints.length = 10 := rfl
    rw [hlen] at hids hinc hprim
    have hcount : (buildGraph sampleEnv jitterWaypoints 3).nodeCount = 10 := by
      have := congrArg List.length hids
      simpa [Graph.nodeIds, Graph.nodeCount] using this
    -- the three edges at the start of the route
    have h01 : hav sampleEnv (wp jitterWaypoints 0) (wp jitterWaypoints 1)
        = fin (111320 * (79 / 75)) := by
      simp only [hav, wp, jitterWaypoints, List.getD_cons_zero, List.getD_cons_succ, sampleEnv]
      norm_num [abs_of_nonneg, abs_of_nonpos]
    have h12 : hav sampleEnv (wp jitterWaypoints 1) (wp jitterWaypoints 2)
        = fin (111320 * (79 / 75)) := by
      simp only [hav, wp, jitterWaypoints, List.getD_cons_zero, List.getD_cons_succ, sampleEnv]
      norm_num [abs_of_nonneg, abs_of_nonpos]
    have h02 : hav sampleEnv (wp jitterWaypoints 0) (wp jitterWaypoints 2)
        = fin (111320 * 2) := by
      simp only [hav, wp, jitterWaypoints, List.getD_cons_zero, List.getD_cons_succ, sampleEnv]
      norm_num [abs_of_nonneg, abs_of_nonpos]
    have hcut : shortcut sampleEnv jitterWaypoints 0 2
        ∈ (buildGraph sampleEnv jitterWaypoints 3).edges := by
      rw [mem_buildGraph_edges]
      refine Or.inr ⟨0, 2, by decide, ?_, ?_, rfl⟩
      · rw [mem_forwardTargets]
        simp [maxForwardSkip, jitterWaypoints]
      · simp only [shortcutOk, h01, h02, fin_mul_fin, lt, decide_eq_true_eq]
        norm_num
    have hp1 : ∀ m, m + 1 < 10 → primaryEdge sampleEnv jitterWaypoints m
        ∈ (buildGraph sampleEnv jitterWaypoints 3).edges := by
      intro m hm
      rw [mem_buildGraph_edges]
      exact Or.inl ⟨m, hm, rfl⟩
    have hl01 : edgeLength (buildGraph sampleEnv jitterWaypoints 3) 0 1
        = fin (111320 * (79 / 75)) :=
      (edgeLength_of_mem _ hk _ (hp1 0 (by decide))).trans h01
    have hl12 : edgeLength (buildGraph sampleEnv jitterWaypoints 3) 1 2
        = fin (111320 * (79 / 75)) :=
      (edgeLength_of_mem _ hk _ (hp1 1 (by decide))).trans h12
    have hl02 : edgeLength (buildGraph sampleEnv jitterWaypoints 3) 0 2 = fin (111320 * 2) :=
      (edgeLength_of_mem _ hk _ hcut).trans h02
    -- the common tail of the two paths
    have htail : List.Chain' (fun a b => ∃ e ∈ (buildGraph sampleEnv jitterWaypoints 3).edges,
        e.u = a ∧ e.v = b) [2, 3, 4, 5, 6, 7, 8, 9] := by
      simp only [List.chain'_cons, List.chain'_singleton, and_true]
      exact ⟨hprim 2 (by decide), hprim 3 (by decide), hprim 4 (by decide),
        hprim 5 (by decide), hprim 6 (by decide), hprim 7 (by decide), hprim 8 (by decide)⟩
    obtain ⟨c, hc0, hcf⟩ := pathWeightFrom_offset _ hW hk _ 2 htail
    have hpath : List.Chain' (fun a b => ∃ e ∈ (buildGraph sampleEnv jitterWaypoints 3).edges,
        e.u = a ∧ e.v = b) [0, 2, 3, 4, 5, 6, 7, 8, 9] := by
      rw [List.chain'_cons]
      exact ⟨⟨_, hcut, rfl, rfl⟩, htail⟩
    obtain ⟨r, a, b, hroute, _, _, _, ha, hb, hab, _⟩ := shortestPath_of_path
      (buildGraph sampleEnv jitterWaypoints 3) 0 9 hW hk (fun e he => (hinc e he).1)
      (by rw [hcount]; decide) [0, 2, 3, 4, 5, 6, 7, 8, 9] rfl rfl
      (fun y hy => by
        rw [hids, List.mem_range]
        simp only [List.mem_cons, List.mem_singleton, List.not_mem_nil, or_false] at hy
        omega)
      hpath
    have hb' : b = 111320 * 2 + c := by
      have h := hb
      rw [pathWeight, pathWeightFrom, hl02, fin_add_fin, hcf] at h
      injection h with h
      rw [← h]
      ring
    have hy : primaryCost sampleEnv jitterWaypoints
        = fin (111320 * (79 / 75) + 111320 * (79 / 75) + c) := by
      rw [← pathWeight_primary sampleEnv jitterWaypoints 3]
      have hr10 : List.range jitterWaypoints.length = [0, 1, 2, 3, 4, 5, 6, 7, 8, 9] := by
        decide
      rw [hr10]
      rw [pathWeight, pathWeightFrom, pathWeightFrom, hl01, hl12, fin_add_fin, fin_add_fin,
        hcf]
      congr 1
      ring
    refine ⟨_, r, a, _, ?_, ha, hy, ?_⟩
    · rw [jitter_handlerRoute]
      congr 3
      apply findOptimalRoute_of_ok _ r (by rw [hcount]; decide)
      rw [hcount]
      exact hroute
    · rw [hb'] at hab
      have : (111320 : ℚ) * 2 < 111320 * (79 / 75) + 111320 * (79 / 75) := by norm_num
      linarith

end SafeRoute
